import Mathlib

/-!
# Kojak analysis engine (`KAnalysis.cpp`): a shallow embedding

The definitions below follow `src/KAnalysis.cpp` function by function.

Conventions of the embedding

* `double` and `float` values (masses, scores, tolerances) are exact rationals `ℚ`;
  rounding is not modelled, and `x / 0 = 0` as in every field of Mathlib.
* C `int` and `char` counters are `Int` or `Nat`; none of the modelled loops can overflow.
  The cast `(char)i` of a modification position is the function `cChar`.
* An array read outside the stored cells yields the `-1` sentinel (motif cells) or a
  default record; the places where the source can perform such a read are pointed out.
* Classes of the repository that are not part of `KAnalysis.cpp` (`KData`, `KSpectrum`,
  `KDatabase`, `KIons`) appear as records of the values and lookup functions that the
  analysis reads from them.
* Every `checkScore` call is recorded, in program order, in an output list.
-/

namespace Kojak

/-! ## Records -/

/-- One modification on a peptide: `kPepMod` (position and mass). -/
structure kPepMod where
  pos : Int
  mass : ℚ
deriving DecidableEq, Inhabited

/-- One precursor of a spectrum: `kPrecursor` (monoisotopic mass and charge). -/
structure kPrecursor where
  monoMass : ℚ
  charge : Int
deriving DecidableEq, Inhabited

/-- One cross-linker as read through `spec->getLink(i)`: its mass and its `mono` flag. -/
structure kLinker where
  mass : ℚ
  mono : Int
deriving DecidableEq, Inhabited

/-- A singlet score card as stored on a spectrum: `kSingletScoreCard`.
`modLen` of the source is the length of `mods`. -/
structure kSingletScoreCard where
  len : Int
  k1 : Int
  linkable : Bool
  pep1 : Int
  simpleScore : ℚ
  mass : ℚ
  mods : List kPepMod
deriving DecidableEq, Inhabited

/-- The scratch copy of a singlet card used by `analyzeRelaxed`: `kSingletScoreCardPlus`.
`motif` holds the 20 motif cells. -/
structure kSingletScoreCardPlus where
  len : Int
  k1 : Int
  linkable : Bool
  pep1 : Int
  rank : Nat
  simpleScore : ℚ
  mass : ℚ
  motif : List Int
  target : Int
deriving DecidableEq, Inhabited

/-- A full match as handed to `checkScore`: `kScoreCard`, with the fields that
`KAnalysis.cpp` assigns. -/
structure kScoreCard where
  simpleScore : ℚ
  k1 : Int
  k2 : Int
  mass : ℚ
  linkable1 : Bool
  linkable2 : Bool
  pep1 : Int
  pep2 : Int
  link : Int
  rank1 : Int
  rank2 : Int
  score1 : ℚ
  score2 : ℚ
  mass1 : ℚ
  mass2 : ℚ
  mods1 : List kPepMod
  mods2 : List kPepMod
deriving DecidableEq, Inhabited

/-- One theoretical fragment ion in bin coordinates: `key` is the integer part of the
binned m/z, `pos` the sub-bin position. -/
structure kMatchBin where
  key : Int
  pos : Int
deriving DecidableEq, Inhabited

/-- The bin lists of one peptide in one spectrum: `kMatchSet`, `sz` ions per charge for
each of the six series, addressed as `series charge index`. -/
structure kMatchSet where
  sz : Nat
  a : Nat → Nat → kMatchBin
  b : Nat → Nat → kMatchBin
  c : Nat → Nat → kMatchBin
  x : Nat → Nat → kMatchBin
  y : Nat → Nat → kMatchBin
  z : Nat → Nat → kMatchBin
deriving Inhabited

/-- What the relaxed pass reads from its surroundings: the parameters `dimersXL` and
`ppmPrecursor`, the motif lookups `getCounterMotif` and `getXLIndex` and the linker list
of `KData`, the precursors and the singlet table of the spectrum, the bin lists that
`setBinList` builds from the singlet ions of a card (`setPeptide`, `buildSingletIons(k1)`)
for a charge, a precursor-mass offset and a modification list, and the value that
`sharedScore` returns for two bin lists of the spectrum at a charge. -/
structure RelaxedEnv where
  dimersXL : Bool
  ppmPrecursor : ℚ
  getCounterMotif : Int → Int → Int
  getXLIndex : Int → Int → Int
  getLink : Int → kLinker
  precursors : List kPrecursor
  singlets : List kSingletScoreCard
  setBinList : kSingletScoreCardPlus → Int → ℚ → List kPepMod → kMatchSet
  sharedScore : kMatchSet → kMatchSet → Int → ℚ

/-- How far a run of the pairing pass got: still running, stopped by the `exit(-1)` of
the linker-index check, or stopped because the model's iteration budget was used up. -/
inductive RunStatus where
  | running
  | fatal
  | exhausted
deriving DecidableEq, Inhabited

/-- The mutable locals of the cross-link pass of `analyzeRelaxed`: the scratch list `s`,
the loop variable `i` (shared by the motif loop and the modification-copy loops), the
vector `matches` (field `matched`), the cards submitted so far, and the run status. -/
structure RelaxedState where
  s : List kSingletScoreCardPlus
  i : Nat
  matched : List Nat
  out : List kScoreCard
  status : RunStatus
deriving DecidableEq, Inhabited

/-! ## `findMass` -/

/-- The mass stored at index `mid` of the scratch list: `s[mid].mass`. -/
def massAt (s : List kSingletScoreCardPlus) (mid : Int) : ℚ :=
  (s.getD mid.toNat default).mass

/-- The `while` loop of `findMass`; `(lower+upper)/2` is C division, truncating towards
zero. The first argument bounds the number of iterations. -/
def findMassLoop (s : List kSingletScoreCardPlus) (sz : Int) (mass : ℚ) :
    Nat → Int → Int → Int → Int
  | 0, _, mid, _ => mid
  | fuel + 1, lower, mid, upper =>
    if massAt s mid = mass then mid
    else if lower ≥ upper then mid
    else
      let lower1 := if mass < massAt s mid then lower else mid + 1
      let upper1 := if mass < massAt s mid then mid - 1 else upper
      let mid1 := Int.tdiv (lower1 + upper1) 2
      if mid1 = sz then mid1 - 1
      else findMassLoop s sz mass fuel lower1 mid1 upper1

/-- Binary search to the closest mass: `KAnalysis::findMass`. -/
def findMass (s : List kSingletScoreCardPlus) (sz : Nat) (mass : ℚ) : Int :=
  findMassLoop s sz mass (sz + 2) 0 (Int.tdiv sz 2) sz

/-! ## The cross-link pass of `analyzeRelaxed` -/

/-- Cell `x` of a row of motif cells; a read past the stored cells yields `-1`. -/
def cellAt (cells : List Int) (x : Nat) : Int :=
  cells.getD x (-1)

/-- Motif cell `x` of a scratch card: `s[n].motif[x]`. -/
def motifAt (c : kSingletScoreCardPlus) (x : Nat) : Int :=
  cellAt c.motif x

/-- The scan `for (x = 0; x < 20; x++)` with its two `break`s: the first `x` whose cell
is `-1` or equals `v`; the first argument is the number of cells left, so that the scan
started with 20 cells at `x = 0` ends with `x = 20` when neither is found. -/
def cellScan (cells : List Int) (v : Int) : Nat → Nat → Nat
  | 0, x => x
  | left + 1, x =>
    if cellAt cells x = -1 then x
    else if cellAt cells x = v then x
    else cellScan cells v left (x + 1)

/-- The motif test on a partner ("Make sure peptide has valid XL motif"): the scan
stops before cell 20 and not on the sentinel. -/
def hasCounterMotif (c : kSingletScoreCardPlus) (counterMotif : Int) : Bool :=
  let x := cellScan c.motif counterMotif 20 0
  decide (x ≠ 20) && decide (motifAt c x ≠ -1)

/-- The ppm error of a total mass against a precursor mass. -/
def ppmError (totalMass monoMass : ℚ) : ℚ :=
  (totalMass - monoMass) / monoMass * 1000000

/-- The modifications stored with the singlet card of a given rank:
`sp->getSingletScoreCard(rank).mods`, `modLen` entries. -/
def modsOfRank (env : RelaxedEnv) (rank : Nat) : List kPepMod :=
  (env.singlets.getD rank default).mods

/-- The value `dShared` computed for template `sj` and partner `sn` at precursor `P`:
`sharedScore` of the bin lists `msTemplate` and `msPartner`, each built by `setBinList`
with the precursor charge, the offset `P.monoMass - card.mass` and the modifications
stored with the card. -/
def dShared (env : RelaxedEnv) (sj sn : kSingletScoreCardPlus) (P : kPrecursor) : ℚ :=
  env.sharedScore
    (env.setBinList sj P.charge (P.monoMass - sj.mass)
      (modsOfRank env sj.rank))
    (env.setBinList sn P.charge (P.monoMass - sn.mass)
      (modsOfRank env sn.rank))
    P.charge

/-- The card assembled under "Add the cross-link" for template `sj`, partner `sn`,
linker index `xlIndex` and precursor `P`. -/
def pairCard (env : RelaxedEnv) (sj sn : kSingletScoreCardPlus) (xlIndex : Int)
    (P : kPrecursor) : kScoreCard :=
  { simpleScore := sj.simpleScore * sj.len + sn.simpleScore * sn.len - dShared env sj sn P
    k1 := sj.k1
    k2 := sn.k1
    mass := sj.mass + sn.mass + (env.getLink xlIndex).mass
    linkable1 := sj.linkable
    linkable2 := sn.linkable
    pep1 := sj.pep1
    pep2 := sn.pep1
    link := xlIndex
    rank1 := sj.rank
    rank2 := sn.rank
    score1 := sj.simpleScore * sj.len
    score2 := sn.simpleScore * sn.len
    mass1 := sj.mass
    mass2 := sn.mass
    mods1 := modsOfRank env sj.rank
    mods2 := modsOfRank env sn.rank }

/-- The state after a card for partner `n` was recorded: the card is submitted, `n` is
pushed on `matches`, and `i` is left at the partner's `modLen` by the second
modification-copy loop `for(i=0;i<sc1.modLen;i++)`. -/
def recordPair (env : RelaxedEnv) (j n : Nat) (xlIndex : Int) (P : kPrecursor)
    (st : RelaxedState) : RelaxedState :=
  let sj := st.s.getD j default
  let sn := st.s.getD n default
  { st with
    i := (modsOfRank env sn.rank).length
    matched := st.matched ++ [n]
    out := st.out ++ [pairCard env sj sn xlIndex P] }

/-- The upward walk `while(n<count)` over the partner indices still to visit. -/
def walkUp (env : RelaxedEnv) (j : Nat) (counterMotif xlIndex : Int) (P : kPrecursor) :
    List Nat → RelaxedState → RelaxedState
  | [], st => st
  | n :: rest, st =>
    let sj := st.s.getD j default
    let sn := st.s.getD n default
    if !env.dimersXL && n == j then walkUp env j counterMotif xlIndex P rest st
    else if sn.simpleScore < 0 ∨ sn.k1 < 0 then walkUp env j counterMotif xlIndex P rest st
    else if n ∈ st.matched then walkUp env j counterMotif xlIndex P rest st
    else
      let totalMass := sj.mass + sn.mass + (env.getLink xlIndex).mass
      let ppm := ppmError totalMass P.monoMass
      if ppm < -env.ppmPrecursor then walkUp env j counterMotif xlIndex P rest st
      else if ppm > env.ppmPrecursor then st
      else if !hasCounterMotif sn counterMotif then
        walkUp env j counterMotif xlIndex P rest st
      else walkUp env j counterMotif xlIndex P rest (recordPair env j n xlIndex P st)

/-- The downward walk `while(n>-1)` over the partner indices still to visit. -/
def walkDown (env : RelaxedEnv) (j : Nat) (counterMotif xlIndex : Int) (P : kPrecursor) :
    List Nat → RelaxedState → RelaxedState
  | [], st => st
  | n :: rest, st =>
    let sj := st.s.getD j default
    let sn := st.s.getD n default
    if !env.dimersXL && n == j then walkDown env j counterMotif xlIndex P rest st
    else if sn.simpleScore < 0 ∨ sn.k1 < 0 then walkDown env j counterMotif xlIndex P rest st
    else if n ∈ st.matched then walkDown env j counterMotif xlIndex P rest st
    else
      let totalMass := sj.mass + sn.mass + (env.getLink xlIndex).mass
      let ppm := ppmError totalMass P.monoMass
      if ppm > env.ppmPrecursor then walkDown env j counterMotif xlIndex P rest st
      else if ppm < -env.ppmPrecursor then st
      else if !hasCounterMotif sn counterMotif then
        walkDown env j counterMotif xlIndex P rest st
      else walkDown env j counterMotif xlIndex P rest (recordPair env j n xlIndex P st)

/-- The indices `index, index+1, ..., count-1` visited by the upward walk. -/
def upIndices (count : Nat) (index : Int) : List Nat :=
  List.range' index.toNat (count - index.toNat)

/-- The indices `index-1, index-2, ..., 0` visited by the downward walk. -/
def downIndices (index : Int) : List Nat :=
  (List.range index.toNat).reverse

/-- The body of the precursor loop `for(m=0;m<sp->sizePrecursor();m++)`: the search for
the complement mass followed by the two walks. -/
def precursorStep (env : RelaxedEnv) (j : Nat) (counterMotif xlIndex : Int)
    (st : RelaxedState) (P : kPrecursor) : RelaxedState :=
  let sj := st.s.getD j default
  let index := findMass st.s st.s.length (P.monoMass - sj.mass - (env.getLink xlIndex).mass)
  let st1 := walkUp env j counterMotif xlIndex P (upIndices st.s.length index) st
  walkDown env j counterMotif xlIndex P (downIndices index) st1

/-- The precursor loop. -/
def precursorLoop (env : RelaxedEnv) (j : Nat) (counterMotif xlIndex : Int)
    (st : RelaxedState) : RelaxedState :=
  env.precursors.foldl (precursorStep env j counterMotif xlIndex) st

/-- The counter-motif loop `for (cm = 0; cm < 10; cm++)`; the first argument is the
number of iterations left. Each iteration reads `s[j].motif[i]` with the value that `i`
has at that moment. -/
def counterMotifLoop (env : RelaxedEnv) (j : Nat) : Nat → Int → RelaxedState → RelaxedState
  | 0, _, st => st
  | left + 1, cm, st =>
    let mot := motifAt (st.s.getD j default) st.i
    let counterMotif := env.getCounterMotif mot cm
    if counterMotif < 0 then st
    else
      let xlIndex := env.getXLIndex mot cm
      if xlIndex < 0 then { st with status := RunStatus.fatal }
      else counterMotifLoop env j left (cm + 1) (precursorLoop env j counterMotif xlIndex st)

/-- The motif loop `for (i=0;i<20;i++)` from its test onwards. The loop variable is the
field `i` of the state, which the body may overwrite; the first argument bounds the
number of iterations. -/
def motifLoop (env : RelaxedEnv) (j : Nat) : Nat → RelaxedState → RelaxedState
  | 0, st => { st with status := RunStatus.exhausted }
  | fuel + 1, st =>
    if ¬ st.i < 20 then st
    else if motifAt (st.s.getD j default) st.i = -1 then st
    else
      let st1 := counterMotifLoop env j 10 0 st
      if st1.status ≠ RunStatus.running then st1
      else motifLoop env j fuel { st1 with i := st1.i + 1 }

/-- The iteration budget given to the motif loop for a scratch list of `count` cards. -/
def motifFuel (count : Nat) : Nat :=
  21 * (count + 1)

/-- The scratch list after "Mark peptide as searched": the score of card `j` negated. -/
def markSearched (s : List kSingletScoreCardPlus) (j : Nat) : List kSingletScoreCardPlus :=
  s.set j { s.getD j default with simpleScore := -(s.getD j default).simpleScore }

/-- The body of the template loop `for(j=0;j<count;j++)`. -/
def templateStep (env : RelaxedEnv) (st : RelaxedState) (j : Nat) : RelaxedState :=
  if st.status ≠ RunStatus.running then st
  else
    let sj := st.s.getD j default
    if sj.simpleScore ≤ 0 then st
    else if !sj.linkable then st
    else if sj.k1 < 0 then st
    else
      let st1 := motifLoop env j (motifFuel st.s.length) { st with matched := [], i := 0 }
      if st1.status ≠ RunStatus.running then st1
      else { st1 with s := markSearched st1.s j }

/-- The cross-link pass of `analyzeRelaxed` ("Iterate through sorted list of peptides")
started on the sorted scratch list `s`. -/
def crossLinkPass (env : RelaxedEnv) (s : List kSingletScoreCardPlus) : RelaxedState :=
  (List.range s.length).foldl (templateStep env)
    { s := s, i := 0, matched := [], out := [], status := RunStatus.running }

/-! ## Invariants of the pairing loops -/

/-- The conditions under which the walks record a card for partner `n`. -/
structure PairGuard (env : RelaxedEnv) (st : RelaxedState) (j n : Nat)
    (counterMotif xlIndex : Int) (P : kPrecursor) : Prop where
  notSelf : env.dimersXL = false → n ≠ j
  score : 0 ≤ (st.s.getD n default).simpleScore
  site : 0 ≤ (st.s.getD n default).k1
  fresh : n ∉ st.matched
  ppmLo : -env.ppmPrecursor ≤ ppmError ((st.s.getD j default).mass + (st.s.getD n default).mass
    + (env.getLink xlIndex).mass) P.monoMass
  ppmHi : ppmError ((st.s.getD j default).mass + (st.s.getD n default).mass
    + (env.getLink xlIndex).mass) P.monoMass ≤ env.ppmPrecursor
  motif : hasCounterMotif (st.s.getD n default) counterMotif = true

/-- A state predicate that survives what the walks, the precursor loop and the
counter-motif loop do: stopping the run at the linker-index check, and recording a card
under `PairGuard`. -/
structure StepInv (env : RelaxedEnv) (j : Nat) (Q : RelaxedState → Prop) : Prop where
  setFatal : ∀ st, Q st → Q { st with status := RunStatus.fatal }
  record : ∀ st n counterMotif xlIndex P, Q st → n < st.s.length → P ∈ env.precursors →
    0 ≤ counterMotif → 0 ≤ xlIndex →
    (∃ i0 cm, counterMotif = env.getCounterMotif (motifAt (st.s.getD j default) i0) cm ∧
      xlIndex = env.getXLIndex (motifAt (st.s.getD j default) i0) cm) →
    PairGuard env st j n counterMotif xlIndex P → Q (recordPair env j n xlIndex P st)

/-- A state predicate that also survives what the motif loop does on top: overwriting
`i` and running out of iterations. -/
structure PairInv (env : RelaxedEnv) (j : Nat) (Q : RelaxedState → Prop)
    extends StepInv env j Q : Prop where
  setI : ∀ st x, Q st → Q { st with i := x }
  setExhausted : ∀ st, Q st → Q { st with status := RunStatus.exhausted }

/-- The scratch list `s` differs from the sorted snapshot `s0` only in cards whose
positive score has been negated. -/
def ScoreRel (s0 s : List kSingletScoreCardPlus) : Prop :=
  s.length = s0.length ∧
  ∀ x, s.getD x default = s0.getD x default ∨
    (s.getD x default = { s0.getD x default with simpleScore := -(s0.getD x default).simpleScore } ∧
      0 < (s0.getD x default).simpleScore)

/-- What is known when the pass records a card for template `j` and partner `n` of the
sorted snapshot `s0`, with counter-motif `cmv`, linker `xl` and precursor `P`. -/
structure PairFacts (env : RelaxedEnv) (s0 : List kSingletScoreCardPlus) (j n : Nat)
    (cmv xl : Int) (P : kPrecursor) : Prop where
  jlt : j < s0.length
  nlt : n < s0.length
  tScore : 0 < (s0.getD j default).simpleScore
  tLinkable : (s0.getD j default).linkable = true
  tSite : 0 ≤ (s0.getD j default).k1
  notSelf : env.dimersXL = false → n ≠ j
  pScore : 0 ≤ (s0.getD n default).simpleScore
  pSite : 0 ≤ (s0.getD n default).k1
  prec : P ∈ env.precursors
  ppmLo : -env.ppmPrecursor ≤ ppmError ((s0.getD j default).mass + (s0.getD n default).mass
    + (env.getLink xl).mass) P.monoMass
  ppmHi : ppmError ((s0.getD j default).mass + (s0.getD n default).mass
    + (env.getLink xl).mass) P.monoMass ≤ env.ppmPrecursor
  motif : hasCounterMotif (s0.getD n default) cmv = true
  cmNonneg : 0 ≤ cmv
  xlNonneg : 0 ≤ xl
  origin : ∃ i0 cm, cmv = env.getCounterMotif (motifAt (s0.getD j default) i0) cm ∧
    xl = env.getXLIndex (motifAt (s0.getD j default) i0) cm

/-- A card that the pass can record on the sorted snapshot `s0`. -/
def Recorded (env : RelaxedEnv) (s0 : List kSingletScoreCardPlus) (c : kScoreCard) : Prop :=
  ∃ j n cmv xl P, PairFacts env s0 j n cmv xl P ∧
    c = pairCard env (s0.getD j default) (s0.getD n default) xl P

/-- Two submitted cards pair the same two singlet cards, in either order. -/
def SamePair (a b : kScoreCard) : Prop :=
  (a.rank1 = b.rank1 ∧ a.rank2 = b.rank2) ∨ (a.rank1 = b.rank2 ∧ a.rank2 = b.rank1)

/-- The bookkeeping behind "one card per pair": no two submitted cards pair the same
singlets, and every submitted card either has a consumed template or was recorded for
the current template `j` with its partner on `matches`. -/
def PairOnce (s0 : List kSingletScoreCardPlus) (cur : Option Nat) (st : RelaxedState) : Prop :=
  st.out.Pairwise (fun a b => ¬ SamePair a b) ∧
  ∀ c ∈ st.out, ∃ j1 n1, j1 < s0.length ∧ n1 < s0.length ∧
    c.rank1 = ((s0.getD j1 default).rank : Int) ∧ c.rank2 = ((s0.getD n1 default).rank : Int) ∧
    ((st.s.getD j1 default).simpleScore < 0 ∨ (cur = some j1 ∧ n1 ∈ st.matched))

/-- A partner `n` that passes the tests placed before the mass test of the walks, and
whose ppm error against precursor `P` lies in the closed tolerance interval. -/
structure WalkCandidate (env : RelaxedEnv) (s : List kSingletScoreCardPlus) (j n : Nat)
    (xl : Int) (P : kPrecursor) : Prop where
  notSelf : env.dimersXL = false → n ≠ j
  score : 0 ≤ (s.getD n default).simpleScore
  site : 0 ≤ (s.getD n default).k1
  ppmLo : -env.ppmPrecursor ≤ ppmError ((s.getD j default).mass + (s.getD n default).mass
    + (env.getLink xl).mass) P.monoMass
  ppmHi : ppmError ((s.getD j default).mass + (s.getD n default).mass
    + (env.getLink xl).mass) P.monoMass ≤ env.ppmPrecursor

/-- The number of iterations the motif loop can still make: every iteration either
records a card, which uses up one of the `count` possible partners, or leaves `i` one
step closer to 20. -/
def motifBudget (count : Nat) (st : RelaxedState) : Nat :=
  21 * (count - st.matched.length) + (20 - st.i)

/-- The state `st` was reached from `st0` by the loops below the motif loop: the scratch
list is the same, the run has not run out of iterations, `matches` holds distinct
indices of the scratch list, and either nothing was recorded and `i` is unchanged or
`matches` has grown. -/
def Progress (st0 st : RelaxedState) : Prop :=
  st.s = st0.s ∧ st.status ≠ RunStatus.exhausted ∧ st.matched.Nodup ∧
    (∀ n ∈ st.matched, n < st0.s.length) ∧
    ((st.matched.length = st0.matched.length ∧ st.i = st0.i) ∨
      st0.matched.length < st.matched.length)


/-! ## The database records and the snapshot of `analyzeRelaxed` -/

/-- One occurrence of a peptide in a protein: `kPepMap` (protein index, first and last
residue). -/
structure kPepMap where
  index : Nat
  start : Nat
  stop : Nat
deriving DecidableEq, Inhabited

/-- A peptide of the database: `kPeptide`, with the fields that the analysis reads. -/
structure kPeptide where
  mass : ℚ
  map : List kPepMap
  nTerm : Bool
  cTerm : Bool
deriving DecidableEq, Inhabited

/-- A protein of the database as returned by `db->at(i)`: its name and its sequence. -/
structure kProtein where
  name : String
  sequence : List Char
deriving DecidableEq, Inhabited

/-- The database as the analysis reads it: the proteins and the two peptide lists
(`getPeptideList(true)` and `getPeptideList(false)`). -/
structure KDatabase where
  proteins : List kProtein
  linkablePeptides : List kPeptide
  otherPeptides : List kPeptide

/-- Protein `i` of the database: `db->at(i)`. -/
def KDatabase.protein (db : KDatabase) (i : Nat) : kProtein :=
  db.proteins.getD i default

/-- Peptide `index` of the list chosen by `linkable`: `db->getPeptide(index, linkable)`. -/
def KDatabase.getPeptide (db : KDatabase) (index : Int) (linkable : Bool) : kPeptide :=
  (if linkable then db.linkablePeptides else db.otherPeptides).getD index.toNat default

/-- Residue `pos` of a protein sequence: `sequence[pos]`. -/
def residueAt (p : kProtein) (pos : Int) : Char :=
  if pos < 0 then Char.ofNat 0 else p.sequence.getD pos.toNat (Char.ofNat 0)

/-- The motif cells and `motifCount` after "map the motifs": the 20 cells of the row of
residue `aa`, and the number of cells that are `> -1`. -/
def initialMotifs (xlTable : Char → Nat → Int) (aa : Char) : List Int × Nat :=
  ((List.range 20).map (xlTable aa),
    ((List.range 20).filter (fun i => decide (xlTable aa i > -1))).length)

/-- The loop `for (k = 0; k<20; k++)` that adds the motifs of a terminus row (`'n'` or
`'c'`) to the motif cells; `none` stands for the `exit(1)` taken when the scan of the
cells reaches 20. The first argument is the number of iterations left. -/
def addTerminusMotifs (row : Nat → Int) : Nat → Nat → List Int × Nat → Option (List Int × Nat)
  | 0, _, mc => some mc
  | left + 1, k, mc =>
    if row k = -1 then some mc
    else
      let m := cellScan mc.1 (row k) 20 0
      if m = 20 then none
      else if m = mc.2 then addTerminusMotifs row left (k + 1) (mc.1.set mc.2 (row k), mc.2 + 1)
      else addTerminusMotifs row left (k + 1) mc

/-- The body of "special case to map n-term or c-term" for one occurrence `mp` of the
peptide: the `'n'` motifs are added when `start + k1 < 2`, the `'c'` motifs when the
protein length minus one equals `k1`. -/
def mapOccurrence (xlTable : Char → Nat → Int) (db : KDatabase) (k1 : Int)
    (acc : Option (List Int × Nat)) (mp : kPepMap) : Option (List Int × Nat) :=
  match acc with
  | none => none
  | some mc =>
    let afterN :=
      if (mp.start : Int) + k1 < 2 then addTerminusMotifs (xlTable 'n') 20 0 mc else some mc
    match afterN with
    | none => none
    | some mc1 =>
      let n : Int := ((db.protein mp.index).sequence.length : Int) - 1
      if n = k1 then addTerminusMotifs (xlTable 'c') 20 0 mc1 else some mc1

/-- The motif cells of a scratch card: the row of the residue `aa` at the link site,
extended occurrence by occurrence with terminus motifs. -/
def mapMotifs (xlTable : Char → Nat → Int) (db : KDatabase) (pep : kPeptide) (k1 : Int)
    (aa : Char) : Option (List Int × Nat) :=
  pep.map.foldl (mapOccurrence xlTable db k1) (some (initialMotifs xlTable aa))

/-- The target/decoy flag: 2 when the peptide occurs in target and decoy proteins, 1 when
only in target proteins, 0 otherwise; a decoy protein has `decoy` inside its name. -/
def targetFlag (db : KDatabase) (decoy : String) (pep : kPeptide) : Int :=
  let k := (pep.map.filter (fun mp =>
    decide (¬ (decoy.toList <:+: (db.protein mp.index).name.toList)))).length
  let n := (pep.map.filter (fun mp =>
    decide (decoy.toList <:+: (db.protein mp.index).name.toList))).length
  if 0 < k ∧ 0 < n then 2 else if 0 < k then 1 else 0

/-- The scratch card made from singlet card `sc1` of rank `j` ("Make a sortable list of
top hits to compare"). -/
def snapshotCard (xlTable : Char → Nat → Int) (db : KDatabase) (decoy : String) (j : Nat)
    (sc1 : kSingletScoreCard) : Option kSingletScoreCardPlus :=
  let pep := db.getPeptide sc1.pep1 sc1.linkable
  let mp0 := pep.map.getD 0 default
  let aa := residueAt (db.protein mp0.index) ((mp0.start : Int) + sc1.k1)
  match mapMotifs xlTable db pep sc1.k1 aa with
  | none => none
  | some mc =>
    some { len := sc1.len, k1 := sc1.k1, linkable := sc1.linkable, pep1 := sc1.pep1, rank := j
           simpleScore := sc1.simpleScore
           mass := if sc1.simpleScore > 0 then sc1.mass else 0
           motif := mc.1
           target := targetFlag db decoy pep }

/-- The scratch list before the sort: one card per singlet card, ranks counted from `j`. -/
def snapshotFrom (xlTable : Char → Nat → Int) (db : KDatabase) (decoy : String) :
    Nat → List kSingletScoreCard → Option (List kSingletScoreCardPlus)
  | _, [] => some []
  | j, sc1 :: rest =>
    match snapshotCard xlTable db decoy j sc1 with
    | none => none
    | some c =>
      match snapshotFrom xlTable db decoy (j + 1) rest with
      | none => none
      | some cs => some (c :: cs)

/-- A row of 20 motif cells in the shape the tables are stored in: motif ids first, then
only `-1` sentinels. -/
def RowWellFormed (row : Nat → Int) : Prop :=
  ∃ c, c ≤ 20 ∧ (∀ i, i < c → -1 < row i) ∧ (∀ i, c ≤ i → i < 20 → row i = -1)

/-! ## Stage 1: `analyzePeptide`, `analyzeSinglets`, `scoreSpectra` -/

/-- The part of an ion set (`KIonSet`) that stage 1 and the kernels read: the precursor
mass, the total mass of the variable modifications, the modification mass per position
and the six fragment ladders, indexed `[charge][position]` (empty when not given). -/
structure KIonSet where
  mass : ℚ
  difMass : ℚ
  mods : List ℚ
  aIons : List (List ℚ) := []
  bIons : List (List ℚ) := []
  cIons : List (List ℚ) := []
  xIons : List (List ℚ) := []
  yIons : List (List ℚ) := []
  zIons : List (List ℚ) := []
deriving DecidableEq, Inhabited

/-- What stage 1 reads from its surroundings: parameters, the motif table and lookups and
the spectrum lookups of `KData`, the linker mass extrema computed by the constructor,
the ion sets that `KIons` holds after each of the three build sequences, the score of
the selected kernel (`xCorrScoring` or `kojakScoring`) and the card as the `kScoreCard`
constructor leaves it. -/
structure Stage1Env where
  xlTable : Char → Nat → Int
  ppmPrecursor : ℚ
  minPepMass : ℚ
  maxPepMass : ℚ
  dimersNC : Bool
  lowLinkMass : ℚ
  highLinkMass : ℚ
  getCounterMotif : Int → Int → Int
  getXLIndex : Int → Int → Int
  getLink : Int → kLinker
  getBoundaries : ℚ → ℚ → Bool × List Nat
  getBoundaries2 : ℚ → ℚ → Bool × List Nat
  fullIons : kPeptide → List KIonSet
  singletIons : kPeptide → Nat → List KIonSet
  loopIons : kPeptide → ℚ → Nat → Nat → List KIonSet
  score : Nat → ℚ → KIonSet → ℚ
  blankCard : kScoreCard

/-- The arguments of one call of `scoreSingletSpectra`, with the ion set that `sIndex`
selects at the time of the call. -/
structure SingletCall where
  index : Nat
  sIndex : Nat
  ion : KIonSet
  mass : ℚ
  len : Int
  pep : Int
  k : Int
  linkable : Bool
  minMass : ℚ
deriving DecidableEq, Inhabited

/-- What stage 1 does to the spectra, in program order: a card handed to `checkScore` of
a spectrum, or a call of `scoreSingletSpectra`. -/
inductive Stage1Event where
  | checkScore (spectrum : Nat) (sc : kScoreCard)
  | singlet (call : SingletCall)
deriving DecidableEq, Inhabited

/-- The peptide length `stop - start + 1` of the first occurrence. -/
def peptideLen (p : kPeptide) : Int :=
  ((p.map.getD 0 default).stop : Int) - ((p.map.getD 0 default).start : Int) + 1

/-- The cast `(char)i` of a loop index, for a signed `char` of 8 bits. -/
def cChar (i : Int) : Int :=
  (i + 128) % 256 - 128

/-- The loop `for(i=0;i<count;i++) if(mods[i]!=0) push_back(mod)` with `mod.pos=(char)i`
and `mod.mass=mods[i]`, from index `i` on; the first argument is the number of indices
left and the last one the vector filled so far. A read past the stored `mods` yields `0`. -/
def collectMods (mods : List ℚ) : Nat → Nat → List kPepMod → List kPepMod
  | 0, _, v => v
  | left + 1, i, v =>
    collectMods mods left (i + 1)
      (if mods.getD i 0 ≠ 0 then v ++ [{ pos := cChar i, mass := mods.getD i 0 }] else v)

/-- The modification list that `scoreSpectra` puts on a card: when `difMass` is not zero,
one entry per position `i < getPeptideLen()` with `mods[i] != 0`. -/
def cardMods (len : Int) (ion : KIonSet) : List kPepMod :=
  if ion.difMass ≠ 0 then collectMods ion.mods len.toNat 0 [] else []

/-- One card per spectrum index: `KAnalysis::scoreSpectra`. -/
def scoreSpectra (env : Stage1Env) (len : Int) (index : List Nat) (ion : KIonSet) (modMass : ℚ)
    (linkable : Bool) (pep1 pep2 k1 k2 link : Int) : List Stage1Event :=
  index.map (fun a => Stage1Event.checkScore a
    { env.blankCard with
      simpleScore := env.score a modMass ion
      k1 := k1
      k2 := k2
      mass := ion.mass
      linkable1 := linkable
      linkable2 := linkable
      pep1 := pep1
      pep2 := pep2
      link := link
      mods1 := cardMods len ion
      mods2 := [] })

/-- The test at the head of the site loop of `analyzeSinglets`: `true` when no `continue`
is taken for position `k`, so that `buildSingletIons(k)` is reached. -/
def singletSiteOk (xlTable : Char → Nat → Int) (pepSeq : List Char) (len : Int) (p : kPeptide)
    (k : Nat) : Bool :=
  if (k : Int) = len - 1 ∧ p.cTerm = true then
    decide (xlTable 'c' 0 ≠ -1)
  else if (k : Int) = len - 1 then false
  else if xlTable (pepSeq.getD k (Char.ofNat 0)) 0 = -1 then
    if k = 0 ∧ p.nTerm = true then decide (xlTable 'n' 0 ≠ -1) else false
  else true

/-- The positions at which `analyzeSinglets` builds singlet ions. -/
def singletSites (xlTable : Char → Nat → Int) (pepSeq : List Char) (p : kPeptide) : List Nat :=
  (List.range (peptideLen p).toNat).filter (singletSiteOk xlTable pepSeq (peptideLen p) p)

/-- The lower mass boundary `minMass` of `analyzeSinglets`. -/
def singletMinMass (env : Stage1Env) (p : kPeptide) (lowLinkMass : ℚ) : ℚ :=
  (p.mass + lowLinkMass + env.minPepMass)
    - (p.mass + lowLinkMass + env.minPepMass) / 1000000 * env.ppmPrecursor

/-- The upper mass boundary `maxMass` of `analyzeSinglets`. -/
def singletMaxMass (env : Stage1Env) (p : kPeptide) (highLinkMass : ℚ) : ℚ :=
  (p.mass + highLinkMass + env.maxPepMass)
    + (p.mass + highLinkMass + env.maxPepMass) / 1000000 * env.ppmPrecursor

/-- The calls made for one link site `k`: for every ion set, one call per spectrum that
`getBoundaries` returns. -/
def singletSiteCalls (env : Stage1Env) (p : kPeptide) (index : Int)
    (lowLinkMass highLinkMass : ℚ) (k : Nat) : List Stage1Event :=
  (env.singletIons p k).enum.flatMap (fun jion =>
    let found := env.getBoundaries (singletMinMass env p lowLinkMass + jion.2.difMass)
      (singletMaxMass env p highLinkMass + jion.2.difMass)
    if found.1 then
      found.2.map (fun scan => Stage1Event.singlet
        { index := scan, sIndex := jion.1, ion := jion.2, mass := jion.2.mass,
          len := peptideLen p, pep := index, k := (k : Int), linkable := true,
          minMass := singletMinMass env p lowLinkMass })
    else [])

/-- Singlet search of one peptide: `KAnalysis::analyzeSinglets`; `pepSeq` is the sequence
returned by `db->getPeptideSeq`. -/
def analyzeSinglets (env : Stage1Env) (pepSeq : List Char) (p : kPeptide) (index : Int)
    (lowLinkMass highLinkMass : ℚ) : List Stage1Event :=
  (singletSites env.xlTable pepSeq p).flatMap
    (singletSiteCalls env p index lowLinkMass highLinkMass)

/-- Non-covalent singlets for ion set `sIndex`: `KAnalysis::analyzeSingletsNoLysine`. -/
def analyzeSingletsNoLysine (env : Stage1Env) (p : kPeptide) (sIndex : Nat) (ion : KIonSet)
    (index : Int) (linkable : Bool) : List Stage1Event :=
  let minMass := (p.mass + ion.difMass + env.minPepMass)
    - (p.mass + ion.difMass + env.minPepMass) / 1000000 * env.ppmPrecursor
  let maxMass := (p.mass + ion.difMass + env.maxPepMass)
    + (p.mass + ion.difMass + env.maxPepMass) / 1000000 * env.ppmPrecursor
  let found := env.getBoundaries minMass maxMass
  if found.1 then
    found.2.map (fun scan => Stage1Event.singlet
      { index := scan, sIndex := sIndex, ion := ion, mass := ion.mass, len := peptideLen p,
        pep := index, k := -1, linkable := linkable, minMass := minMass })
  else []

/-- A loop of the form `x = 0; while (cell(x) > -1) { body(x); x++; }` over a row of
cells. The source has no bound of its own and relies on a sentinel inside the row; the
first argument is the number of cells of the row, where the scan of the model ends. -/
def whileCell {α : Type} (cell : Nat → Int) (body : Nat → List α) : Nat → Nat → List α
  | 0, _ => []
  | left + 1, x =>
    if cell x > -1 then body x ++ whileCell cell body left (x + 1) else []

/-- The cards of one loop-link: the ion sets built for linker `xlIndex` between `k` and
`k2`, each scored against the spectra that `getBoundaries2` returns. -/
def loopLinkCards (env : Stage1Env) (p : kPeptide) (pepIndex : Int) (crossLink : Bool)
    (k k2 : Nat) (xlIndex : Int) : List Stage1Event :=
  (env.loopIons p (env.getLink xlIndex).mass k k2).flatMap (fun ion =>
    let found := env.getBoundaries2 ion.mass env.ppmPrecursor
    if found.1 then
      scoreSpectra env (peptideLen p) found.2 ion 0 crossLink pepIndex (-1) (k : Int) (k2 : Int)
        xlIndex
    else [])

/-- The loop `for (k2 = k + 1; k2 < pepSeq.size()-1; k2++)` with the scan of the motif
cells of residue `k2` inside: a loop-link is scored for every cell equal to `cm`. -/
def loopSecondSites (env : Stage1Env) (pepSeq : List Char) (p : kPeptide) (pepIndex : Int)
    (crossLink : Bool) (k : Nat) (cm xlIndex : Int) : List Stage1Event :=
  (List.range' (k + 1) (pepSeq.length - 1 - (k + 1))).flatMap (fun k2 =>
    whileCell (env.xlTable (pepSeq.getD k2 (Char.ofNat 0)))
      (fun n =>
        if env.xlTable (pepSeq.getD k2 (Char.ofNat 0)) n = cm then
          loopLinkCards env p pepIndex crossLink k k2 xlIndex
        else [])
      20 0)

/-- The loop-link search of `analyzePeptide` ("also search loop-links"): every residue
`k`, every motif cell `x` of its row, every counter-motif entry `m` of that motif. -/
def loopLinks (env : Stage1Env) (pepSeq : List Char) (p : kPeptide) (pepIndex : Int)
    (crossLink : Bool) : List Stage1Event :=
  (List.range pepSeq.length).flatMap (fun k =>
    whileCell (env.xlTable (pepSeq.getD k (Char.ofNat 0)))
      (fun x =>
        whileCell (fun m => env.getCounterMotif (env.xlTable (pepSeq.getD k (Char.ofNat 0)) x) m)
          (fun m =>
            loopSecondSites env pepSeq p pepIndex crossLink k
              (env.getCounterMotif (env.xlTable (pepSeq.getD k (Char.ofNat 0)) x) m)
              (env.getXLIndex (env.xlTable (pepSeq.getD k (Char.ofNat 0)) x) m))
          10 0)
      20 0)

/-- The single-peptide part of `analyzePeptide`: every ion set is scored against the
spectra within tolerance and, with `dimersNC`, searched as a non-covalent singlet. -/
def fullSearch (env : Stage1Env) (p : kPeptide) (pepIndex : Int) (crossLink : Bool) :
    List Stage1Event :=
  (env.fullIons p).enum.flatMap (fun jion =>
    let found := env.getBoundaries2 jion.2.mass env.ppmPrecursor
    (if found.1 then
      scoreSpectra env (peptideLen p) found.2 jion.2 jion.2.difMass crossLink pepIndex (-1) (-1)
        (-1) (-1)
    else []) ++
    (if env.dimersNC then analyzeSingletsNoLysine env p jion.1 jion.2 pepIndex crossLink
    else []))

/-- Stage 1 for one peptide: `KAnalysis::analyzePeptide`; `pepSeq` is the sequence
returned by `db->getPeptideSeq`. -/
def analyzePeptide (env : Stage1Env) (pepSeq : List Char) (p : kPeptide) (pepIndex : Int)
    (crossLink : Bool) : List Stage1Event :=
  if !crossLink then fullSearch env p pepIndex crossLink
  else
    fullSearch env p pepIndex crossLink
      ++ analyzeSinglets env pepSeq p pepIndex env.lowLinkMass env.highLinkMass
      ++ loopLinks env pepSeq p pepIndex crossLink

/-- The link sites and the linker of a submitted card; `none` for a singlet call. -/
def eventSites : Stage1Event → Option (Int × Int × Int)
  | Stage1Event.checkScore _ sc => some (sc.k1, sc.k2, sc.link)
  | Stage1Event.singlet _ => none

/-- The motif cells and `motifCount` are in step: 20 cells, the first `motifCount` of
them hold motif ids (not `-1`) and the others hold `-1`. -/
def CellsInStep (mc : List Int × Nat) : Prop :=
  mc.1.length = 20 ∧ mc.2 ≤ 20 ∧ (∀ i, i < mc.2 → cellAt mc.1 i ≠ -1) ∧
    (∀ i, mc.2 ≤ i → i < 20 → cellAt mc.1 i = -1)


/-! ## The constructor and the stage-1 driver `doPeptideAnalysis` -/

/-- The upper peptide mass of the constructor: `maxMass = spec->getMaxMass()+0.25`. -/
def constructorMaxMass (specMaxMass : ℚ) : ℚ :=
  specMaxMass + 1 / 4

/-- The lower peptide mass of the constructor: `minMass = spec->getMinMass()-0.25`. -/
def constructorMinMass (specMinMass : ℚ) : ℚ :=
  specMinMass - 1 / 4

/-- One turn of the linker loop of the constructor on the pair
`(lowLinkMass, highLinkMass)`: a linker with `mono == 0` first replaces a value that is
`0`, then lowers `lowLinkMass` and raises `highLinkMass`; any other linker is skipped. -/
def linkMassStep (lh : ℚ × ℚ) (l : kLinker) : ℚ × ℚ :=
  if l.mono = 0 then
    let low1 := if lh.1 = 0 then l.mass else lh.1
    let high1 := if lh.2 = 0 then l.mass else lh.2
    (if l.mass < low1 then l.mass else low1, if l.mass > high1 then l.mass else high1)
  else lh

/-- The linker loop `for(j=0;j<spec->sizeLink();j++)` of the constructor, started on the
values that the two static variables hold before it. -/
def linkMassLoop (lh : ℚ × ℚ) (links : List kLinker) : ℚ × ℚ :=
  links.foldl linkMassStep lh

/-- The pair `(lowLinkMass, highLinkMass)` after the first construction: both static
variables are zero-initialised. -/
def linkMassExtrema (links : List kLinker) : ℚ × ℚ :=
  linkMassLoop (0, 0) links

/-- The launch loop of `doPeptideAnalysis` from list position `i` on: a peptide below
`minMass` is skipped when `crossLink` is false (`continue`), the first peptide above
`maxMass` that is not skipped ends the loop (`break`), every other peptide is launched
with its index. -/
def launchFrom (minMass maxMass : ℚ) (crossLink : Bool) :
    List kPeptide → Nat → List (Nat × kPeptide)
  | [], _ => []
  | p :: rest, i =>
    if crossLink = false ∧ p.mass < minMass then launchFrom minMass maxMass crossLink rest (i + 1)
    else if p.mass > maxMass then []
    else (i, p) :: launchFrom minMass maxMass crossLink rest (i + 1)

/-- The tasks that `doPeptideAnalysis` hands to the thread pool for the peptide list
`db->getPeptideList(crossLink)`, with the mass bounds set by the constructor. -/
def launched (specMinMass specMaxMass : ℚ) (crossLink : Bool) (peptides : List kPeptide) :
    List (Nat × kPeptide) :=
  launchFrom (constructorMinMass specMinMass) (constructorMaxMass specMaxMass) crossLink
    peptides 0

/-- Stage 1 over the whole peptide list: `KAnalysis::doPeptideAnalysis`. Every launched
task runs `analyzePeptide` (through `analyzePeptideProc`); the events of the tasks are
listed in launch order, the interleaving of the worker threads is not modelled.
`getPeptideSeq` is the sequence lookup of the database. -/
def doPeptideAnalysis (env : Stage1Env) (getPeptideSeq : kPeptide → List Char)
    (specMinMass specMaxMass : ℚ) (peptides : List kPeptide) (crossLink : Bool) :
    List Stage1Event :=
  (launched specMinMass specMaxMass crossLink peptides).flatMap (fun ip =>
    analyzePeptide env (getPeptideSeq ip.2) ip.2 (ip.1 : Int) crossLink)

/-! ## `scoreSingletSpectra` -/

/-- One turn of the precursor loop of `scoreSingletSpectra` on `score2`: a precursor with
`monoMass > minMass` whose kernel score at offset `monoMass - mass` is above `score2`
replaces it. -/
def singletScoreStep (env : Stage1Env) (call : SingletCall) (score2 : ℚ) (P : kPrecursor) : ℚ :=
  if P.monoMass > call.minMass then
    if env.score call.index (P.monoMass - call.mass) call.ion > score2 then
      env.score call.index (P.monoMass - call.mass) call.ion
    else score2
  else score2

/-- The value of `score2` after the precursor loop of `scoreSingletSpectra`, started
at `0`. -/
def bestSingletScore (env : Stage1Env) (precursors : List kPrecursor) (call : SingletCall) : ℚ :=
  precursors.foldl (singletScoreStep env call) 0

/-- Modelled from the spec: `KIons::getIonCount` (not in the source tree) returns the
peptide length minus one. -/
def getIonCount (len : Int) : Int :=
  len - 1

/-- The modification list of a singlet card: when `difMass` is not zero, one entry per
position `i < getIonCount()` with `mods[i] != 0`. -/
def singletMods (call : SingletCall) : List kPepMod :=
  if call.ion.difMass ≠ 0 then collectMods call.ion.mods (getIonCount call.len).toNat 0 [] else []

/-- One call of `KAnalysis::scoreSingletSpectra`; `precursors` are the precursors of
spectrum `call.index`. The result is the spectrum and the card handed to
`checkSingletScore`, or `none` when nothing is submitted. The division `score2/len` is
exact and `x / 0 = 0`. -/
def scoreSingletSpectra (env : Stage1Env) (precursors : List kPrecursor) (call : SingletCall) :
    Option (Nat × kSingletScoreCard) :=
  if bestSingletScore env precursors call / call.len > 0 then
    some (call.index,
      { len := call.len
        k1 := call.k
        linkable := call.linkable
        pep1 := call.pep
        simpleScore := bestSingletScore env precursors call / call.len
        mass := call.mass
        mods := singletMods call })
  else none

/-- The state of the linker loop after the linkers `seen`: both values are still `0`
when no linker with `mono = 0` was seen, and otherwise they are the least and the
greatest mass of the linkers with `mono = 0` seen, both different from `0`. -/
def ExtremaOf (seen : List kLinker) (lh : ℚ × ℚ) : Prop :=
  ((∀ l ∈ seen, l.mono ≠ 0) ∧ lh = (0, 0)) ∨
  ((∃ l ∈ seen, l.mono = 0 ∧ l.mass = lh.1) ∧ (∀ l ∈ seen, l.mono = 0 → lh.1 ≤ l.mass) ∧
   (∃ l ∈ seen, l.mono = 0 ∧ l.mass = lh.2) ∧ (∀ l ∈ seen, l.mono = 0 → l.mass ≤ lh.2) ∧
   lh.1 ≠ 0 ∧ lh.2 ≠ 0)

/-- The peptide index that an event carries: `pep1` of a card, `pep` of a singlet call. -/
def eventPep : Stage1Event → Int
  | Stage1Event.checkScore _ sc => sc.pep1
  | Stage1Event.singlet call => call.pep

/-! ## The scoring kernels `xCorrScoring` and `sharedScore` -/

/-- One entry of `xCorrSparseArray`: `kSparseMatrix`. -/
structure kSparseMatrix where
  bin : Int
  fIntensity : ℚ
deriving DecidableEq, Inhabited

/-- The part of a spectrum (`KSpectrum`) that the kernels read: the charge returned by
`getCharge()`, the sparse array of the XCorr kernel, and the two-level array of the
Kojak kernels with its number of rows `kojakBins`; a row that is `NULL` is `none`. -/
structure KSpectrum where
  charge : Int
  xCorrSparseArray : List kSparseMatrix
  kojakBins : Int
  kojakSparseArray : Int → Option (Int → ℚ)

/-- The parameters (`kParams`) that the kernels read; `ionSeries` holds the six flags
for the series a, b, c, x, y, z in this order. -/
structure kParams where
  binSize : ℚ
  binOffset : ℚ
  ionSeries : Nat → Bool

/-- The C cast `(int)x` of a `double`: truncation toward zero. -/
def cInt (x : ℚ) : Int :=
  if 0 ≤ x then ⌊x⌋ else ⌈x⌉

/-- The bin `j` of a fragment `mz` in `xCorrScoring`, with `invBinSize = 1.0/binSize` and
`dif = modMass/k`: a negative `mz` stands for a fragment that carries the cross-linked
mass. -/
def xCorrBin (params : kParams) (dif mz : ℚ) : Int :=
  if mz < 0 then cInt ((dif - mz) * (1 / params.binSize) + params.binOffset)
  else cInt (mz * (1 / params.binSize) + params.binOffset)

/-- The bins of one ladder row for the positions `0..ionCount-1`, in the order in which
the loop `for(i=0;i<ionCount;i++)` reads them; a position outside the row reads `0`. -/
def theoreticalBins (params : kParams) (dif : ℚ) (row : List ℚ) (ionCount : Int) : List Int :=
  (List.range ionCount.toNat).map (fun i => xCorrBin params dif (row.getD i 0))

/-- The cursor loop `while( j >= s.xCorrSparseArray[xx].bin) xx++;`: the list is the
array from position `xx` on. The source has no bound of its own; the result is `none`
when the cursor leaves the array. -/
def ratchet (j : Int) : List kSparseMatrix → Nat → Option Nat
  | [], _ => none
  | e :: rest, xx => if j ≥ e.bin then ratchet j rest (xx + 1) else some xx

/-- One ladder row in `xCorrScoring`, given as its bins: for every bin the cursor `xx`
moves on from where the previous bin left it, and the intensity of entry `xx-1` is added
to `dXcorr`. The result is `none` when the cursor leaves the array or when `xx-1` is
`-1`. -/
def ratchetSeries (sparse : List kSparseMatrix) : List Int → Nat → ℚ → Option ℚ
  | [], _, dXcorr => some dXcorr
  | j :: rest, xx, dXcorr =>
    match ratchet j (sparse.drop xx) xx with
    | none => none
    | some xx1 =>
      if xx1 = 0 then none
      else ratchetSeries sparse rest xx1 (dXcorr + (sparse.getD (xx1 - 1) default).fIntensity)

/-- One turn `k` of the charge loop of `xCorrScoring`: the b ladder and then the y
ladder, each with the cursor reset to `0`. No other ladder and no flag of
`params.ionSeries` is read. -/
def xCorrCharge (params : kParams) (s : KSpectrum) (ki : KIonSet) (ionCount : Int)
    (modMass : ℚ) (dXcorr : ℚ) (k : Nat) : Option ℚ :=
  (ratchetSeries s.xCorrSparseArray
    (theoreticalBins params (modMass / k) (ki.bIons.getD k []) ionCount) 0 dXcorr).bind
  (fun d => ratchetSeries s.xCorrSparseArray
    (theoreticalBins params (modMass / k) (ki.yIons.getD k []) ionCount) 0 d)

/-- The charges `k = 1 .. maxCharge-1` of the kernels, with `maxCharge` the charge capped
at 6. -/
def kernelCharges (charge : Int) : List Nat :=
  List.range' 1 ((if charge > 6 then 6 else charge).toNat - 1)

/-- The charge loop `for(k=1;k<maxCharge;k++)` of `xCorrScoring` over the charges that
are left, from the running total `dXcorr`. -/
def xCorrLoop (params : kParams) (s : KSpectrum) (ki : KIonSet) (ionCount : Int)
    (modMass : ℚ) : List Nat → ℚ → Option ℚ
  | [], dXcorr => some dXcorr
  | k :: rest, dXcorr =>
    match xCorrCharge params s ki ionCount modMass dXcorr k with
    | none => none
    | some d => xCorrLoop params s ki ionCount modMass rest d

/-- The value of `dXcorr` at the end of the charge loop of `xCorrScoring`. -/
def xCorrRaw (params : kParams) (s : KSpectrum) (ki : KIonSet) (ionCount : Int)
    (modMass : ℚ) : Option ℚ :=
  xCorrLoop params s ki ionCount modMass (kernelCharges s.charge) 0

/-- The XCorr kernel: `KAnalysis::xCorrScoring`, for the ion set `ki` that `sIndex`
selects and the `ionCount` of its `KIons` object; the conversion to `float` is not
modelled. -/
def xCorrScoring (params : kParams) (s : KSpectrum) (ki : KIonSet) (ionCount : Int)
    (modMass : ℚ) : Option ℚ :=
  (xCorrRaw params s ki ionCount modMass).map (fun d => if d ≤ 0 then 0 else d * (5 / 1000))

/-- The walk `while(j<m1->sz && k<m2->sz)` of `sharedScore` over two bin lists; the two
lists are the arrays from the cursors `j` and `k` on, the first argument bounds the
number of turns. -/
def sharedWalk (s : KSpectrum) : Nat → List kMatchBin → List kMatchBin → ℚ → ℚ
  | 0, _, _, dScore => dScore
  | _ + 1, [], _, dScore => dScore
  | _ + 1, _ :: _, [], dScore => dScore
  | fuel + 1, b1 :: r1, b2 :: r2, dScore =>
    if b1.key = b2.key then
      if b1.pos = b2.pos then
        if b2.key ≥ s.kojakBins then dScore
        else
          sharedWalk s fuel r1 r2
            (match s.kojakSparseArray b2.key with
              | some row => dScore + row b2.pos
              | none => dScore)
      else if b1.pos < b2.pos then sharedWalk s fuel r1 (b2 :: r2) dScore
      else sharedWalk s fuel (b1 :: r1) r2 dScore
    else if b1.key < b2.key then sharedWalk s fuel r1 (b2 :: r2) dScore
    else sharedWalk s fuel (b1 :: r1) r2 dScore

/-- The first `sz` bins of one series at one charge. -/
def seriesRow (sz : Nat) (row : Nat → kMatchBin) : List kMatchBin :=
  (List.range sz).map row

/-- One series block of `sharedScore` at one charge: skipped when the series is not
enabled, otherwise the walk from `j = 0`, `k = 0`; every turn moves a cursor, so
`m1->sz + m2->sz` turns end it. -/
def sharedSeries (s : KSpectrum) (m1 m2 : kMatchSet) (enabled : Bool)
    (row1 row2 : Nat → kMatchBin) (dScore : ℚ) : ℚ :=
  if enabled then
    sharedWalk s (m1.sz + m2.sz) (seriesRow m1.sz row1) (seriesRow m2.sz row2) dScore
  else dScore

/-- One turn `i` of the charge loop of `sharedScore`: the blocks for the series a, b, c,
x, y, z in this order. -/
def sharedCharge (params : kParams) (s : KSpectrum) (m1 m2 : kMatchSet) (dScore : ℚ)
    (i : Nat) : ℚ :=
  sharedSeries s m1 m2 (params.ionSeries 5) (m1.z i) (m2.z i)
    (sharedSeries s m1 m2 (params.ionSeries 4) (m1.y i) (m2.y i)
      (sharedSeries s m1 m2 (params.ionSeries 3) (m1.x i) (m2.x i)
        (sharedSeries s m1 m2 (params.ionSeries 2) (m1.c i) (m2.c i)
          (sharedSeries s m1 m2 (params.ionSeries 1) (m1.b i) (m2.b i)
            (sharedSeries s m1 m2 (params.ionSeries 0) (m1.a i) (m2.a i) dScore)))))

/-- The value of `dScore` at the end of the charge loop of `sharedScore`. -/
def sharedRaw (params : kParams) (s : KSpectrum) (m1 m2 : kMatchSet) (charge : Int) : ℚ :=
  (kernelCharges charge).foldl (sharedCharge params s m1 m2) 0

/-- The shared-ion kernel: `KAnalysis::sharedScore`. -/
def sharedScore (params : kParams) (s : KSpectrum) (m1 m2 : kMatchSet) (charge : Int) : ℚ :=
  if sharedRaw params s m1 m2 charge ≤ 0 then 0 else sharedRaw params s m1 m2 charge * (5 / 1000)

/-- In the words of the specification: the sparse-array entry with the largest bin that
is at most the theoretical bin `j`. -/
def largestBinAtMost (sparse : List kSparseMatrix) (j : Int) : Option kSparseMatrix :=
  (sparse.filter (fun e => decide (e.bin ≤ j))).argmax (fun e => e.bin)

/-- In the words of the specification: the intensity that the direct lookup adds for the
theoretical bin `j`. -/
def directIntensity (sparse : List kSparseMatrix) (j : Int) : ℚ :=
  match largestBinAtMost sparse j with
  | some e => e.fIntensity
  | none => 0

/-- The lexicographic order on `(key, pos)`. -/
@[reducible]
def LexLt (a b : kMatchBin) : Prop :=
  a.key < b.key ∨ (a.key = b.key ∧ a.pos < b.pos)

/-- The value of `kojakSparseArray[key][pos]` for a bin, `0` when the row of `key` is
absent. -/
def binIntensity (s : KSpectrum) (b : kMatchBin) : ℚ :=
  match s.kojakSparseArray b.key with
  | some row => row b.pos
  | none => 0

/-- In the words of the specification: the sum of the spectrum intensities over the
`(key, pos)` pairs present in both lists. -/
def commonIntensity (s : KSpectrum) (l1 l2 : List kMatchBin) : ℚ :=
  ((l1.filter (fun b => decide (b ∈ l2))).map (binIntensity s)).sum

/-- The six series of a match set in the order a, b, c, x, y, z of `params.ionSeries`. -/
def seriesOf (m : kMatchSet) : Nat → Nat → Nat → kMatchBin
  | 0 => m.a
  | 1 => m.b
  | 2 => m.c
  | 3 => m.x
  | 4 => m.y
  | _ => m.z

/-- In the words of the specification: the sum over the charges and the enabled series
of the intensity of the bins that the two lists of that series and charge share. -/
def commonTotal (params : kParams) (s : KSpectrum) (m1 m2 : kMatchSet) (charge : Int) : ℚ :=
  ((kernelCharges charge).map (fun i =>
    ((List.range 6).map (fun t =>
      if params.ionSeries t then
        commonIntensity s (seriesRow m1.sz (seriesOf m1 t i)) (seriesRow m2.sz (seriesOf m2 t i))
      else 0)).sum)).sum

/-! ## The claim step, the sort, the dimer pass and `setBinList` -/

/-- The loop `for(i=0;i<params.threads;i++)` at the start of `analyzePeptideProc` and of
`analyzeRelaxedProc` (the same text in both), from position `i` with `left` positions to
go: the first flag found `false` is set and ends the loop (`break`). The result is the
value of `i` after the loop and the flags. -/
def claimFrom (flags : List Bool) : Nat → Nat → Nat × List Bool
  | 0, i => (i, flags)
  | left + 1, i =>
    if flags.getD i true = false then (i, flags.set i true)
    else claimFrom flags left (i + 1)

/-- The claim step of `analyzePeptideProc` and `analyzeRelaxedProc` on the vector
`bKIonsManager`, run under `mutexKIonsManager`: the claimed index and the new flags, or
`none` for the `exit(-1)` taken when the loop ends with `i == params.threads`. -/
def claimScratchpad (threads : Nat) (flags : List Bool) : Option (Nat × List Bool) :=
  if (claimFrom flags threads 0).1 = threads then none
  else some (claimFrom flags threads 0)

/-! ## `kojakScoring` -/

/-- The binned value `mz` of a fragment `ion` in `kojakScoring` at `dif = modMass/k`;
`invBinSize` is the value of `s->getInvBinSize()`. -/
def kojakMz (params : kParams) (invBinSize dif ion : ℚ) : ℚ :=
  if ion < 0 then params.binSize * cInt ((dif - ion) * invBinSize + params.binOffset)
  else params.binSize * cInt (ion * invBinSize + params.binOffset)

/-- The position loop `for(i=0;i<ionCount;i++)` of `kojakScoring` over the fragments
still to visit: a key at or above `kojakBins` ends the loop (`break`), an absent row
skips the fragment (`continue`). -/
def kojakSeries (params : kParams) (s : KSpectrum) (invBinSize dif : ℚ) : List ℚ → ℚ → ℚ
  | [], dXcorr => dXcorr
  | ion :: rest, dXcorr =>
    if cInt (kojakMz params invBinSize dif ion) ≥ s.kojakBins then dXcorr
    else
      match s.kojakSparseArray (cInt (kojakMz params invBinSize dif ion)) with
      | none => kojakSeries params s invBinSize dif rest dXcorr
      | some row =>
        kojakSeries params s invBinSize dif rest
          (dXcorr + row (cInt ((kojakMz params invBinSize dif ion
            - cInt (kojakMz params invBinSize dif ion)) * invBinSize)))

/-- The ladders that `kojakScoring` collects under "Assign ion series": those of the
enabled series, in the order a, b, c, x, y, z; `numIonSeries` (counted by the
constructor from the same flags) is the length of this list. -/
def enabledLadders (params : kParams) (ki : KIonSet) : List (List (List ℚ)) :=
  (if params.ionSeries 0 then [ki.aIons] else []) ++
  (if params.ionSeries 1 then [ki.bIons] else []) ++
  (if params.ionSeries 2 then [ki.cIons] else []) ++
  (if params.ionSeries 3 then [ki.xIons] else []) ++
  (if params.ionSeries 4 then [ki.yIons] else []) ++
  (if params.ionSeries 5 then [ki.zIons] else [])

/-- The fragments `ladder[k][0..ionCount-1]` in the order of the position loop; a
position outside the row reads `0`. -/
def ladderRow (ladder : List (List ℚ)) (k : Nat) (ionCount : Int) : List ℚ :=
  (List.range ionCount.toNat).map (fun i => (ladder.getD k []).getD i 0)

/-- One turn `k` of the charge loop of `kojakScoring`: every enabled ladder in turn. -/
def kojakCharge (params : kParams) (s : KSpectrum) (ki : KIonSet) (invBinSize : ℚ)
    (ionCount : Int) (modMass : ℚ) (dXcorr : ℚ) (k : Nat) : ℚ :=
  (enabledLadders params ki).foldl (fun d ladder =>
    kojakSeries params s invBinSize (modMass / k) (ladderRow ladder k ionCount) d) dXcorr

/-- The value of `dXcorr` at the end of the charge loop of `kojakScoring`. -/
def kojakRaw (params : kParams) (s : KSpectrum) (ki : KIonSet) (invBinSize : ℚ)
    (ionCount : Int) (modMass : ℚ) : ℚ :=
  (kernelCharges s.charge).foldl (kojakCharge params s ki invBinSize ionCount modMass) 0

/-- The Kojak kernel: `KAnalysis::kojakScoring`; the conversion to `float` is not
modelled. -/
def kojakScoring (params : kParams) (s : KSpectrum) (ki : KIonSet) (invBinSize : ℚ)
    (ionCount : Int) (modMass : ℚ) : ℚ :=
  if kojakRaw params s ki invBinSize ionCount modMass ≤ 0 then 0
  else kojakRaw params s ki invBinSize ionCount modMass * (5 / 1000)

/-! ## `setBinList` -/

/-- The loop `for(j=start;j<ionCount;j++) arr[j]+=mass;` on an array of `ionCount`
cells: every cell at or after `start` receives `mass`. The result is `none` when the
loop would write in front of the array (`start < 0` with at least one turn). -/
def addFrom (ionCount : Int) (arr : List ℚ) (start : Int) (mass : ℚ) : Option (List ℚ) :=
  if start < 0 ∧ start < ionCount then none
  else some ((List.range arr.length).map (fun (j : Nat) =>
    if start ≤ (j : Int) then arr.getD j 0 + mass else arr.getD j 0))

/-- One turn of the modification loop of `setBinList` on the pair `(mod, modRev)`. -/
def modStep (ionCount : Int) (acc : Option (List ℚ × List ℚ)) (m : kPepMod) :
    Option (List ℚ × List ℚ) :=
  match acc with
  | none => none
  | some pair =>
    match addFrom ionCount pair.1 m.pos m.mass, addFrom ionCount pair.2 (ionCount - m.pos) m.mass with
    | some md, some mr => some (md, mr)
    | _, _ => none

/-- The arrays `mod` and `modRev` of `setBinList` after "set up all modification mass
modifiers": both start as `ionCount` zeros. -/
def modAccumulators (ionCount : Int) (mods : List kPepMod) : Option (List ℚ × List ℚ) :=
  mods.foldl (modStep ionCount)
    (some (List.replicate ionCount.toNat 0, List.replicate ionCount.toNat 0))

/-- The bin of fragment `j` at charge `i` in `setBinList`: the fragment is shifted by
the accumulated modification mass `shift` divided by the charge. -/
def matchBin (params : kParams) (dif ion shift : ℚ) (i : Nat) : kMatchBin :=
  let mz := if ion < 0 then
      params.binSize * cInt ((dif - (ion - shift / i)) * (1 / params.binSize) + params.binOffset)
    else params.binSize * cInt ((ion + shift / i) * (1 / params.binSize) + params.binOffset)
  { key := cInt mz, pos := cInt ((mz - cInt mz) * (1 / params.binSize)) }

/-- One series of the match set built by `setBinList`: filled for the charges
`1..charge-1` when the series is enabled, left as allocated otherwise. -/
def binSeries (params : kParams) (enabled : Bool) (ladder : List (List ℚ)) (shifts : List ℚ)
    (charge : Int) (preMass : ℚ) : Nat → Nat → kMatchBin :=
  fun i j =>
    if enabled = true ∧ 1 ≤ i ∧ (i : Int) < charge ∧ j < shifts.length then
      matchBin params (preMass / i) ((ladder.getD i []).getD j 0) (shifts.getD j 0) i
    else default

/-- The bin lists built by `KAnalysis::setBinList` for ion set `ki` (set 0 of the `KIons`
object), its `ionCount`, a charge (capped at 6), the precursor-mass offset `preMass`
and a modification list; `none` when the modification loop leaves its arrays. -/
def setBinList (params : kParams) (ki : KIonSet) (ionCount : Int) (charge : Int)
    (preMass : ℚ) (mods : List kPepMod) : Option kMatchSet :=
  match modAccumulators ionCount mods with
  | none => none
  | some acc =>
    some
      { sz := ionCount.toNat
        a := binSeries params (params.ionSeries 0) ki.aIons acc.1 (if charge > 6 then 6 else charge)
          preMass
        b := binSeries params (params.ionSeries 1) ki.bIons acc.1 (if charge > 6 then 6 else charge)
          preMass
        c := binSeries params (params.ionSeries 2) ki.cIons acc.1 (if charge > 6 then 6 else charge)
          preMass
        x := binSeries params (params.ionSeries 3) ki.xIons acc.2 (if charge > 6 then 6 else charge)
          preMass
        y := binSeries params (params.ionSeries 4) ki.yIons acc.2 (if charge > 6 then 6 else charge)
          preMass
        z := binSeries params (params.ionSeries 5) ki.zIons acc.2 (if charge > 6 then 6 else charge)
          preMass }

/-! ## The sort, the restore loop and the dimer pass of `analyzeRelaxed` -/

/-- The comparator handed to `qsort`: `KAnalysis::compareSSCPlus`. -/
def compareSSCPlus (d1 d2 : kSingletScoreCardPlus) : Int :=
  if d1.mass < d2.mass then -1
  else if d1.mass > d2.mass then 1
  else 0

/-- What the C library promises about `qsort(s,count,size,compareSSCPlus)`, the library
routine being a parameter of the model: the array afterwards holds the same elements,
and no element compares greater than a later one. The order of elements that compare
equal is left open. -/
def QsortContract (qsort : List kSingletScoreCardPlus → List kSingletScoreCardPlus) : Prop :=
  ∀ l, (qsort l).Perm l ∧ (qsort l).Pairwise (fun a b => compareSSCPlus a b ≤ 0)

/-- A sort routine that meets `QsortContract` and puts cards of equal mass in the
reverse of their input order: insertion sort of the reversed input. -/
def tieReversingSort (l : List kSingletScoreCardPlus) : List kSingletScoreCardPlus :=
  List.insertionSort (fun a b => a.mass ≤ b.mass) l.reverse

/-- A sort routine that meets `QsortContract` and keeps cards of equal mass in their
input order: insertion sort. -/
def tieKeepingSort (l : List kSingletScoreCardPlus) : List kSingletScoreCardPlus :=
  List.insertionSort (fun a b => a.mass ≤ b.mass) l

/-- The three tests at the head of the template loop of the cross-link pass: a card that
passes them is processed as template. -/
@[reducible]
def IsTemplate (c : kSingletScoreCardPlus) : Prop :=
  0 < c.simpleScore ∧ c.linkable = true ∧ 0 ≤ c.k1

/-- The scratch list `s0` with the score of every template card at an index below `j`
negated. -/
def markedUpTo (s0 : List kSingletScoreCardPlus) (j : Nat) : List kSingletScoreCardPlus :=
  s0.enum.map (fun xc =>
    if xc.1 < j ∧ 0 < xc.2.simpleScore ∧ xc.2.linkable = true ∧ 0 ≤ xc.2.k1 then
      { xc.2 with simpleScore := -xc.2.simpleScore }
    else xc.2)

/-- The restore loop of `analyzeRelaxed` ("reset scores"): every negative score is
negated. -/
def restoreScores (s : List kSingletScoreCardPlus) : List kSingletScoreCardPlus :=
  s.map (fun c => if c.simpleScore < 0 then { c with simpleScore := -c.simpleScore } else c)

/-- The card assembled in the dimer pass for template `sj` and partner `sn`: no link
sites, link `-2`, the two scores added without a deduction. -/
def dimerCard (env : RelaxedEnv) (sj sn : kSingletScoreCardPlus) : kScoreCard :=
  { simpleScore := sj.simpleScore * sj.len + sn.simpleScore * sn.len
    k1 := -1
    k2 := -1
    mass := sj.mass + sn.mass
    linkable1 := sj.linkable
    linkable2 := sn.linkable
    pep1 := sj.pep1
    pep2 := sn.pep1
    link := -2
    rank1 := sj.rank
    rank2 := sn.rank
    score1 := sj.simpleScore * sj.len
    score2 := sn.simpleScore * sn.len
    mass1 := sj.mass
    mass2 := sn.mass
    mods1 := modsOfRank env sj.rank
    mods2 := modsOfRank env sn.rank }

/-- The upward walk `while(n<count)` of the dimer pass over the indices still to visit;
the result is the list of cards handed to `checkScore`. -/
def dimerWalkUp (env : RelaxedEnv) (s : List kSingletScoreCardPlus) (j : Nat) (P : kPrecursor) :
    List Nat → List kScoreCard
  | [] => []
  | n :: rest =>
    if (s.getD n default).simpleScore ≤ 0 ∨ (s.getD n default).k1 > -1 then
      dimerWalkUp env s j P rest
    else if |ppmError ((s.getD j default).mass + (s.getD n default).mass) P.monoMass|
        ≤ env.ppmPrecursor then
      dimerCard env (s.getD j default) (s.getD n default) :: dimerWalkUp env s j P rest
    else if ppmError ((s.getD j default).mass + (s.getD n default).mass) P.monoMass
        > env.ppmPrecursor then []
    else dimerWalkUp env s j P rest

/-- The downward walk `while(n>-1)` of the dimer pass. -/
def dimerWalkDown (env : RelaxedEnv) (s : List kSingletScoreCardPlus) (j : Nat) (P : kPrecursor) :
    List Nat → List kScoreCard
  | [] => []
  | n :: rest =>
    if (s.getD n default).simpleScore ≤ 0 ∨ (s.getD n default).k1 > -1 then
      dimerWalkDown env s j P rest
    else if |ppmError ((s.getD j default).mass + (s.getD n default).mass) P.monoMass|
        ≤ env.ppmPrecursor then
      dimerCard env (s.getD j default) (s.getD n default) :: dimerWalkDown env s j P rest
    else if ppmError ((s.getD j default).mass + (s.getD n default).mass) P.monoMass
        < -env.ppmPrecursor then []
    else dimerWalkDown env s j P rest

/-- The cards of one template `j` of the dimer pass: for every precursor the search for
the complement mass and the two walks. -/
def dimerCards (env : RelaxedEnv) (s : List kSingletScoreCardPlus) (j : Nat) : List kScoreCard :=
  env.precursors.flatMap (fun P =>
    dimerWalkUp env s j P
      (upIndices s.length (findMass s s.length (P.monoMass - (s.getD j default).mass))) ++
    dimerWalkDown env s j P
      (downIndices (findMass s s.length (P.monoMass - (s.getD j default).mass))))

/-- The body of the template loop of the dimer pass on the scratch list and the cards
submitted so far: a card without score or with a link site is skipped, any other card
is paired and then marked as searched. -/
def dimerStep (env : RelaxedEnv) (st : List kSingletScoreCardPlus × List kScoreCard) (j : Nat) :
    List kSingletScoreCardPlus × List kScoreCard :=
  if (st.1.getD j default).simpleScore ≤ 0 then st
  else if (st.1.getD j default).k1 > -1 then st
  else (markSearched st.1 j, st.2 ++ dimerCards env st.1 j)

/-- The dimer pass of `analyzeRelaxed` ("Check non-covalent dimers") on the scratch list
left by the restore loop. -/
def dimerPass (env : RelaxedEnv) (s : List kSingletScoreCardPlus) :
    List kSingletScoreCardPlus × List kScoreCard :=
  (List.range s.length).foldl (dimerStep env) (s, [])

/-- The part of `KAnalysis::analyzeRelaxed` after the snapshot: the sort by the library
routine `qsort`, the cross-link pass, the restore loop and, with `dimersNC`, the dimer
pass. The result is the run status and the cards handed to `checkScore`, in order; a
run stopped inside the cross-link pass submits nothing more. -/
def analyzeRelaxed (env : RelaxedEnv) (dimersNC : Bool)
    (qsort : List kSingletScoreCardPlus → List kSingletScoreCardPlus)
    (snapshot : List kSingletScoreCardPlus) : RunStatus × List kScoreCard :=
  if (crossLinkPass env (qsort snapshot)).status ≠ RunStatus.running then
    ((crossLinkPass env (qsort snapshot)).status, (crossLinkPass env (qsort snapshot)).out)
  else if dimersNC = false then
    (RunStatus.running, (crossLinkPass env (qsort snapshot)).out)
  else
    (RunStatus.running, (crossLinkPass env (qsort snapshot)).out ++
      (dimerPass env (restoreScores (crossLinkPass env (qsort snapshot)).s)).2)

/-- A card that the cross-link pass can record on the sorted snapshot `s0` for a
template `j` and a partner `n` that was not processed as template before `j`. -/
def Unconsumed (env : RelaxedEnv) (s0 : List kSingletScoreCardPlus) (c : kScoreCard) : Prop :=
  ∃ j n cmv xl P, PairFacts env s0 j n cmv xl P ∧
    c = pairCard env (s0.getD j default) (s0.getD n default) xl P ∧
    (n < j → ¬ IsTemplate (s0.getD n default))

/-- What is known about a card submitted by the dimer pass started on the scratch list
`s1`: it pairs two cards of `s1` with positive score and no link site, whose masses sum
to a precursor mass within the tolerance. -/
def DimerFacts (env : RelaxedEnv) (s1 : List kSingletScoreCardPlus) (c : kScoreCard) : Prop :=
  ∃ j n P, j < s1.length ∧ n < s1.length ∧ P ∈ env.precursors ∧
    0 < (s1.getD j default).simpleScore ∧ (s1.getD j default).k1 < 0 ∧
    0 < (s1.getD n default).simpleScore ∧ (s1.getD n default).k1 < 0 ∧
    |ppmError ((s1.getD j default).mass + (s1.getD n default).mass) P.monoMass|
      ≤ env.ppmPrecursor ∧
    c = dimerCard env (s1.getD j default) (s1.getD n default)

/-! ## `findMass` with checked reads, the walks with their loop variable, the recorded
modification lists -/

/-- How a run of `findMass` with checked reads ends: with the index it returns, at a read
`s[mid]` outside the array, or with its iteration budget used up. -/
inductive SearchRun where
  | found (index : Int)
  | badRead (mid : Int)
  | exhausted
deriving DecidableEq, Repr

/-- The `while` loop of `findMass` with every read `s[mid]` checked against the bounds of
the array `s`; a turn of the loop starts with the read in the loop test, so a run with no
turn left is reported as `exhausted`. -/
def findMassChecked (s : List kSingletScoreCardPlus) (sz : Int) (mass : ℚ) :
    Nat → Int → Int → Int → SearchRun
  | 0, _, _, _ => SearchRun.exhausted
  | fuel + 1, lower, mid, upper =>
    if mid < 0 ∨ (s.length : Int) ≤ mid then SearchRun.badRead mid
    else if massAt s mid = mass then SearchRun.found mid
    else if lower ≥ upper then SearchRun.found mid
    else
      let lower1 := if mass < massAt s mid then lower else mid + 1
      let upper1 := if mass < massAt s mid then mid - 1 else upper
      let mid1 := Int.tdiv (lower1 + upper1) 2
      if mid1 = sz then SearchRun.found (mid1 - 1)
      else findMassChecked s sz mass fuel lower1 mid1 upper1

/-- One turn of the upward walk `while(n<count)` with its variable `n`: the value of `n`
at the end of the turn, or `none` when the turn leaves the loop at `break`, and the state
at the end of the turn. -/
def walkUpTurn (env : RelaxedEnv) (j : Nat) (counterMotif xlIndex : Int) (P : kPrecursor)
    (n : Int) (st : RelaxedState) : Option Int × RelaxedState :=
  let sj := st.s.getD j default
  let sn := st.s.getD n.toNat default
  if !env.dimersXL && n == (j : Int) then (some (n + 1), st)
  else if sn.simpleScore < 0 ∨ sn.k1 < 0 then (some (n + 1), st)
  else if n.toNat ∈ st.matched then (some (n + 1), st)
  else
    let totalMass := sj.mass + sn.mass + (env.getLink xlIndex).mass
    let ppm := ppmError totalMass P.monoMass
    if ppm < -env.ppmPrecursor then (some (n + 1), st)
    else if ppm > env.ppmPrecursor then (none, st)
    else if !hasCounterMotif sn counterMotif then (some (n + 1), st)
    else (some (n + 1), recordPair env j n.toNat xlIndex P st)

/-- The upward walk as the source runs it, from the value `n`: the test `n<count`, then
one turn; the first argument bounds the number of tests, and a walk that is cut short by
it is reported as `exhausted`. -/
def walkUpLoop (env : RelaxedEnv) (j : Nat) (counterMotif xlIndex : Int) (P : kPrecursor)
    (count : Nat) : Nat → Int → RelaxedState → RelaxedState
  | 0, _, st => { st with status := RunStatus.exhausted }
  | fuel + 1, n, st =>
    if ¬ n < (count : Int) then st
    else
      match walkUpTurn env j counterMotif xlIndex P n st with
      | (none, st1) => st1
      | (some n1, st1) => walkUpLoop env j counterMotif xlIndex P count fuel n1 st1

/-- One turn of the downward walk `while(n>-1)` with its variable `n`, as `walkUpTurn`. -/
def walkDownTurn (env : RelaxedEnv) (j : Nat) (counterMotif xlIndex : Int) (P : kPrecursor)
    (n : Int) (st : RelaxedState) : Option Int × RelaxedState :=
  let sj := st.s.getD j default
  let sn := st.s.getD n.toNat default
  if !env.dimersXL && n == (j : Int) then (some (n - 1), st)
  else if sn.simpleScore < 0 ∨ sn.k1 < 0 then (some (n - 1), st)
  else if n.toNat ∈ st.matched then (some (n - 1), st)
  else
    let totalMass := sj.mass + sn.mass + (env.getLink xlIndex).mass
    let ppm := ppmError totalMass P.monoMass
    if ppm > env.ppmPrecursor then (some (n - 1), st)
    else if ppm < -env.ppmPrecursor then (none, st)
    else if !hasCounterMotif sn counterMotif then (some (n - 1), st)
    else (some (n - 1), recordPair env j n.toNat xlIndex P st)

/-- The downward walk as the source runs it, from the value `n`, as `walkUpLoop`. -/
def walkDownLoop (env : RelaxedEnv) (j : Nat) (counterMotif xlIndex : Int) (P : kPrecursor) :
    Nat → Int → RelaxedState → RelaxedState
  | 0, _, st => { st with status := RunStatus.exhausted }
  | fuel + 1, n, st =>
    if ¬ n > -1 then st
    else
      match walkDownTurn env j counterMotif xlIndex P n st with
      | (none, st1) => st1
      | (some n1, st1) => walkDownLoop env j counterMotif xlIndex P fuel n1 st1

/-- In the words of the specification: one modification `(pos = i, mass = mods[i])` for
each position `i` in `0 .. n-1` with `mods[i] != 0`, in ascending position order. -/
def recordedMods (mods : List ℚ) (n : Nat) : List kPepMod :=
  ((List.range n).filter (fun (i : Nat) => decide (mods.getD i 0 ≠ 0))).map
    (fun (i : Nat) => { pos := (i : Int), mass := mods.getD i 0 })

/-- The singlet table of a spectrum holds only cards that a call of `scoreSingletSpectra`
handed to `checkSingletScore` (line 1243, the only call of `checkSingletScore`). -/
def SubmittedSinglets (singlets : List kSingletScoreCard) : Prop :=
  ∀ c ∈ singlets, ∃ (env1 : Stage1Env) (precursors : List kPrecursor) (call : SingletCall)
    (idx : Nat), scoreSingletSpectra env1 precursors call = some (idx, c)

/-! ## Concrete inputs -/

/-- Twenty motif cells: the given motif ids followed by `-1` sentinels. -/
def motifCells (ids : List Int) : List Int :=
  ids ++ List.replicate (20 - ids.length) (-1)

/-- One linker of mass 138 between motif 0 and itself, 10 ppm tolerance, one precursor of
mass 2138, and a singlet table of two unmodified cards. -/
def pairEnv : RelaxedEnv :=
  { dimersXL := false
    ppmPrecursor := 10
    getCounterMotif := fun m cm => if m = 0 ∧ cm = 0 then 0 else -1
    getXLIndex := fun m cm => if m = 0 ∧ cm = 0 then 0 else -1
    getLink := fun _ => { mass := 138, mono := 0 }
    precursors := [{ monoMass := 2138, charge := 3 }]
    singlets :=
      [{ len := 7, k1 := 0, linkable := true, pep1 := 4, simpleScore := 2, mass := 1000, mods := [] },
       { len := 7, k1 := 6, linkable := true, pep1 := 9, simpleScore := 3, mass := 1000, mods := [] }]
    setBinList := fun _ _ _ _ => default
    sharedScore := fun _ _ _ => 1 }

/-- The sorted scratch list for `pairEnv`: two cards of mass 1000 with motif 0. -/
def pairScratch : List kSingletScoreCardPlus :=
  [{ len := 7, k1 := 0, linkable := true, pep1 := 4, rank := 0, simpleScore := 2, mass := 1000,
     motif := motifCells [0], target := 1 },
   { len := 7, k1 := 6, linkable := true, pep1 := 9, rank := 1, simpleScore := 3, mass := 1000,
     motif := motifCells [0], target := 1 }]

/-- The card that the pass submits on `pairScratch`. -/
def pairResult : kScoreCard :=
  { simpleScore := 34, k1 := 0, k2 := 6, mass := 2138, linkable1 := true, linkable2 := true,
    pep1 := 4, pep2 := 9, link := 0, rank1 := 0, rank2 := 1, score1 := 14, score2 := 21,
    mass1 := 1000, mass2 := 1000, mods1 := [], mods2 := [] }

/-- Two precursors that both match the pair of `pairScratch`, and a third card. -/
def twinEnv : RelaxedEnv :=
  { pairEnv with
    dimersXL := true
    precursors := [{ monoMass := 2138, charge := 3 }, { monoMass := 213801 / 100, charge := 2 }]
    singlets := pairEnv.singlets ++
      [{ len := 9, k1 := 2, linkable := true, pep1 := 11, simpleScore := 1, mass := 1000,
         mods := [] }] }

/-- The sorted scratch list for `twinEnv`: three cards of mass 1000 with motif 0. -/
def twinScratch : List kSingletScoreCardPlus :=
  pairScratch ++
    [{ len := 9, k1 := 2, linkable := true, pep1 := 11, rank := 2, simpleScore := 1, mass := 1000,
       motif := motifCells [0], target := 1 }]

/-- A precursor of mass 1000 and a partner whose total mass `400 + 500.01 + 100` lies
exactly `+10` ppm above it. -/
def edgeEnv : RelaxedEnv :=
  { pairEnv with
    getLink := fun _ => { mass := 100, mono := 0 }
    precursors := [{ monoMass := 1000, charge := 3 }] }

/-- The state at the start of the walks for `edgeEnv`. -/
def edgeState : RelaxedState :=
  { s := [{ len := 7, k1 := 0, linkable := true, pep1 := 4, rank := 0, simpleScore := 2,
            mass := 400, motif := motifCells [0], target := 1 },
          { len := 7, k1 := 6, linkable := true, pep1 := 9, rank := 1, simpleScore := 3,
            mass := 50001 / 100, motif := motifCells [0], target := 1 }]
    i := 0, matched := [], out := [], status := RunStatus.running }

/-- Two linkers: linker 0 (mass 100) joins motif 0 with motif 0, linker 1 (mass 200)
joins motif 1 with motif 1. The spectrum has precursors of mass 2100 and 2700; the
second singlet card carries one modification. -/
def skipEnv : RelaxedEnv :=
  { dimersXL := false
    ppmPrecursor := 10
    getCounterMotif := fun m cm =>
      if m = 0 ∧ cm = 0 then 0 else if m = 1 ∧ cm = 0 then 1 else -1
    getXLIndex := fun m cm =>
      if m = 0 ∧ cm = 0 then 0 else if m = 1 ∧ cm = 0 then 1 else -1
    getLink := fun x => if x = 0 then { mass := 100, mono := 0 } else { mass := 200, mono := 0 }
    precursors := [{ monoMass := 2100, charge := 3 }, { monoMass := 2700, charge := 3 }]
    singlets :=
      [{ len := 7, k1 := 0, linkable := true, pep1 := 0, simpleScore := 1, mass := 1000, mods := [] },
       { len := 7, k1 := 0, linkable := true, pep1 := 1, simpleScore := 1, mass := 1000,
         mods := [{ pos := 2, mass := 16 }] },
       { len := 7, k1 := 0, linkable := true, pep1 := 2, simpleScore := 1, mass := 1500, mods := [] }]
    setBinList := fun _ _ _ _ => default
    sharedScore := fun _ _ _ => 0 }

/-- The same surroundings as `skipEnv` with the modification of the second card removed. -/
def skipEnvUnmodified : RelaxedEnv :=
  { skipEnv with
    singlets :=
      [{ len := 7, k1 := 0, linkable := true, pep1 := 0, simpleScore := 1, mass := 1000, mods := [] },
       { len := 7, k1 := 0, linkable := true, pep1 := 1, simpleScore := 1, mass := 1000, mods := [] },
       { len := 7, k1 := 0, linkable := true, pep1 := 2, simpleScore := 1, mass := 1500, mods := [] }] }

/-- The sorted scratch list for `skipEnv`: card 0 belongs to motifs 0 and 1, card 1 to
motif 0, card 2 to motif 1. -/
def skipScratch : List kSingletScoreCardPlus :=
  [{ len := 7, k1 := 0, linkable := true, pep1 := 0, rank := 0, simpleScore := 1, mass := 1000,
     motif := motifCells [0, 1], target := 1 },
   { len := 7, k1 := 0, linkable := true, pep1 := 1, rank := 1, simpleScore := 1, mass := 1000,
     motif := motifCells [0], target := 1 },
   { len := 7, k1 := 0, linkable := true, pep1 := 2, rank := 2, simpleScore := 1, mass := 1500,
     motif := motifCells [1], target := 1 }]

/-- A motif table in which only lysine belongs to a motif (motif 0). -/
def lysineTable : Char → Nat → Int :=
  fun c i => if c = 'K' ∧ i = 0 then 0 else -1

/-- A peptide of seven residues, `start = 10` and `stop = 16`, inside a protein. -/
def innerPeptide : kPeptide :=
  { mass := 80248 / 100, map := [{ index := 0, start := 10, stop := 16 }], nTerm := false,
    cTerm := false }

/-- A peptide of five residues at the start of its protein. -/
def loopPeptide : kPeptide :=
  { mass := 500, map := [{ index := 0, start := 0, stop := 4 }], nTerm := true, cTerm := false }

/-- Stage-1 surroundings with the lysine table, one linker (index 0) joining motif 0 with
itself, one ion set per loop-link and one matching spectrum (index 3) for every mass. -/
def loopEnv : Stage1Env :=
  { xlTable := lysineTable
    ppmPrecursor := 10
    minPepMass := 500
    maxPepMass := 4000
    dimersNC := false
    lowLinkMass := 138
    highLinkMass := 138
    getCounterMotif := fun m cm => if m = 0 ∧ cm = 0 then 0 else -1
    getXLIndex := fun m cm => if m = 0 ∧ cm = 0 then 0 else -1
    getLink := fun _ => { mass := 138, mono := 0 }
    getBoundaries := fun _ _ => (false, [])
    getBoundaries2 := fun mass _ => (decide (mass = 638), [3])
    fullIons := fun _ => [{ mass := 500, difMass := 0, mods := [] }]
    singletIons := fun _ _ => [{ mass := 500, difMass := 0, mods := [] }]
    loopIons := fun p linkMass _ _ => [{ mass := p.mass + linkMass, difMass := 0, mods := [] }]
    score := fun _ _ _ => 1
    blankCard := default }

/-- A motif table with lysine in motif 0, the C-terminus `'c'` in motif 1 and the
N-terminus `'n'` in motif 2. -/
def termTable : Char → Nat → Int :=
  fun c i =>
    if c = 'K' ∧ i = 0 then 0 else if c = 'c' ∧ i = 0 then 1 else if c = 'n' ∧ i = 0 then 2
    else -1

/-- A database with the single protein `MKAAAK` and three linkable peptides: residues
2..5 (`AAAK`, the C-terminal peptide), residues 0..5 (the whole protein) and residues
1..5 (`KAAAK`). -/
def termDb : KDatabase :=
  { proteins := [{ name := "sp|P1", sequence := "MKAAAK".toList }]
    linkablePeptides :=
      [{ mass := 400, map := [{ index := 0, start := 2, stop := 5 }], nTerm := false, cTerm := true },
       { mass := 600, map := [{ index := 0, start := 0, stop := 5 }], nTerm := true, cTerm := true },
       { mass := 500, map := [{ index := 0, start := 1, stop := 5 }], nTerm := true, cTerm := true }]
    otherPeptides := [] }

/-- A singlet card of peptide `pep1` of `termDb` with link site `k1`. -/
def termCard (pep1 k1 : Int) : kSingletScoreCard :=
  { len := 4, k1 := k1, linkable := true, pep1 := pep1, simpleScore := 1, mass := 400, mods := [] }

/-- The environment `twinEnv` with self-pairing switched off (`dimersXL = false`): every
card of `twinScratch` has its own counter-motif, and precursor 2138 equals twice the
card mass plus the linker mass. -/
def strictEnv : RelaxedEnv :=
  { twinEnv with dimersXL := false }

/-- Linkers for the extrema of the constructor: two cross-linkers of mass 138 and -18 and
a mono-linker of mass 156 between them. -/
def mixedLinks : List kLinker :=
  [{ mass := 138, mono := 0 }, { mass := 156, mono := 1 }, { mass := -18, mono := 0 }]

/-- Two cross-linkers, the first of mass 0. -/
def zeroMassLinks : List kLinker :=
  [{ mass := 0, mono := 0 }, { mass := 5, mono := 0 }]

/-- Five peptides in ascending mass order. -/
def massLadder : List kPeptide :=
  [{ mass := 400, map := [], nTerm := false, cTerm := false },
   { mass := 500, map := [], nTerm := false, cTerm := false },
   { mass := 900, map := [], nTerm := false, cTerm := false },
   { mass := 1500, map := [], nTerm := false, cTerm := false },
   { mass := 2100, map := [], nTerm := false, cTerm := false }]

/-- Stage-1 surroundings whose spectrum lookups return indices only together with
success: `getBoundaries2` finds spectrum 3 for mass 638, `getBoundaries` finds spectra
3 and 5 for every window that contains 1200. The peptide has two ion sets, the second
one with a modification of mass 16. -/
def storeEnv : Stage1Env :=
  { loopEnv with
    getBoundaries := fun lo hi => if lo ≤ 1200 ∧ 1200 ≤ hi then (true, [3, 5]) else (false, [])
    getBoundaries2 := fun mass _ => if mass = 638 then (true, [3]) else (false, [])
    fullIons := fun _ =>
      [{ mass := 638, difMass := 0, mods := [] }, { mass := 654, difMass := 16, mods := [16] }]
    singletIons := fun _ _ =>
      [{ mass := 500, difMass := 0, mods := [] }, { mass := 516, difMass := 16, mods := [16] }] }

/-- A sparse array with bins 0, 10, 20, 30 and a closing entry at bin 1000. -/
def ratchetSpectrum : KSpectrum :=
  { charge := 3
    xCorrSparseArray := [{ bin := 0, fIntensity := 0 }, { bin := 10, fIntensity := 2 },
      { bin := 20, fIntensity := 3 }, { bin := 30, fIntensity := 4 },
      { bin := 1000, fIntensity := 0 }]
    kojakBins := 0
    kojakSparseArray := fun _ => none }

/-- Bins of width 1 without offset; only the a series is enabled. -/
def seriesParams : kParams :=
  { binSize := 1, binOffset := 0, ionSeries := fun t => decide (t = 0) }

/-- An ion set with two positions per ladder for the charges 1 and 2; the second b ion
at charge 1 is negative, so that its bin is taken at `modMass/k` minus its value. -/
def ratchetIons : KIonSet :=
  { mass := 500, difMass := 0, mods := []
    aIons := [[], [61 / 2, 63 / 2], [61 / 2, 63 / 2]]
    bIons := [[], [21 / 2, -161 / 2], [26 / 5, 51 / 5]]
    yIons := [[], [41 / 2, 35], [101 / 10, 35 / 2]] }

/-- A spectrum of charge 2 with ten rows in its two-level array: row 3 holds 1, row 5
holds `10 + pos`, row 9 holds 3, and every other row is absent. -/
def sharedSpectrum : KSpectrum :=
  { charge := 2
    xCorrSparseArray := []
    kojakBins := 10
    kojakSparseArray := fun key =>
      if key = 3 then some (fun _ => 1)
      else if key = 5 then some (fun pos => 10 + pos)
      else if key = 9 then some (fun _ => 3)
      else none }

/-- The series b and y are enabled. -/
def sharedParams : kParams :=
  { binSize := 1, binOffset := 0, ionSeries := fun t => decide (t = 1) || decide (t = 4) }

/-- Bin lists of a first peptide: three bins per series. -/
def sharedSet1 : kMatchSet :=
  { sz := 3
    a := fun _ _ => default
    b := fun _ j => [{ key := 5, pos := 0 }, { key := 5, pos := 2 }, { key := 7, pos := 1 }].getD j default
    c := fun _ _ => default
    x := fun _ _ => default
    y := fun _ j => [{ key := 3, pos := 0 }, { key := 9, pos := 1 }, { key := 9, pos := 4 }].getD j default
    z := fun _ _ => default }

/-- Bin lists of a second peptide; it shares the b bins (5,2) and (7,1) and the y bins
(3,0) and (9,4) with `sharedSet1`. -/
def sharedSet2 : kMatchSet :=
  { sz := 3
    a := fun _ _ => default
    b := fun _ j => [{ key := 5, pos := 2 }, { key := 6, pos := 0 }, { key := 7, pos := 1 }].getD j default
    c := fun _ _ => default
    x := fun _ _ => default
    y := fun _ j => [{ key := 2, pos := 0 }, { key := 3, pos := 0 }, { key := 9, pos := 4 }].getD j default
    z := fun _ _ => default }

/-- A scratch list of two cards without link site (`k1 = -1`), of mass 1000 and 1138:
together they match the precursor 2138 of `pairEnv`. -/
def dimerScratch : List kSingletScoreCardPlus :=
  [{ len := 7, k1 := -1, linkable := false, pep1 := 4, rank := 0, simpleScore := 2, mass := 1000,
     motif := motifCells [], target := 1 },
   { len := 7, k1 := -1, linkable := false, pep1 := 9, rank := 1, simpleScore := 3, mass := 1138,
     motif := motifCells [], target := 1 }]

/-- Three singlet cards over `termDb`: two of mass 400 (ranks 0 and 1) and one of mass
300 (rank 2). -/
def sortSinglets : List kSingletScoreCard :=
  [{ len := 4, k1 := 3, linkable := true, pep1 := 0, simpleScore := 1, mass := 400, mods := [] },
   { len := 4, k1 := 3, linkable := true, pep1 := 0, simpleScore := 2, mass := 400, mods := [] },
   { len := 5, k1 := 0, linkable := true, pep1 := 2, simpleScore := 1, mass := 300, mods := [] }]

/-- The scratch list made from `sortSinglets` before the sort. -/
def sortSnapshot : List kSingletScoreCardPlus :=
  (snapshotFrom termTable termDb "rev_" 0 sortSinglets).getD []

/-- A scratch list of four cards that is not sorted by mass. -/
def unsortedScratch : List kSingletScoreCardPlus :=
  [{ (default : kSingletScoreCardPlus) with mass := 900 },
   { (default : kSingletScoreCardPlus) with mass := 100 },
   { (default : kSingletScoreCardPlus) with mass := 700 },
   { (default : kSingletScoreCardPlus) with mass := 300 }]

/-- Only the series b is enabled. -/
def bOnlyParams : kParams :=
  { binSize := 1, binOffset := 0, ionSeries := fun t => decide (t = 1) }

/-- Bin lists of a first peptide whose b bins are out of order: (5,0) before (3,0). -/
def unsortedSet1 : kMatchSet :=
  { sz := 2
    a := fun _ _ => default
    b := fun _ j => [{ key := 5, pos := 0 }, { key := 3, pos := 0 }].getD j default
    c := fun _ _ => default
    x := fun _ _ => default
    y := fun _ _ => default
    z := fun _ _ => default }

/-- Bin lists of a second peptide whose b bins are out of order: (9,0) before (3,0); it
shares the b bin (3,0) with `unsortedSet1`. -/
def unsortedSet2 : kMatchSet :=
  { sz := 2
    a := fun _ _ => default
    b := fun _ j => [{ key := 9, pos := 0 }, { key := 3, pos := 0 }].getD j default
    c := fun _ _ => default
    x := fun _ _ => default
    y := fun _ _ => default
    z := fun _ _ => default }

/-- An ion set of a peptide of four residues with a modification of mass 16 on the second
residue and one of mass 80 on the last residue. -/
def lastModIon : KIonSet :=
  { mass := 596, difMass := 96, mods := [0, 16, 0, 80] }

/-- A call of `scoreSingletSpectra` for the peptide of `lastModIon`. -/
def lastModCall : SingletCall :=
  { index := 3, sIndex := 0, ion := lastModIon, mass := 596, len := 4, pep := 0, k := 1,
    linkable := true, minMass := 0 }

/-- The spectrum of `lastModCall` in stage 3: its singlet table holds the card that
`scoreSingletSpectra` submits for `lastModCall` and a second card without modification;
one linker (index 0, mass 100) joins motif 0 with itself and the precursor mass is
`596 + 604 + 100`. -/
def lastModEnv : RelaxedEnv :=
  { skipEnv with
    precursors := [{ monoMass := 1300, charge := 3 }]
    singlets :=
      [{ len := 4, k1 := 1, linkable := true, pep1 := 0, simpleScore := 1 / 4, mass := 596,
         mods := [{ pos := 1, mass := 16 }] },
       { len := 4, k1 := 0, linkable := true, pep1 := 1, simpleScore := 1 / 2, mass := 604,
         mods := [] }] }

/-- The snapshot of the singlet table of `lastModEnv`, both cards in motif 0. -/
def lastModScratch : List kSingletScoreCardPlus :=
  [{ len := 4, k1 := 1, linkable := true, pep1 := 0, rank := 0, simpleScore := 1 / 4, mass := 596,
     motif := motifCells [0], target := 1 },
   { len := 4, k1 := 0, linkable := true, pep1 := 1, rank := 1, simpleScore := 1 / 2, mass := 604,
     motif := motifCells [0], target := 1 }]

/-- The singlet table of a spectrum over `termDb`: peptide 2 (`KAAAK`) with link site 0
and peptide 0 (`AAAK`) with link site 3, both as `scoreSingletSpectra` submits them when
the kernel score is 1. -/
def pipeSinglets : List kSingletScoreCard :=
  [{ len := 5, k1 := 0, linkable := true, pep1 := 2, simpleScore := 1 / 5, mass := 500, mods := [] },
   { len := 4, k1 := 3, linkable := true, pep1 := 0, simpleScore := 1 / 4, mass := 400, mods := [] }]

/-- The calls of `scoreSingletSpectra` behind the two cards of `pipeSinglets`. -/
def pipeCalls : List SingletCall :=
  [{ index := 3, sIndex := 0, ion := { mass := 500, difMass := 0, mods := [] }, mass := 500,
     len := 5, pep := 2, k := 0, linkable := true, minMass := 0 },
   { index := 3, sIndex := 0, ion := { mass := 400, difMass := 0, mods := [] }, mass := 400,
     len := 4, pep := 0, k := 3, linkable := true, minMass := 0 }]

/-- The spectrum of `pipeSinglets` in stage 3: one precursor of mass `400 + 500 + 138`,
the linker table of `pairEnv`, bin lists that depend on the peptide, and the shared-ion
kernel on `sharedSpectrum`. -/
def pipeEnv : RelaxedEnv :=
  { pairEnv with
    precursors := [{ monoMass := 1038, charge := 3 }]
    singlets := pipeSinglets
    setBinList := fun c _ _ _ => if c.pep1 = 2 then sharedSet1 else sharedSet2
    sharedScore := fun m1 m2 charge => sharedScore sharedParams sharedSpectrum m1 m2 charge }

/-- The scratch list made from `pipeSinglets` before the sort. -/
def pipeSnapshot : List kSingletScoreCardPlus :=
  [{ len := 5, k1 := 0, linkable := true, pep1 := 2, rank := 0, simpleScore := 1 / 5, mass := 500,
     motif := motifCells [0, 2], target := 1 },
   { len := 4, k1 := 3, linkable := true, pep1 := 0, rank := 1, simpleScore := 1 / 4, mass := 400,
     motif := motifCells [0], target := 1 }]

theorem recordPair_s (env : RelaxedEnv) (j n : Nat) (xlIndex : Int) (P : kPrecursor)
    (st : RelaxedState) : (recordPair env j n xlIndex P st).s = st.s := rfl

theorem walkUp_s (env : RelaxedEnv) (j : Nat) (cmv xl : Int) (P : kPrecursor) :
    ∀ (idxs : List Nat) (st : RelaxedState), (walkUp env j cmv xl P idxs st).s = st.s := by
  intro idxs
  induction idxs with
  | nil => intro st; rfl
  | cons n rest ih =>
    intro st
    unfold walkUp
    simp only []
    split_ifs <;> simp [ih, recordPair_s]

theorem walkUp_inv {env : RelaxedEnv} {j : Nat} {Q : RelaxedState → Prop}
    (h : StepInv env j Q) (cmv xl : Int) (P : kPrecursor) (hP : P ∈ env.precursors)
    (hc : 0 ≤ cmv) (hx : 0 ≤ xl) :
    ∀ (idxs : List Nat) (st : RelaxedState),
      (∃ i0 cm, cmv = env.getCounterMotif (motifAt (st.s.getD j default) i0) cm ∧
        xl = env.getXLIndex (motifAt (st.s.getD j default) i0) cm) →
      (∀ n ∈ idxs, n < st.s.length) → Q st → Q (walkUp env j cmv xl P idxs st) := by
  intro idxs
  induction idxs with
  | nil => intro st _ _ hQ; exact hQ
  | cons n rest ih =>
    intro st ho hlt hQ
    have hrest : ∀ m ∈ rest, m < st.s.length := fun m hm => hlt m (List.mem_cons_of_mem _ hm)
    unfold walkUp
    simp only []
    split_ifs with h1 h2 h3 h4 h5 h6
    · exact ih st ho hrest hQ
    · exact ih st ho hrest hQ
    · exact ih st ho hrest hQ
    · exact ih st ho hrest hQ
    · exact hQ
    · exact ih st ho hrest hQ
    · refine ih _ ho hrest (h.record st n cmv xl P hQ (hlt n (List.mem_cons_self _ _)) hP hc hx ho ?_)
      push_neg at h2
      refine ⟨?_, h2.1, h2.2, h3, not_lt.mp h4, not_lt.mp h5, ?_⟩
      · intro hd hn
        apply h1
        simp [hd, hn]
      · simpa using h6

theorem tdiv2_bounds (a : Int) (h : -1 ≤ a) :
    0 ≤ Int.tdiv a 2 ∧ 2 * Int.tdiv a 2 ≤ a + 1 ∧ a ≤ 2 * Int.tdiv a 2 + 1 := by
  rcases (by omega : a = -1 ∨ 0 ≤ a) with h1 | h1
  · subst h1; decide
  · rw [Int.tdiv_eq_ediv h1 (by norm_num)]; omega

theorem findMassLoop_bounds (s : List kSingletScoreCardPlus) (sz : Int) (mass : ℚ) (hsz : 0 < sz) :
    ∀ (fuel : Nat) (lower mid upper : Int), 0 ≤ lower → lower ≤ sz → -1 ≤ upper → upper ≤ sz →
      0 ≤ mid → mid < sz →
      0 ≤ findMassLoop s sz mass fuel lower mid upper ∧
        findMassLoop s sz mass fuel lower mid upper < sz := by
  intro fuel
  induction fuel with
  | zero => intro lower mid upper _ _ _ _ h5 h6; exact ⟨h5, h6⟩
  | succ fuel ih =>
    intro lower mid upper h1 h2 h3 h4 h5 h6
    unfold findMassLoop
    simp only []
    split_ifs with c1 c2 c3 c4 c5
    · exact ⟨h5, h6⟩
    · exact ⟨h5, h6⟩
    · have := tdiv2_bounds (lower + (mid - 1)) (by omega)
      omega
    · have := tdiv2_bounds (lower + (mid - 1)) (by omega)
      exact ih _ _ _ h1 h2 (by omega) (by omega) this.1 (by omega)
    · have := tdiv2_bounds (mid + 1 + upper) (by omega)
      omega
    · have := tdiv2_bounds (mid + 1 + upper) (by omega)
      exact ih _ _ _ (by omega) (by omega) h3 h4 this.1 (by omega)

theorem findMass_bounds (s : List kSingletScoreCardPlus) (sz : Nat) (mass : ℚ) (hsz : 0 < sz) :
    0 ≤ findMass s sz mass ∧ findMass s sz mass < sz := by
  unfold findMass
  have h : Int.tdiv (sz : Int) 2 = (sz : Int) / 2 := Int.tdiv_eq_ediv (by omega) (by norm_num)
  rw [h]
  exact findMassLoop_bounds s sz mass (by omega) _ _ _ _ (le_refl _) (by omega) (by omega)
    (le_refl _) (by omega) (by omega)

theorem findMass_toNat_le (s : List kSingletScoreCardPlus) (sz : Nat) (mass : ℚ) :
    (findMass s sz mass).toNat ≤ sz := by
  rcases Nat.eq_zero_or_pos sz with h | h
  · subst h
    have : findMass s 0 mass = 0 := by
      unfold findMass
      simp [findMassLoop]
    simp [this]
  · have := findMass_bounds s sz mass h
    omega

theorem mem_upIndices {count : Nat} {index : Int} {n : Nat} (h : n ∈ upIndices count index) :
    n < count := by
  unfold upIndices at h
  rw [List.mem_range'_1] at h
  omega

theorem mem_downIndices {index : Int} {n : Nat} (h : n ∈ downIndices index) :
    n < index.toNat := by
  unfold downIndices at h
  simpa using h

theorem walkDown_s (env : RelaxedEnv) (j : Nat) (cmv xl : Int) (P : kPrecursor) :
    ∀ (idxs : List Nat) (st : RelaxedState), (walkDown env j cmv xl P idxs st).s = st.s := by
  intro idxs
  induction idxs with
  | nil => intro st; rfl
  | cons n rest ih =>
    intro st
    unfold walkDown
    simp only []
    split_ifs <;> simp [ih, recordPair_s]

theorem walkDown_inv {env : RelaxedEnv} {j : Nat} {Q : RelaxedState → Prop}
    (h : StepInv env j Q) (cmv xl : Int) (P : kPrecursor) (hP : P ∈ env.precursors)
    (hc : 0 ≤ cmv) (hx : 0 ≤ xl) :
    ∀ (idxs : List Nat) (st : RelaxedState),
      (∃ i0 cm, cmv = env.getCounterMotif (motifAt (st.s.getD j default) i0) cm ∧
        xl = env.getXLIndex (motifAt (st.s.getD j default) i0) cm) →
      (∀ n ∈ idxs, n < st.s.length) → Q st → Q (walkDown env j cmv xl P idxs st) := by
  intro idxs
  induction idxs with
  | nil => intro st _ _ hQ; exact hQ
  | cons n rest ih =>
    intro st ho hlt hQ
    have hrest : ∀ m ∈ rest, m < st.s.length := fun m hm => hlt m (List.mem_cons_of_mem _ hm)
    unfold walkDown
    simp only []
    split_ifs with h1 h2 h3 h4 h5 h6
    · exact ih st ho hrest hQ
    · exact ih st ho hrest hQ
    · exact ih st ho hrest hQ
    · exact ih st ho hrest hQ
    · exact hQ
    · exact ih st ho hrest hQ
    · refine ih _ ho hrest (h.record st n cmv xl P hQ (hlt n (List.mem_cons_self _ _)) hP hc hx ho ?_)
      push_neg at h2
      refine ⟨?_, h2.1, h2.2, h3, not_lt.mp h5, not_lt.mp h4, ?_⟩
      · intro hd hn
        apply h1
        simp [hd, hn]
      · simpa using h6

theorem precursorStep_s (env : RelaxedEnv) (j : Nat) (cmv xl : Int) (st : RelaxedState)
    (P : kPrecursor) : (precursorStep env j cmv xl st P).s = st.s := by
  unfold precursorStep
  simp [walkDown_s, walkUp_s]

theorem precursorStep_inv {env : RelaxedEnv} {j : Nat} {Q : RelaxedState → Prop}
    (h : StepInv env j Q) (cmv xl : Int) (hc : 0 ≤ cmv) (hx : 0 ≤ xl) (st : RelaxedState)
    (P : kPrecursor) (hP : P ∈ env.precursors)
    (ho : ∃ i0 cm, cmv = env.getCounterMotif (motifAt (st.s.getD j default) i0) cm ∧
        xl = env.getXLIndex (motifAt (st.s.getD j default) i0) cm)
    (hQ : Q st) : Q (precursorStep env j cmv xl st P) := by
  unfold precursorStep
  simp only []
  apply walkDown_inv h cmv xl P hP hc hx
  · simpa [walkUp_s] using ho
  · intro n hn
    have h1 := mem_downIndices hn
    have h2 := findMass_toNat_le st.s st.s.length
      (P.monoMass - (st.s.getD j default).mass - (env.getLink xl).mass)
    rw [walkUp_s]
    omega
  · apply walkUp_inv h cmv xl P hP hc hx _ _ ho _ hQ
    intro n hn
    exact mem_upIndices hn

theorem foldl_precursorStep_s (env : RelaxedEnv) (j : Nat) (cmv xl : Int) :
    ∀ (ps : List kPrecursor) (st : RelaxedState),
      (ps.foldl (precursorStep env j cmv xl) st).s = st.s := by
  intro ps
  induction ps with
  | nil => intro st; rfl
  | cons P rest ih => intro st; simp [List.foldl, ih, precursorStep_s]

theorem precursorLoop_s (env : RelaxedEnv) (j : Nat) (cmv xl : Int) (st : RelaxedState) :
    (precursorLoop env j cmv xl st).s = st.s :=
  foldl_precursorStep_s env j cmv xl _ st

theorem foldl_precursorStep_inv {env : RelaxedEnv} {j : Nat} {Q : RelaxedState → Prop}
    (h : StepInv env j Q) (cmv xl : Int) (hc : 0 ≤ cmv) (hx : 0 ≤ xl) :
    ∀ (ps : List kPrecursor) (st : RelaxedState), (∀ P ∈ ps, P ∈ env.precursors) →
      (∃ i0 cm, cmv = env.getCounterMotif (motifAt (st.s.getD j default) i0) cm ∧
        xl = env.getXLIndex (motifAt (st.s.getD j default) i0) cm) →
      Q st → Q (ps.foldl (precursorStep env j cmv xl) st) := by
  intro ps
  induction ps with
  | nil => intro st _ _ hQ; exact hQ
  | cons P rest ih =>
    intro st hps ho hQ
    simp only [List.foldl]
    apply ih
    · exact fun P1 h1 => hps P1 (List.mem_cons_of_mem _ h1)
    · simpa [precursorStep_s] using ho
    · exact precursorStep_inv h cmv xl hc hx st P (hps P (List.mem_cons_self _ _)) ho hQ

theorem precursorLoop_inv {env : RelaxedEnv} {j : Nat} {Q : RelaxedState → Prop}
    (h : StepInv env j Q) (cmv xl : Int) (hc : 0 ≤ cmv) (hx : 0 ≤ xl) (st : RelaxedState)
    (ho : ∃ i0 cm, cmv = env.getCounterMotif (motifAt (st.s.getD j default) i0) cm ∧
        xl = env.getXLIndex (motifAt (st.s.getD j default) i0) cm)
    (hQ : Q st) : Q (precursorLoop env j cmv xl st) :=
  foldl_precursorStep_inv h cmv xl hc hx _ st (fun _ hP => hP) ho hQ

theorem counterMotifLoop_s (env : RelaxedEnv) (j : Nat) :
    ∀ (left : Nat) (cm : Int) (st : RelaxedState),
      (counterMotifLoop env j left cm st).s = st.s := by
  intro left
  induction left with
  | zero => intro cm st; rfl
  | succ left ih =>
    intro cm st
    unfold counterMotifLoop
    simp only []
    split_ifs <;> simp [ih, precursorLoop_s]

theorem counterMotifLoop_inv {env : RelaxedEnv} {j : Nat} {Q : RelaxedState → Prop}
    (h : StepInv env j Q) :
    ∀ (left : Nat) (cm : Int) (st : RelaxedState), Q st →
      Q (counterMotifLoop env j left cm st) := by
  intro left
  induction left with
  | zero => intro cm st hQ; exact hQ
  | succ left ih =>
    intro cm st hQ
    unfold counterMotifLoop
    simp only []
    split_ifs with h1 h2
    · exact hQ
    · exact h.setFatal st hQ
    · exact ih _ _ (precursorLoop_inv h _ _ (not_lt.mp h1) (not_lt.mp h2) st ⟨st.i, cm, rfl, rfl⟩ hQ)

theorem motifLoop_s (env : RelaxedEnv) (j : Nat) :
    ∀ (fuel : Nat) (st : RelaxedState), (motifLoop env j fuel st).s = st.s := by
  intro fuel
  induction fuel with
  | zero => intro st; rfl
  | succ fuel ih =>
    intro st
    unfold motifLoop
    simp only []
    split_ifs <;> simp [ih, counterMotifLoop_s]

theorem motifLoop_inv {env : RelaxedEnv} {j : Nat} {Q : RelaxedState → Prop}
    (h : PairInv env j Q) :
    ∀ (fuel : Nat) (st : RelaxedState), Q st → Q (motifLoop env j fuel st) := by
  intro fuel
  induction fuel with
  | zero => intro st hQ; exact h.setExhausted st hQ
  | succ fuel ih =>
    intro st hQ
    unfold motifLoop
    simp only []
    split_ifs with h1 h2 h3
    · exact hQ
    · exact counterMotifLoop_inv h.toStepInv _ _ _ hQ
    · exact ih _ (h.setI _ _ (counterMotifLoop_inv h.toStepInv _ _ _ hQ))
    · exact hQ

theorem ScoreRel.refl (s0 : List kSingletScoreCardPlus) : ScoreRel s0 s0 :=
  ⟨rfl, fun _ => Or.inl rfl⟩

theorem ScoreRel.eq_of_nonneg {s0 s : List kSingletScoreCardPlus} (h : ScoreRel s0 s) (x : Nat)
    (hx : 0 ≤ (s.getD x default).simpleScore) : s.getD x default = s0.getD x default := by
  rcases h.2 x with h1 | ⟨h1, h2⟩
  · exact h1
  · rw [h1] at hx
    simp only at hx
    linarith

theorem getD_set_default {α : Type} [Inhabited α] (l : List α) (j x : Nat) (a : α) :
    (l.set j a).getD x default = if j = x ∧ j < l.length then a else l.getD x default := by
  simp only [List.getD_eq_getElem?_getD, List.getElem?_set]
  by_cases h1 : j = x
  · subst h1
    by_cases h2 : j < l.length
    · simp [h2]
    · simp [h2, List.getElem?_eq_none (not_lt.mp h2)]
  · simp [h1]

theorem ScoreRel.markSearched {s0 s : List kSingletScoreCardPlus} (h : ScoreRel s0 s) (j : Nat)
    (hj : 0 < (s.getD j default).simpleScore) : ScoreRel s0 (markSearched s j) := by
  refine ⟨by simp [Kojak.markSearched, h.1], fun x => ?_⟩
  unfold Kojak.markSearched
  rw [getD_set_default]
  split_ifs with hx
  · right
    obtain ⟨rfl, _⟩ := hx
    have he := h.eq_of_nonneg j hj.le
    rw [he] at hj ⊢
    exact ⟨rfl, hj⟩
  · exact h.2 x

/-- Everything recorded so far is a legitimate pair of the snapshot, seen from inside
the work on template `j` whose scratch list is `s1`. -/
theorem recorded_pairInv (env : RelaxedEnv) (s0 s1 : List kSingletScoreCardPlus) (j : Nat)
    (hrel : ScoreRel s0 s1) (hj : j < s1.length) (hs : 0 < (s1.getD j default).simpleScore)
    (hl : (s1.getD j default).linkable = true) (hk : 0 ≤ (s1.getD j default).k1) :
    PairInv env j (fun st => st.s = s1 ∧ ∀ c ∈ st.out, Recorded env s0 c) := by
  refine ⟨⟨fun st h => h, ?_⟩, fun st x h => h, fun st h => h⟩
  intro st n cmv xl P hQ hn hP hc hx ho hg
  obtain ⟨hs1, hout⟩ := hQ
  refine ⟨hs1, ?_⟩
  intro c hc'
  simp only [recordPair, List.mem_append, List.mem_singleton] at hc'
  rcases hc' with hc' | hc'
  · exact hout c hc'
  · subst hs1
    have ej := hrel.eq_of_nonneg j hs.le
    have en := hrel.eq_of_nonneg n hg.score
    refine ⟨j, n, cmv, xl, P, ?_, ?_⟩
    · rw [ej] at hs hl hk ho
      have h1 := hg.score
      have h2 := hg.site
      have h3 := hg.ppmLo
      have h4 := hg.ppmHi
      have h5 := hg.motif
      rw [en] at h1 h2 h5
      rw [ej, en] at h3 h4
      exact ⟨hrel.1 ▸ hj, hrel.1 ▸ hn, hs, hl, hk, hg.notSelf, h1, h2, hP, h3, h4, h5, hc, hx, ho⟩
    · rw [hc', ej, en]

theorem templateStep_recorded (env : RelaxedEnv) (s0 : List kSingletScoreCardPlus)
    (st : RelaxedState) (j : Nat) (hj : j < s0.length)
    (h : ScoreRel s0 st.s ∧ ∀ c ∈ st.out, Recorded env s0 c) :
    ScoreRel s0 (templateStep env st j).s ∧ ∀ c ∈ (templateStep env st j).out, Recorded env s0 c := by
  unfold templateStep
  simp only []
  split_ifs with h1 h2 h3 h4 h5
  · exact h
  · exact h
  · exact h
  · exact h
  · have hinv := recorded_pairInv env s0 st.s j h.1 (h.1.1 ▸ hj) (not_le.mp h2) (by simpa using h3)
      (not_lt.mp h4)
    have := motifLoop_inv hinv (motifFuel st.s.length) { st with matched := [], i := 0 } ⟨rfl, h.2⟩
    refine ⟨?_, this.2⟩
    rw [this.1]
    exact h.1
  · have hinv := recorded_pairInv env s0 st.s j h.1 (h.1.1 ▸ hj) (not_le.mp h2) (by simpa using h3)
      (not_lt.mp h4)
    have := motifLoop_inv hinv (motifFuel st.s.length) { st with matched := [], i := 0 } ⟨rfl, h.2⟩
    refine ⟨?_, this.2⟩
    simp only []
    rw [this.1]
    exact h.1.markSearched j (not_le.mp h2)

theorem foldl_templateStep_recorded (env : RelaxedEnv) (s0 : List kSingletScoreCardPlus) :
    ∀ (js : List Nat) (st : RelaxedState), (∀ j ∈ js, j < s0.length) →
      (ScoreRel s0 st.s ∧ ∀ c ∈ st.out, Recorded env s0 c) →
      ScoreRel s0 (js.foldl (templateStep env) st).s ∧
        ∀ c ∈ (js.foldl (templateStep env) st).out, Recorded env s0 c := by
  intro js
  induction js with
  | nil => intro st _ h; exact h
  | cons j rest ih =>
    intro st hjs h
    simp only [List.foldl]
    exact ih _ (fun j1 h1 => hjs j1 (List.mem_cons_of_mem _ h1))
      (templateStep_recorded env s0 st j (hjs j (List.mem_cons_self _ _)) h)

/-- Every card submitted by the cross-link pass is a recorded pair of the snapshot. -/
theorem crossLinkPass_recorded (env : RelaxedEnv) (s0 : List kSingletScoreCardPlus)
    (c : kScoreCard) (hc : c ∈ (crossLinkPass env s0).out) : Recorded env s0 c := by
  have := foldl_templateStep_recorded env s0 (List.range s0.length)
    { s := s0, i := 0, matched := [], out := [], status := RunStatus.running }
    (fun j hj => List.mem_range.mp hj) ⟨ScoreRel.refl s0, fun c hc => by simp at hc⟩
  exact this.2 c hc

theorem ScoreRel.rank_eq {s0 s : List kSingletScoreCardPlus} (h : ScoreRel s0 s) (x : Nat) :
    (s.getD x default).rank = (s0.getD x default).rank := by
  rcases h.2 x with h1 | ⟨h1, _⟩ <;> rw [h1]

theorem rank_inj {s0 : List kSingletScoreCardPlus} (hrank : (s0.map (fun c => c.rank)).Nodup)
    {a b : Nat} (ha : a < s0.length) (hb : b < s0.length)
    (h : (s0.getD a default).rank = (s0.getD b default).rank) : a = b := by
  rw [List.getD_eq_getElem _ _ ha, List.getD_eq_getElem _ _ hb] at h
  have ha1 : a < (s0.map (fun c => c.rank)).length := by simpa using ha
  have hb1 : b < (s0.map (fun c => c.rank)).length := by simpa using hb
  have h1 : (s0.map (fun c => c.rank))[a] = (s0.map (fun c => c.rank))[b] := by simpa using h
  exact (List.Nodup.getElem_inj_iff hrank).mp h1

theorem pairOnce_pairInv (env : RelaxedEnv) (s0 s1 : List kSingletScoreCardPlus) (j : Nat)
    (hrank : (s0.map (fun c => c.rank)).Nodup)
    (hrel : ScoreRel s0 s1) (hj : j < s1.length) (hs : 0 < (s1.getD j default).simpleScore) :
    PairInv env j (fun st => st.s = s1 ∧ PairOnce s0 (some j) st) := by
  refine ⟨⟨fun st h => h, ?_⟩, fun st x h => h, fun st h => h⟩
  intro st n cmv xl P hQ hn hP hc hx ho hg
  obtain ⟨hs1, hpw, hout⟩ := hQ
  subst hs1
  have hlen := hrel.1
  refine ⟨rfl, ?_, ?_⟩
  · simp only [recordPair]
    rw [List.pairwise_append]
    refine ⟨hpw, List.pairwise_singleton _ _, ?_⟩
    intro a ha b hb
    rw [List.mem_singleton] at hb
    subst hb
    obtain ⟨j1, n1, hj1, hn1, hr1, hr2, hcase⟩ := hout a ha
    intro hsame
    have hrj := hrel.rank_eq j
    have hrn := hrel.rank_eq n
    simp only [SamePair, pairCard, hr1, hr2, hrj, hrn, Nat.cast_inj] at hsame
    rcases hsame with ⟨e1, e2⟩ | ⟨e1, e2⟩
    · have e1' := rank_inj hrank hj1 (hlen ▸ hj) e1
      have e2' := rank_inj hrank hn1 (hlen ▸ hn) e2
      subst e1' e2'
      rcases hcase with hneg | ⟨_, hm⟩
      · linarith
      · exact hg.fresh hm
    · have e1' := rank_inj hrank hj1 (hlen ▸ hn) e1
      have e2' := rank_inj hrank hn1 (hlen ▸ hj) e2
      subst e1' e2'
      rcases hcase with hneg | ⟨hcur, hm⟩
      · have := hg.score
        linarith
      · have : j1 = n1 := (Option.some.inj hcur).symm
        subst this
        exact hg.fresh hm
  · intro c hc'
    simp only [recordPair, List.mem_append, List.mem_singleton] at hc'
    rcases hc' with hc' | hc'
    · obtain ⟨j1, n1, hj1, hn1, hr1, hr2, hcase⟩ := hout c hc'
      refine ⟨j1, n1, hj1, hn1, hr1, hr2, ?_⟩
      rcases hcase with hneg | ⟨hcur, hm⟩
      · exact Or.inl hneg
      · exact Or.inr ⟨hcur, by simp [recordPair, hm]⟩
    · refine ⟨j, n, hlen ▸ hj, hlen ▸ hn, ?_, ?_, Or.inr ⟨rfl, by simp [recordPair]⟩⟩
      · rw [hc']
        show ((st.s.getD j default).rank : Int) = _
        rw [hrel.rank_eq j]
      · rw [hc']
        show ((st.s.getD n default).rank : Int) = _
        rw [hrel.rank_eq n]

theorem markSearched_score (s : List kSingletScoreCardPlus) (j x : Nat)
    (hj : 0 < (s.getD j default).simpleScore) (hx : (s.getD x default).simpleScore < 0 ∨ x = j)
    (hjl : j < s.length) :
    ((markSearched s j).getD x default).simpleScore < 0 := by
  unfold markSearched
  rw [getD_set_default]
  split_ifs with h
  · simpa using hj
  · rcases hx with hx | hx
    · exact hx
    · exact absurd ⟨hx.symm, hjl⟩ h

theorem templateStep_pairOnce (env : RelaxedEnv) (s0 : List kSingletScoreCardPlus)
    (hrank : (s0.map (fun c => c.rank)).Nodup)
    (st : RelaxedState) (j : Nat) (hj : j < s0.length)
    (h : ScoreRel s0 st.s ∧ st.out.Pairwise (fun a b => ¬ SamePair a b) ∧
      (st.status = RunStatus.running → PairOnce s0 none st)) :
    ScoreRel s0 (templateStep env st j).s ∧
      (templateStep env st j).out.Pairwise (fun a b => ¬ SamePair a b) ∧
      ((templateStep env st j).status = RunStatus.running →
        PairOnce s0 none (templateStep env st j)) := by
  have hstart : st.status = RunStatus.running → 0 < (st.s.getD j default).simpleScore →
      (motifLoop env j (motifFuel st.s.length) { st with matched := [], i := 0 }).s = st.s ∧
      PairOnce s0 (some j)
        (motifLoop env j (motifFuel st.s.length) { st with matched := [], i := 0 }) := by
    intro hrun hs
    have hinv := pairOnce_pairInv env s0 st.s j hrank h.1 (h.1.1 ▸ hj) hs
    refine motifLoop_inv hinv (motifFuel st.s.length) { st with matched := [], i := 0 } ⟨rfl, ?_⟩
    have hp := h.2.2 hrun
    refine ⟨hp.1, fun c hc => ?_⟩
    obtain ⟨j1, n1, hj1, hn1, hr1, hr2, hcase⟩ := hp.2 c hc
    refine ⟨j1, n1, hj1, hn1, hr1, hr2, ?_⟩
    rcases hcase with hneg | ⟨hcur, _⟩
    · exact Or.inl hneg
    · exact absurd hcur (by simp)
  unfold templateStep
  simp only []
  split_ifs with h1 h2 h3 h4 h5
  · exact h
  · exact h
  · exact h
  · exact h
  · obtain ⟨e, hpw, _⟩ := hstart (not_not.mp h1) (not_le.mp h2)
    exact ⟨by rw [e]; exact h.1, hpw, fun hrun => absurd hrun h5⟩
  · obtain ⟨e, hpw, hout⟩ := hstart (not_not.mp h1) (not_le.mp h2)
    have hs : 0 < (st.s.getD j default).simpleScore := not_le.mp h2
    refine ⟨?_, hpw, fun _ => ⟨hpw, fun c hc => ?_⟩⟩
    · simp only []
      rw [e]
      exact h.1.markSearched j hs
    · obtain ⟨j1, n1, hj1, hn1, hr1, hr2, hcase⟩ := hout c hc
      refine ⟨j1, n1, hj1, hn1, hr1, hr2, Or.inl ?_⟩
      simp only []
      rw [e]
      apply markSearched_score st.s j j1 hs _ (h.1.1 ▸ hj)
      rcases hcase with hneg | ⟨hcur, _⟩
      · left
        rw [e] at hneg
        exact hneg
      · right
        exact (Option.some.inj hcur).symm

theorem foldl_templateStep_pairOnce (env : RelaxedEnv) (s0 : List kSingletScoreCardPlus)
    (hrank : (s0.map (fun c => c.rank)).Nodup) :
    ∀ (js : List Nat) (st : RelaxedState), (∀ j ∈ js, j < s0.length) →
      (ScoreRel s0 st.s ∧ st.out.Pairwise (fun a b => ¬ SamePair a b) ∧
        (st.status = RunStatus.running → PairOnce s0 none st)) →
      (js.foldl (templateStep env) st).out.Pairwise (fun a b => ¬ SamePair a b) := by
  intro js
  induction js with
  | nil => intro st _ h; exact h.2.1
  | cons j rest ih =>
    intro st hjs h
    simp only [List.foldl]
    exact ih _ (fun j1 h1 => hjs j1 (List.mem_cons_of_mem _ h1))
      (templateStep_pairOnce env s0 hrank st j (hjs j (List.mem_cons_self _ _)) h)

theorem crossLinkPass_pairwise (env : RelaxedEnv) (s0 : List kSingletScoreCardPlus)
    (hrank : (s0.map (fun c => c.rank)).Nodup) :
    (crossLinkPass env s0).out.Pairwise (fun a b => ¬ SamePair a b) := by
  refine foldl_templateStep_pairOnce env s0 hrank (List.range s0.length) _
    (fun j hj => List.mem_range.mp hj) ⟨ScoreRel.refl s0, List.Pairwise.nil, fun _ => ?_⟩
  exact ⟨List.Pairwise.nil, fun c hc => by simp at hc⟩

theorem ppmError_mono {M t1 t2 : ℚ} (hM : 0 < M) (h : t1 ≤ t2) :
    ppmError t1 M ≤ ppmError t2 M := by
  unfold ppmError
  have : (t1 - M) / M ≤ (t2 - M) / M := by
    apply div_le_div_of_nonneg_right _ hM.le
    linarith
  nlinarith

theorem walkUp_matched_mono (env : RelaxedEnv) (j : Nat) (cmv xl : Int) (P : kPrecursor) :
    ∀ (idxs : List Nat) (st : RelaxedState) (n : Nat), n ∈ st.matched →
      n ∈ (walkUp env j cmv xl P idxs st).matched := by
  intro idxs
  induction idxs with
  | nil => intro st n h; exact h
  | cons m rest ih =>
    intro st n h
    unfold walkUp
    simp only []
    split_ifs
    all_goals first
      | exact ih st n h
      | exact h
      | exact ih _ n (by simp [recordPair, h])

theorem walkDown_matched_mono (env : RelaxedEnv) (j : Nat) (cmv xl : Int) (P : kPrecursor) :
    ∀ (idxs : List Nat) (st : RelaxedState) (n : Nat), n ∈ st.matched →
      n ∈ (walkDown env j cmv xl P idxs st).matched := by
  intro idxs
  induction idxs with
  | nil => intro st n h; exact h
  | cons m rest ih =>
    intro st n h
    unfold walkDown
    simp only []
    split_ifs
    all_goals first
      | exact ih st n h
      | exact h
      | exact ih _ n (by simp [recordPair, h])

theorem walkUp_complete (env : RelaxedEnv) (j : Nat) (cmv xl : Int) (P : kPrecursor)
    (hP : 0 < P.monoMass) (n : Nat) :
    ∀ (idxs : List Nat) (st : RelaxedState),
      idxs.Pairwise (fun a b => (st.s.getD a default).mass ≤ (st.s.getD b default).mass) →
      n ∈ idxs → WalkCandidate env st.s j n xl P →
      n ∈ (walkUp env j cmv xl P idxs st).matched ∨
        hasCounterMotif (st.s.getD n default) cmv = false := by
  intro idxs
  induction idxs with
  | nil => intro st _ h; simp at h
  | cons m rest ih =>
    intro st hpw hmem hc
    rw [List.pairwise_cons] at hpw
    rcases List.mem_cons.mp hmem with hnm | hrest
    · subst hnm
      unfold walkUp
      simp only []
      split_ifs with h1 h2 h3 h4 h5 h6
      · exfalso
        simp only [Bool.and_eq_true, Bool.not_eq_true', beq_iff_eq] at h1
        exact hc.notSelf h1.1 h1.2
      · exfalso
        rcases h2 with h2 | h2
        · exact absurd hc.score (not_le.mpr h2)
        · exact absurd hc.site (not_le.mpr h2)
      · exact Or.inl (walkUp_matched_mono env j cmv xl P rest st n h3)
      · exact absurd hc.ppmLo (not_le.mpr h4)
      · exact absurd hc.ppmHi (not_le.mpr h5)
      · right
        simpa using h6
      · left
        exact walkUp_matched_mono env j cmv xl P rest _ n (by simp [recordPair])
    · unfold walkUp
      simp only []
      split_ifs with h1 h2 h3 h4 h5 h6
      · exact ih st hpw.2 hrest hc
      · exact ih st hpw.2 hrest hc
      · exact ih st hpw.2 hrest hc
      · exact ih st hpw.2 hrest hc
      · exfalso
        have hm := hpw.1 n hrest
        have := ppmError_mono hP (show (st.s.getD j default).mass + (st.s.getD m default).mass
          + (env.getLink xl).mass ≤ (st.s.getD j default).mass + (st.s.getD n default).mass
          + (env.getLink xl).mass by linarith)
        have := hc.ppmHi
        linarith
      · exact ih st hpw.2 hrest hc
      · exact ih _ hpw.2 hrest hc

theorem walkDown_complete (env : RelaxedEnv) (j : Nat) (cmv xl : Int) (P : kPrecursor)
    (hP : 0 < P.monoMass) (n : Nat) :
    ∀ (idxs : List Nat) (st : RelaxedState),
      idxs.Pairwise (fun a b => (st.s.getD b default).mass ≤ (st.s.getD a default).mass) →
      n ∈ idxs → WalkCandidate env st.s j n xl P →
      n ∈ (walkDown env j cmv xl P idxs st).matched ∨
        hasCounterMotif (st.s.getD n default) cmv = false := by
  intro idxs
  induction idxs with
  | nil => intro st _ h; simp at h
  | cons m rest ih =>
    intro st hpw hmem hc
    rw [List.pairwise_cons] at hpw
    rcases List.mem_cons.mp hmem with hnm | hrest
    · subst hnm
      unfold walkDown
      simp only []
      split_ifs with h1 h2 h3 h4 h5 h6
      · exfalso
        simp only [Bool.and_eq_true, Bool.not_eq_true', beq_iff_eq] at h1
        exact hc.notSelf h1.1 h1.2
      · exfalso
        rcases h2 with h2 | h2
        · exact absurd hc.score (not_le.mpr h2)
        · exact absurd hc.site (not_le.mpr h2)
      · exact Or.inl (walkDown_matched_mono env j cmv xl P rest st n h3)
      · exact absurd hc.ppmHi (not_le.mpr h4)
      · exact absurd hc.ppmLo (not_le.mpr h5)
      · right
        simpa using h6
      · left
        exact walkDown_matched_mono env j cmv xl P rest _ n (by simp [recordPair])
    · unfold walkDown
      simp only []
      split_ifs with h1 h2 h3 h4 h5 h6
      · exact ih st hpw.2 hrest hc
      · exact ih st hpw.2 hrest hc
      · exact ih st hpw.2 hrest hc
      · exact ih st hpw.2 hrest hc
      · exfalso
        have hm := hpw.1 n hrest
        have := ppmError_mono hP (show (st.s.getD j default).mass + (st.s.getD n default).mass
          + (env.getLink xl).mass ≤ (st.s.getD j default).mass + (st.s.getD m default).mass
          + (env.getLink xl).mass by linarith)
        have := hc.ppmLo
        linarith
      · exact ih st hpw.2 hrest hc
      · exact ih _ hpw.2 hrest hc

theorem upIndices_pairwise (s : List kSingletScoreCardPlus) (index : Int)
    (hsorted : ∀ a b, a ≤ b → b < s.length →
      (s.getD a default).mass ≤ (s.getD b default).mass) :
    (upIndices s.length index).Pairwise
      (fun a b => (s.getD a default).mass ≤ (s.getD b default).mass) := by
  have h1 : (upIndices s.length index).Pairwise (fun a b => a < b) := List.pairwise_lt_range' _ _
  have h2 : ∀ b ∈ upIndices s.length index, b < s.length := fun b hb => mem_upIndices hb
  exact List.Pairwise.imp_of_mem (fun _ hb hab => hsorted _ _ (le_of_lt hab) (h2 _ hb)) h1

theorem downIndices_pairwise (s : List kSingletScoreCardPlus) (index : Int)
    (hidx : index.toNat ≤ s.length)
    (hsorted : ∀ a b, a ≤ b → b < s.length →
      (s.getD a default).mass ≤ (s.getD b default).mass) :
    (downIndices index).Pairwise
      (fun a b => (s.getD b default).mass ≤ (s.getD a default).mass) := by
  unfold downIndices
  rw [List.pairwise_reverse]
  have h1 : (List.range index.toNat).Pairwise (fun a b => a < b) := List.pairwise_lt_range _
  exact List.Pairwise.imp_of_mem (fun _ hb hab =>
    hsorted _ _ (le_of_lt hab) (lt_of_lt_of_le (List.mem_range.mp hb) hidx)) h1

/-! ## Theorems: the iteration budgets suffice -/

theorem progress_stepInv (env : RelaxedEnv) (j : Nat) (st0 : RelaxedState) :
    StepInv env j (Progress st0) := by
  refine ⟨fun st h => ⟨h.1, by simp, h.2.2.1, h.2.2.2.1, h.2.2.2.2⟩, ?_⟩
  intro st n cmv xl P hQ hn hP hc hx ho hg
  obtain ⟨h1, h2, h3, h4, h5⟩ := hQ
  refine ⟨h1, h2, ?_, ?_, Or.inr ?_⟩
  · simp only [recordPair]
    rw [List.nodup_append]
    refine ⟨h3, List.nodup_singleton n, ?_⟩
    intro a ha hb
    rw [List.mem_singleton] at hb
    subst hb
    exact hg.fresh ha
  · intro a ha
    simp only [recordPair, List.mem_append, List.mem_singleton] at ha
    rcases ha with ha | ha
    · exact h4 a ha
    · rw [ha, ← h1]; exact hn
  · simp only [recordPair, List.length_append, List.length_singleton]
    rcases h5 with ⟨e, _⟩ | e <;> omega

theorem motifLoop_not_exhausted (env : RelaxedEnv) (j : Nat) :
    ∀ (fuel : Nat) (st : RelaxedState), st.status ≠ RunStatus.exhausted → st.matched.Nodup →
      (∀ n ∈ st.matched, n < st.s.length) → motifBudget st.s.length st < fuel →
      (motifLoop env j fuel st).status ≠ RunStatus.exhausted := by
  intro fuel
  induction fuel with
  | zero => intro st _ _ _ h; omega
  | succ fuel ih =>
    intro st hst hnd hlt hb
    have hp : Progress st (counterMotifLoop env j 10 0 st) :=
      counterMotifLoop_inv (progress_stepInv env j st) 10 0 st
        ⟨rfl, hst, hnd, hlt, Or.inl ⟨rfl, rfl⟩⟩
    unfold motifLoop
    simp only []
    split_ifs with h1 h2 h3
    · exact hst
    · exact hp.2.1
    · obtain ⟨e1, e2, e3, e4, e5⟩ := hp
      apply ih
      · exact e2
      · exact e3
      · intro n hn
        simp only [e1]
        exact e4 n hn
      · have hlen : (counterMotifLoop env j 10 0 st).matched.length ≤ st.s.length := by
          have hsub : (counterMotifLoop env j 10 0 st).matched ⊆ List.range st.s.length :=
            fun n hn => List.mem_range.mpr (e4 n hn)
          have := List.Subperm.length_le (List.Nodup.subperm e3 hsub)
          simpa using this
        unfold motifBudget at hb ⊢
        simp only [e1]
        rcases e5 with ⟨e6, e7⟩ | e6
        · rw [e6, e7]
          omega
        · omega
    · exact hst

theorem templateStep_not_exhausted (env : RelaxedEnv) (st : RelaxedState) (j : Nat)
    (h : st.status ≠ RunStatus.exhausted) :
    (templateStep env st j).status ≠ RunStatus.exhausted := by
  unfold templateStep
  simp only []
  have hm : (motifLoop env j (motifFuel st.s.length) { st with matched := [], i := 0 }).status
      ≠ RunStatus.exhausted := by
    apply motifLoop_not_exhausted
    · exact h
    · exact List.nodup_nil
    · intro n hn; simp at hn
    · simp only [motifBudget, motifFuel, List.length_nil]
      omega
  split_ifs
  · exact h
  · exact h
  · exact h
  · exact h
  · exact hm
  · exact hm

theorem foldl_templateStep_not_exhausted (env : RelaxedEnv) :
    ∀ (js : List Nat) (st : RelaxedState), st.status ≠ RunStatus.exhausted →
      (js.foldl (templateStep env) st).status ≠ RunStatus.exhausted := by
  intro js
  induction js with
  | nil => intro st h; exact h
  | cons j rest ih =>
    intro st h
    simp only [List.foldl]
    exact ih _ (templateStep_not_exhausted env st j h)

/-- The iteration budget of the motif loop is never used up: the pass ends normally or
at the `exit(-1)` of the linker-index check. -/
theorem crossLinkPass_not_exhausted (env : RelaxedEnv) (s : List kSingletScoreCardPlus) :
    (crossLinkPass env s).status ≠ RunStatus.exhausted :=
  foldl_templateStep_not_exhausted env _ _ (by simp)

theorem findMassLoop_fuel (s : List kSingletScoreCardPlus) (sz : Int) (mass : ℚ) :
    ∀ (fuel extra : Nat) (lower mid upper : Int), 0 ≤ lower → -1 ≤ upper →
      mid = Int.tdiv (lower + upper) 2 → upper - lower < fuel →
      findMassLoop s sz mass (fuel + extra) lower mid upper =
        findMassLoop s sz mass fuel lower mid upper := by
  intro fuel
  induction fuel with
  | zero =>
    intro extra lower mid upper h1 h2 h3 h4
    cases extra with
    | zero => rfl
    | succ extra =>
      simp only [Nat.zero_add]
      unfold findMassLoop
      have : lower ≥ upper := by omega
      simp [this]
  | succ fuel ih =>
    intro extra lower mid upper h1 h2 h3 h4
    have e : fuel + 1 + extra = (fuel + extra) + 1 := by omega
    rw [e]
    unfold findMassLoop
    simp only []
    have hb := tdiv2_bounds (lower + upper) (by omega)
    split_ifs with c1 c2 c3 c4 c5
    · rfl
    · rfl
    · rfl
    · exact ih extra _ _ _ h1 (by omega) rfl (by omega)
    · rfl
    · exact ih extra _ _ _ (by omega) h2 rfl (by omega)

/-- The iteration budget of `findMass` is never used up: more iterations give the same
index. -/
theorem findMass_fuel (s : List kSingletScoreCardPlus) (sz : Nat) (mass : ℚ) (extra : Nat) :
    findMassLoop s sz mass (sz + 2 + extra) 0 (Int.tdiv sz 2) sz = findMass s sz mass := by
  unfold findMass
  exact findMassLoop_fuel s sz mass (sz + 2) extra 0 _ sz (le_refl _) (by omega)
    (by simp) (by omega)

/-! ## Theorems: the walks do not stop short -/

theorem walkUp_append (env : RelaxedEnv) (j : Nat) (cmv xl : Int) (P : kPrecursor)
    (rest : List Nat) :
    ∀ (pre : List Nat) (st : RelaxedState),
      (∀ m ∈ pre, ppmError ((st.s.getD j default).mass + (st.s.getD m default).mass
        + (env.getLink xl).mass) P.monoMass ≤ env.ppmPrecursor) →
      walkUp env j cmv xl P (pre ++ rest) st =
        walkUp env j cmv xl P rest (walkUp env j cmv xl P pre st) := by
  intro pre
  generalize hF : walkUp env j cmv xl P rest = F
  induction pre with
  | nil => intro st _; rw [← hF]; rfl
  | cons m pre ih =>
    intro st h
    have hpre : ∀ a ∈ pre, ppmError ((st.s.getD j default).mass + (st.s.getD a default).mass
        + (env.getLink xl).mass) P.monoMass ≤ env.ppmPrecursor :=
      fun a ha => h a (List.mem_cons_of_mem _ ha)
    have hm := h m (List.mem_cons_self _ _)
    rw [List.cons_append]
    unfold walkUp
    simp only []
    split_ifs with h1 h2 h3 h4 h5 h6
    · exact ih st hpre
    · exact ih st hpre
    · exact ih st hpre
    · exact ih st hpre
    · exact absurd hm (not_le.mpr h5)
    · exact ih st hpre
    · exact ih _ hpre

theorem walkDown_append (env : RelaxedEnv) (j : Nat) (cmv xl : Int) (P : kPrecursor)
    (rest : List Nat) :
    ∀ (pre : List Nat) (st : RelaxedState),
      (∀ m ∈ pre, -env.ppmPrecursor ≤ ppmError ((st.s.getD j default).mass
        + (st.s.getD m default).mass + (env.getLink xl).mass) P.monoMass) →
      walkDown env j cmv xl P (pre ++ rest) st =
        walkDown env j cmv xl P rest (walkDown env j cmv xl P pre st) := by
  intro pre
  generalize hF : walkDown env j cmv xl P rest = F
  induction pre with
  | nil => intro st _; rw [← hF]; rfl
  | cons m pre ih =>
    intro st h
    have hpre : ∀ a ∈ pre, -env.ppmPrecursor ≤ ppmError ((st.s.getD j default).mass
        + (st.s.getD a default).mass + (env.getLink xl).mass) P.monoMass :=
      fun a ha => h a (List.mem_cons_of_mem _ ha)
    have hm := h m (List.mem_cons_self _ _)
    rw [List.cons_append]
    unfold walkDown
    simp only []
    split_ifs with h1 h2 h3 h4 h5 h6
    · exact ih st hpre
    · exact ih st hpre
    · exact ih st hpre
    · exact ih st hpre
    · exact absurd hm (not_le.mpr h5)
    · exact ih st hpre
    · exact ih _ hpre

theorem upIndices_split (count : Nat) (index : Int) (n : Nat) (h1 : index.toNat ≤ n)
    (h2 : n < count) :
    upIndices count index =
      List.range' index.toNat (n - index.toNat) ++ List.range' n (count - n) := by
  unfold upIndices
  have := List.range'_append_1 index.toNat (n - index.toNat) (count - n)
  rw [show index.toNat + (n - index.toNat) = n by omega] at this
  rw [this]
  congr 1
  omega

theorem downIndices_split (index : Int) (n : Nat) (h : n < index.toNat) :
    downIndices index =
      (List.range' (n + 1) (index.toNat - (n + 1))).reverse ++ (List.range (n + 1)).reverse := by
  unfold downIndices
  rw [← List.reverse_append, List.range_eq_range', List.range_eq_range']
  have := List.range'_append_1 0 (n + 1) (index.toNat - (n + 1))
  rw [show 0 + (n + 1) = n + 1 by omega] at this
  rw [this]
  congr 2
  omega

/-! ## Theorems: stage 1 -/

theorem mem_whileCell {α : Type} (cell : Nat → Int) (body : Nat → List α) (e : α) :
    ∀ (left x0 : Nat), e ∈ whileCell cell body left x0 ↔
      ∃ x, x0 ≤ x ∧ x < x0 + left ∧ (∀ y, x0 ≤ y → y ≤ x → cell y > -1) ∧ e ∈ body x := by
  intro left
  induction left with
  | zero =>
    intro x0
    simp only [whileCell, List.not_mem_nil, false_iff]
    rintro ⟨x, h1, h2, _⟩
    omega
  | succ left ih =>
    intro x0
    unfold whileCell
    split_ifs with hc
    · rw [List.mem_append, ih]
      constructor
      · rintro (h | ⟨x, h1, h2, h3, h4⟩)
        · exact ⟨x0, le_refl _, by omega, fun y hy1 hy2 => by
            have : y = x0 := by omega
            rw [this]; exact hc, h⟩
        · refine ⟨x, by omega, by omega, fun y hy1 hy2 => ?_, h4⟩
          rcases Nat.eq_or_lt_of_le hy1 with e1 | e1
          · rw [← e1]; exact hc
          · exact h3 y (by omega) hy2
      · rintro ⟨x, h1, h2, h3, h4⟩
        rcases Nat.eq_or_lt_of_le h1 with e1 | e1
        · left; rw [e1]; exact h4
        · right
          exact ⟨x, by omega, by omega, fun y hy1 hy2 => h3 y (by omega) hy2, h4⟩
    · simp only [List.not_mem_nil, false_iff]
      rintro ⟨x, h1, h2, h3, _⟩
      exact hc (h3 x0 (le_refl _) h1)

theorem mem_scoreSpectra (env : Stage1Env) (len : Int) (index : List Nat) (ion : KIonSet)
    (modMass : ℚ) (linkable : Bool) (pep1 pep2 k1 k2 link : Int) (a : Nat) (ha : a ∈ index) :
    ∃ sc, Stage1Event.checkScore a sc ∈
        scoreSpectra env len index ion modMass linkable pep1 pep2 k1 k2 link ∧
      sc.k1 = k1 ∧ sc.k2 = k2 ∧ sc.link = link ∧ sc.pep1 = pep1 ∧ sc.pep2 = pep2 ∧
      sc.mass = ion.mass := by
  refine ⟨_, List.mem_map.mpr ⟨a, ha, rfl⟩, rfl, rfl, rfl, rfl, rfl, rfl⟩

/-! ## Theorems: the motif mapping of the snapshot -/

theorem getD_set_eq {α : Type} (l : List α) (j x : Nat) (a d : α) :
    (l.set j a).getD x d = if j = x ∧ j < l.length then a else l.getD x d := by
  simp only [List.getD_eq_getElem?_getD, List.getElem?_set]
  by_cases h1 : j = x
  · subst h1
    by_cases h2 : j < l.length
    · simp [h2]
    · simp [h2, List.getElem?_eq_none (not_lt.mp h2)]
  · simp [h1]

theorem cellAt_set (cells : List Int) (j x : Nat) (a : Int) :
    cellAt (cells.set j a) x = if j = x ∧ j < cells.length then a else cellAt cells x :=
  getD_set_eq cells j x a (-1)

theorem cellAt_mem (cells : List Int) (i : Nat) (h : i < cells.length) :
    cellAt cells i ∈ cells := by
  unfold cellAt
  rw [List.getD_eq_getElem _ _ h]
  exact List.getElem_mem h

theorem exists_cellAt_of_mem (cells : List Int) (v : Int) (h : v ∈ cells) :
    ∃ i, i < cells.length ∧ cellAt cells i = v := by
  obtain ⟨i, hi, e⟩ := List.getElem_of_mem h
  exact ⟨i, hi, by unfold cellAt; rw [List.getD_eq_getElem _ _ hi]; exact e⟩

theorem cellScan_spec (cells : List Int) (v : Int) :
    ∀ (left x0 : Nat), x0 ≤ cellScan cells v left x0 ∧ cellScan cells v left x0 ≤ x0 + left ∧
      (∀ y, x0 ≤ y → y < cellScan cells v left x0 → cellAt cells y ≠ -1 ∧ cellAt cells y ≠ v) ∧
      (cellScan cells v left x0 < x0 + left →
        cellAt cells (cellScan cells v left x0) = -1 ∨
        cellAt cells (cellScan cells v left x0) = v) := by
  intro left
  induction left with
  | zero =>
    intro x0
    simp only [cellScan]
    exact ⟨le_refl _, le_refl _, fun y h1 h2 => by omega, fun h => by omega⟩
  | succ left ih =>
    intro x0
    unfold cellScan
    split_ifs with h1 h2
    · exact ⟨le_refl _, by omega, fun y h3 h4 => by omega, fun _ => Or.inl h1⟩
    · exact ⟨le_refl _, by omega, fun y h3 h4 => by omega, fun _ => Or.inr h2⟩
    · obtain ⟨a, b, c, d⟩ := ih (x0 + 1)
      refine ⟨by omega, by omega, fun y h3 h4 => ?_, fun h => d (by omega)⟩
      rcases Nat.eq_or_lt_of_le h3 with e | e
      · rw [← e]; exact ⟨h1, h2⟩
      · exact c y (by omega) h4

theorem addTerminusMotifs_spec (row : Nat → Int) :
    ∀ (left k : Nat) (mc res : List Int × Nat), CellsInStep mc →
      addTerminusMotifs row left k mc = some res →
      CellsInStep res ∧
      (∀ v, v ≠ -1 → v ∈ mc.1 → v ∈ res.1) ∧
      (∀ k1, k ≤ k1 → k1 < k + left → (∀ y, k ≤ y → y ≤ k1 → row y ≠ -1) → row k1 ∈ res.1) ∧
      (∀ v, v ∈ res.1 → v ∈ mc.1 ∨ ∃ k1, k ≤ k1 ∧ k1 < k + left ∧ v = row k1) := by
  intro left
  induction left with
  | zero =>
    intro k mc res hwf h
    simp only [addTerminusMotifs, Option.some.injEq] at h
    subst h
    exact ⟨hwf, fun v _ h => h, fun k1 h1 h2 => by omega, fun v h => Or.inl h⟩
  | succ left ih =>
    intro k mc res hwf h
    unfold addTerminusMotifs at h
    simp only [] at h
    split_ifs at h with h1 h2 h3
    · simp only [Option.some.injEq] at h
      subst h
      exact ⟨hwf, fun v _ h => h, fun k1 h3 _ h5 => absurd h1 (h5 k (le_refl _) h3),
        fun v h => Or.inl h⟩
    · -- the value is appended at `motifCount`
      obtain ⟨hlen, hcnt, hlo, hhi⟩ := hwf
      have hsc := cellScan_spec mc.1 (row k) 20 0
      have hm : mc.2 < 20 := by omega
      have hwf1 : CellsInStep (mc.1.set mc.2 (row k), mc.2 + 1) := by
        refine ⟨by simp [hlen], by simp only; omega, fun i hi => ?_, fun i hi1 hi2 => ?_⟩
        · simp only at hi ⊢
          rw [cellAt_set]
          split_ifs with hc
          · exact h1
          · exact hlo i (by
              rcases Nat.lt_succ_iff_lt_or_eq.mp hi with e | e
              · exact e
              · exact absurd ⟨e.symm, by omega⟩ hc)
        · simp only at hi1 ⊢
          rw [cellAt_set]
          split_ifs with hc
          · omega
          · exact hhi i (by omega) hi2
      obtain ⟨r1, r2, r3, r4⟩ := ih (k + 1) _ res hwf1 h
      have hkeep : ∀ v, v ≠ -1 → v ∈ mc.1 → v ∈ mc.1.set mc.2 (row k) := by
        intro v hv hmem
        obtain ⟨i, hi, e⟩ := exists_cellAt_of_mem _ _ hmem
        have hi2 : i < mc.2 := by
          by_contra hge
          exact hv (e ▸ hhi i (by omega) (by omega))
        have : cellAt (mc.1.set mc.2 (row k)) i = v := by
          rw [cellAt_set]
          split_ifs with hc
          · omega
          · exact e
        rw [← this]
        exact cellAt_mem _ _ (by simp; omega)
      have hnew : row k ∈ mc.1.set mc.2 (row k) := by
        have : cellAt (mc.1.set mc.2 (row k)) mc.2 = row k := by
          rw [cellAt_set]
          simp [hlen, hm]
        have hmem := cellAt_mem (mc.1.set mc.2 (row k)) mc.2 (by rw [List.length_set]; omega)
        rw [this] at hmem
        exact hmem
      refine ⟨r1, fun v hv hmem => r2 v hv (hkeep v hv hmem), fun k1 a b c => ?_, fun v hv => ?_⟩
      · rcases Nat.eq_or_lt_of_le a with e | e
        · rw [← e]
          exact r2 _ h1 hnew
        · exact r3 k1 (by omega) (by omega) (fun y hy1 hy2 => c y (by omega) hy2)
      · rcases r4 v hv with h5 | ⟨k1, h5, h6, h7⟩
        · rcases List.mem_or_eq_of_mem_set h5 with h8 | h8
          · exact Or.inl h8
          · exact Or.inr ⟨k, le_refl _, by omega, h8⟩
        · exact Or.inr ⟨k1, by omega, by omega, h7⟩
    · -- the value is already among the cells
      have hsc := cellScan_spec mc.1 (row k) 20 0
      obtain ⟨hlen, hcnt, hlo, hhi⟩ := hwf
      have hm20 : cellScan mc.1 (row k) 20 0 < 20 := by omega
      have hpresent : row k ∈ mc.1 := by
        rcases hsc.2.2.2 (by omega) with e | e
        · exfalso
          have h4 : mc.2 ≤ cellScan mc.1 (row k) 20 0 := by
            by_contra hlt
            exact hlo _ (not_le.mp hlt) e
          have h5 : mc.2 < cellScan mc.1 (row k) 20 0 := lt_of_le_of_ne h4 (Ne.symm h3)
          exact (hsc.2.2.1 mc.2 (Nat.zero_le _) h5).1 (hhi mc.2 (le_refl _) (by omega))
        · rw [← e]
          exact cellAt_mem _ _ (by omega)
      obtain ⟨r1, r2, r3, r4⟩ := ih (k + 1) mc res ⟨hlen, hcnt, hlo, hhi⟩ h
      refine ⟨r1, r2, fun k1 a b c => ?_, fun v hv => ?_⟩
      · rcases Nat.eq_or_lt_of_le a with e | e
        · rw [← e]
          exact r2 _ h1 hpresent
        · exact r3 k1 (by omega) (by omega) (fun y hy1 hy2 => c y (by omega) hy2)
      · rcases r4 v hv with h5 | ⟨k1, h5, h6, h7⟩
        · exact Or.inl h5
        · exact Or.inr ⟨k1, by omega, by omega, h7⟩


theorem length_filter_range (p : Nat → Bool) :
    ∀ (n c : Nat), c ≤ n → (∀ i, i < c → p i = true) → (∀ i, c ≤ i → i < n → p i = false) →
      ((List.range n).filter p).length = c := by
  intro n
  induction n with
  | zero => intro c hc _ _; simp; omega
  | succ n ih =>
    intro c hc h1 h2
    rw [List.range_succ, List.filter_append, List.length_append]
    rcases Nat.eq_or_lt_of_le hc with e | e
    · have hp : p n = true := h1 n (by omega)
      have := ih n (le_refl _) (fun i hi => h1 i (by omega)) (fun i hi1 hi2 => by omega)
      simp [List.filter, hp, this, e]
    · have hp : p n = false := h2 n (by omega) (by omega)
      have := ih c (by omega) h1 (fun i hi1 hi2 => h2 i hi1 (by omega))
      simp [List.filter, hp, this]

theorem cellAt_initialMotifs (xlTable : Char → Nat → Int) (aa : Char) (i : Nat) (hi : i < 20) :
    cellAt (initialMotifs xlTable aa).1 i = xlTable aa i := by
  unfold cellAt initialMotifs
  simp only
  rw [List.getD_eq_getElem _ _ (by simpa using hi)]
  simp

theorem initialMotifs_inStep (xlTable : Char → Nat → Int) (aa : Char)
    (h : RowWellFormed (xlTable aa)) : CellsInStep (initialMotifs xlTable aa) := by
  obtain ⟨c, hc, hlo, hhi⟩ := h
  have hcount : (initialMotifs xlTable aa).2 = c := by
    unfold initialMotifs
    simp only
    apply length_filter_range _ 20 c hc
    · intro i hi
      simpa using hlo i hi
    · intro i hi1 hi2
      simp [hhi i hi1 hi2]
  refine ⟨by simp [initialMotifs], by rw [hcount]; exact hc, fun i hi => ?_, fun i hi1 hi2 => ?_⟩
  · rw [hcount] at hi
    rw [cellAt_initialMotifs _ _ _ (by omega)]
    have := hlo i hi
    omega
  · rw [hcount] at hi1
    rw [cellAt_initialMotifs _ _ _ hi2]
    exact hhi i hi1 hi2

theorem mem_initialMotifs (xlTable : Char → Nat → Int) (aa : Char) (v : Int)
    (h : v ∈ (initialMotifs xlTable aa).1) : ∃ i, i < 20 ∧ v = xlTable aa i := by
  unfold initialMotifs at h
  simp only [List.mem_map, List.mem_range] at h
  obtain ⟨i, hi, e⟩ := h
  exact ⟨i, hi, e.symm⟩

theorem mapOccurrence_spec (xlTable : Char → Nat → Int) (db : KDatabase) (k1 : Int)
    (mc res : List Int × Nat) (mp : kPepMap) (hwf : CellsInStep mc)
    (h : mapOccurrence xlTable db k1 (some mc) mp = some res) :
    CellsInStep res ∧
    (∀ v, v ≠ -1 → v ∈ mc.1 → v ∈ res.1) ∧
    ((mp.start : Int) + k1 < 2 → ∀ k, k < 20 → (∀ y, y ≤ k → xlTable 'n' y ≠ -1) →
      xlTable 'n' k ∈ res.1) ∧
    (∀ v, v ∈ res.1 → v ∈ mc.1 ∨ ((mp.start : Int) + k1 < 2 ∧ ∃ k, k < 20 ∧ v = xlTable 'n' k) ∨
      ∃ k, k < 20 ∧ v = xlTable 'c' k) := by
  unfold mapOccurrence at h
  simp only [] at h
  by_cases hn : (mp.start : Int) + k1 < 2
  · simp only [hn, if_true] at h
    cases hN : addTerminusMotifs (xlTable 'n') 20 0 mc with
    | none => simp [hN] at h
    | some mc1 =>
      simp only [hN] at h
      obtain ⟨a1, a2, a3, a4⟩ := addTerminusMotifs_spec (xlTable 'n') 20 0 mc mc1 hwf hN
      split_ifs at h with hcnd
      · obtain ⟨b1, b2, b3, b4⟩ := addTerminusMotifs_spec (xlTable 'c') 20 0 mc1 res a1 h
        refine ⟨b1, fun v hv hm => b2 v hv (a2 v hv hm), fun _ k hk hy => ?_, fun v hv => ?_⟩
        · exact b2 _ (hy k (le_refl _)) (a3 k (Nat.zero_le _) (by omega) (fun y _ hy2 => hy y hy2))
        · rcases b4 v hv with h5 | ⟨k, _, h6, h7⟩
          · rcases a4 v h5 with h8 | ⟨k, _, h9, h10⟩
            · exact Or.inl h8
            · exact Or.inr (Or.inl ⟨hn, k, by omega, h10⟩)
          · exact Or.inr (Or.inr ⟨k, by omega, h7⟩)
      · simp only [Option.some.injEq] at h
        subst h
        refine ⟨a1, a2, fun _ k hk hy => ?_, fun v hv => ?_⟩
        · exact a3 k (Nat.zero_le _) (by omega) (fun y _ hy2 => hy y hy2)
        · rcases a4 v hv with h8 | ⟨k, _, h9, h10⟩
          · exact Or.inl h8
          · exact Or.inr (Or.inl ⟨hn, k, by omega, h10⟩)
  · simp only [hn, if_false] at h
    split_ifs at h with hcnd
    · obtain ⟨b1, b2, b3, b4⟩ := addTerminusMotifs_spec (xlTable 'c') 20 0 mc res hwf h
      refine ⟨b1, b2, fun h0 => absurd h0 hn, fun v hv => ?_⟩
      rcases b4 v hv with h5 | ⟨k, _, h6, h7⟩
      · exact Or.inl h5
      · exact Or.inr (Or.inr ⟨k, by omega, h7⟩)
    · simp only [Option.some.injEq] at h
      subst h
      exact ⟨hwf, fun v _ hm => hm, fun h0 => absurd h0 hn, fun v hv => Or.inl hv⟩

theorem foldl_mapOccurrence_none (xlTable : Char → Nat → Int) (db : KDatabase) (k1 : Int) :
    ∀ (l : List kPepMap), l.foldl (mapOccurrence xlTable db k1) none = none := by
  intro l
  induction l with
  | nil => rfl
  | cons mp rest ih => simpa [List.foldl, mapOccurrence] using ih

theorem foldl_mapOccurrence_spec (xlTable : Char → Nat → Int) (db : KDatabase) (k1 : Int) :
    ∀ (l : List kPepMap) (mc res : List Int × Nat), CellsInStep mc →
      l.foldl (mapOccurrence xlTable db k1) (some mc) = some res →
      CellsInStep res ∧
      (∀ v, v ≠ -1 → v ∈ mc.1 → v ∈ res.1) ∧
      ((∃ mp ∈ l, (mp.start : Int) + k1 < 2) → ∀ k, k < 20 →
        (∀ y, y ≤ k → xlTable 'n' y ≠ -1) → xlTable 'n' k ∈ res.1) ∧
      (∀ v, v ∈ res.1 → v ∈ mc.1 ∨
        ((∃ mp ∈ l, (mp.start : Int) + k1 < 2) ∧ ∃ k, k < 20 ∧ v = xlTable 'n' k) ∨
        ∃ k, k < 20 ∧ v = xlTable 'c' k) := by
  intro l
  induction l with
  | nil =>
    intro mc res hwf h
    simp only [List.foldl, Option.some.injEq] at h
    subst h
    exact ⟨hwf, fun v _ hm => hm, fun ⟨mp, hmp, _⟩ => by simp at hmp, fun v hv => Or.inl hv⟩
  | cons mp rest ih =>
    intro mc res hwf h
    simp only [List.foldl] at h
    cases hstep : mapOccurrence xlTable db k1 (some mc) mp with
    | none =>
      rw [hstep, foldl_mapOccurrence_none] at h
      simp at h
    | some mc1 =>
      rw [hstep] at h
      obtain ⟨a1, a2, a3, a4⟩ := mapOccurrence_spec xlTable db k1 mc mc1 mp hwf hstep
      obtain ⟨b1, b2, b3, b4⟩ := ih mc1 res a1 h
      refine ⟨b1, fun v hv hm => b2 v hv (a2 v hv hm), ?_, fun v hv => ?_⟩
      · rintro ⟨mp1, hmp1, hcond⟩ k hk hy
        rcases List.mem_cons.mp hmp1 with e | e
        · subst e
          exact b2 _ (hy k (le_refl _)) (a3 hcond k hk hy)
        · exact b3 ⟨mp1, e, hcond⟩ k hk hy
      · rcases b4 v hv with h5 | ⟨⟨mp1, hmp1, hc1⟩, hk⟩ | h5
        · rcases a4 v h5 with h6 | ⟨hc, hk⟩ | h6
          · exact Or.inl h6
          · exact Or.inr (Or.inl ⟨⟨mp, List.mem_cons_self _ _, hc⟩, hk⟩)
          · exact Or.inr (Or.inr h6)
        · exact Or.inr (Or.inl ⟨⟨mp1, List.mem_cons_of_mem _ hmp1, hc1⟩, hk⟩)
        · exact Or.inr (Or.inr h5)


theorem snapshotCard_rank (xlTable : Char → Nat → Int) (db : KDatabase) (decoy : String)
    (j : Nat) (sc1 : kSingletScoreCard) (c : kSingletScoreCardPlus)
    (h : snapshotCard xlTable db decoy j sc1 = some c) : c.rank = j := by
  unfold snapshotCard at h
  simp only [] at h
  split at h
  · simp at h
  · simp only [Option.some.injEq] at h
    rw [← h]

/-- The ranks of the scratch list before the sort are `j, j+1, ...`: all distinct. -/
theorem snapshotFrom_ranks (xlTable : Char → Nat → Int) (db : KDatabase) (decoy : String) :
    ∀ (cards : List kSingletScoreCard) (j : Nat) (l : List kSingletScoreCardPlus),
      snapshotFrom xlTable db decoy j cards = some l →
      l.map (fun c => c.rank) = List.range' j cards.length := by
  intro cards
  induction cards with
  | nil =>
    intro j l h
    simp only [snapshotFrom, Option.some.injEq] at h
    subst h
    rfl
  | cons sc1 rest ih =>
    intro j l h
    unfold snapshotFrom at h
    cases hc : snapshotCard xlTable db decoy j sc1 with
    | none => simp [hc] at h
    | some c =>
      cases hr : snapshotFrom xlTable db decoy (j + 1) rest with
      | none => simp [hc, hr] at h
      | some cs =>
        simp only [hc, hr, Option.some.injEq] at h
        subst h
        simp only [List.map_cons, List.length_cons, List.range'_succ]
        rw [snapshotCard_rank xlTable db decoy j sc1 c hc, ih (j + 1) cs hr]

/-! ## Theorems: the constructor, the stage-1 driver and the kernels -/

theorem linkMassStep_mono (lh : ℚ × ℚ) (l : kLinker) (h : l.mono ≠ 0) :
    linkMassStep lh l = lh := by
  unfold linkMassStep
  rw [if_neg h]

theorem linkMassLoop_filter (links : List kLinker) : ∀ lh : ℚ × ℚ,
    linkMassLoop lh links = linkMassLoop lh (links.filter (fun l => decide (l.mono = 0))) := by
  induction links with
  | nil => intro lh; rfl
  | cons l rest ih =>
    intro lh
    by_cases h : l.mono = 0
    · rw [List.filter_cons_of_pos (by simpa using h)]
      exact ih _
    · rw [List.filter_cons_of_neg (by simpa using h)]
      show linkMassLoop (linkMassStep lh l) rest = _
      rw [linkMassStep_mono lh l h]
      exact ih _

theorem extremaOf_step (seen : List kLinker) (lh : ℚ × ℚ) (l : kLinker)
    (h : ExtremaOf seen lh) (h0 : l.mono = 0 → l.mass ≠ 0) :
    ExtremaOf (seen ++ [l]) (linkMassStep lh l) := by
  by_cases hm : l.mono = 0
  · have hne := h0 hm
    right
    unfold linkMassStep
    rw [if_pos hm]
    rcases h with ⟨hall, rfl⟩ | ⟨⟨a, ha, ha0, ha1⟩, hlow, ⟨b, hb, hb0, hb1⟩, hhigh, hn1, hn2⟩
    · simp only [if_true, lt_irrefl, if_false, gt_iff_lt]
      refine ⟨⟨l, by simp, hm, rfl⟩, ?_, ⟨l, by simp, hm, rfl⟩, ?_, hne, hne⟩
      · intro x hx hx0
        rcases List.mem_append.mp hx with hx | hx
        · exact absurd hx0 (hall x hx)
        · simp at hx; rw [hx]
      · intro x hx hx0
        rcases List.mem_append.mp hx with hx | hx
        · exact absurd hx0 (hall x hx)
        · simp at hx; rw [hx]
    · simp only [if_neg hn1, if_neg hn2, gt_iff_lt]
      refine ⟨?_, ?_, ?_, ?_, ?_, ?_⟩
      · split_ifs with hlt
        · exact ⟨l, by simp, hm, rfl⟩
        · exact ⟨a, by simp [ha], ha0, ha1⟩
      · intro x hx hx0
        rcases List.mem_append.mp hx with hx | hx
        · have := hlow x hx hx0
          split_ifs with hlt
          · exact le_of_lt (lt_of_lt_of_le hlt this)
          · exact this
        · simp at hx; rw [hx]
          split_ifs with hlt
          · exact le_refl _
          · exact not_lt.mp hlt
      · split_ifs with hlt
        · exact ⟨l, by simp, hm, rfl⟩
        · exact ⟨b, by simp [hb], hb0, hb1⟩
      · intro x hx hx0
        rcases List.mem_append.mp hx with hx | hx
        · have := hhigh x hx hx0
          split_ifs with hlt
          · exact le_of_lt (lt_of_le_of_lt this hlt)
          · exact this
        · simp at hx; rw [hx]
          split_ifs with hlt
          · exact le_refl _
          · exact not_lt.mp hlt
      · split_ifs <;> assumption
      · split_ifs <;> assumption
  · rw [linkMassStep_mono lh l hm]
    rcases h with ⟨h1, h2⟩ | ⟨⟨a, ha, ha0, ha1⟩, hlow, ⟨b, hb, hb0, hb1⟩, hhigh, hn1, hn2⟩
    · left
      refine ⟨?_, h2⟩
      intro x hx
      rcases List.mem_append.mp hx with hx | hx
      · exact h1 x hx
      · simp at hx; rw [hx]; exact hm
    · right
      refine ⟨⟨a, by simp [ha], ha0, ha1⟩, ?_, ⟨b, by simp [hb], hb0, hb1⟩, ?_, hn1, hn2⟩
      · intro x hx hx0
        rcases List.mem_append.mp hx with hx | hx
        · exact hlow x hx hx0
        · simp at hx; rw [hx] at hx0; exact absurd hx0 hm
      · intro x hx hx0
        rcases List.mem_append.mp hx with hx | hx
        · exact hhigh x hx hx0
        · simp at hx; rw [hx] at hx0; exact absurd hx0 hm

theorem extremaOf_loop (links : List kLinker) : ∀ (seen : List kLinker) (lh : ℚ × ℚ),
    ExtremaOf seen lh → (∀ l ∈ links, l.mono = 0 → l.mass ≠ 0) →
    ExtremaOf (seen ++ links) (linkMassLoop lh links) := by
  induction links with
  | nil => intro seen lh h _; simpa [linkMassLoop] using h
  | cons l rest ih =>
    intro seen lh h h0
    have := ih (seen ++ [l]) (linkMassStep lh l)
      (extremaOf_step seen lh l h (h0 l (List.mem_cons_self _ _)))
      (fun x hx => h0 x (List.mem_cons_of_mem _ hx))
    simpa [linkMassLoop] using this

theorem scoreSpectra_sound (env : Stage1Env) (len : Int) (index : List Nat) (ion : KIonSet)
    (modMass : ℚ) (linkable : Bool) (pep1 pep2 k1 k2 link : Int) (e : Stage1Event)
    (he : e ∈ scoreSpectra env len index ion modMass linkable pep1 pep2 k1 k2 link) :
    ∃ a sc, e = Stage1Event.checkScore a sc ∧ a ∈ index ∧
      sc.k1 = k1 ∧ sc.k2 = k2 ∧ sc.link = link ∧ sc.pep1 = pep1 ∧ sc.pep2 = pep2 ∧
      sc.mass = ion.mass := by
  unfold scoreSpectra at he
  obtain ⟨a, ha, rfl⟩ := List.mem_map.mp he
  exact ⟨a, _, rfl, ha, rfl, rfl, rfl, rfl, rfl, rfl⟩

/-- Every event of the loop-link search is a card for two sites `k < k2 < len - 1`, with
the linker that the motif table returns for a motif of residue `k` and an entry `m` of
its counter-motif list whose counter-motif is a motif of residue `k2`. -/
theorem loopLinks_sound (env : Stage1Env) (pepSeq : List Char) (p : kPeptide) (pepIndex : Int)
    (crossLink : Bool) (e : Stage1Event) (he : e ∈ loopLinks env pepSeq p pepIndex crossLink) :
    ∃ (k x m k2 n : Nat) (ion : KIonSet) (a : Nat) (sc : kScoreCard),
      e = Stage1Event.checkScore a sc ∧ k < k2 ∧ k2 + 1 < pepSeq.length ∧
      env.xlTable (pepSeq.getD k (Char.ofNat 0)) x > -1 ∧
      env.getCounterMotif (env.xlTable (pepSeq.getD k (Char.ofNat 0)) x) m > -1 ∧
      env.xlTable (pepSeq.getD k2 (Char.ofNat 0)) n =
        env.getCounterMotif (env.xlTable (pepSeq.getD k (Char.ofNat 0)) x) m ∧
      ion ∈ env.loopIons p
        (env.getLink (env.getXLIndex (env.xlTable (pepSeq.getD k (Char.ofNat 0)) x) m)).mass
        k k2 ∧
      a ∈ (env.getBoundaries2 ion.mass env.ppmPrecursor).2 ∧
      sc.k1 = k ∧ sc.k2 = k2 ∧
      sc.link = env.getXLIndex (env.xlTable (pepSeq.getD k (Char.ofNat 0)) x) m ∧
      sc.pep1 = pepIndex ∧ sc.pep2 = -1 ∧ sc.mass = ion.mass := by
  unfold loopLinks at he
  obtain ⟨k, hk, he⟩ := List.mem_flatMap.mp he
  rw [mem_whileCell] at he
  obtain ⟨x, _, _, hx, he⟩ := he
  rw [mem_whileCell] at he
  obtain ⟨m, _, _, hm, he⟩ := he
  unfold loopSecondSites at he
  obtain ⟨k2, hk2, he⟩ := List.mem_flatMap.mp he
  rw [List.mem_range'_1] at hk2
  rw [mem_whileCell] at he
  obtain ⟨n, _, _, hn, he⟩ := he
  split_ifs at he with hcm
  swap
  · exact absurd he (List.not_mem_nil _)
  unfold loopLinkCards at he
  obtain ⟨ion, hion, he⟩ := List.mem_flatMap.mp he
  simp only [] at he
  split_ifs at he with hbt
  swap
  · exact absurd he (List.not_mem_nil _)
  obtain ⟨a, sc, rfl, ha, h1, h2, h3, h4, h5, h6⟩ := scoreSpectra_sound _ _ _ _ _ _ _ _ _ _ _ _ he
  exact ⟨k, x, m, k2, n, ion, a, sc, rfl, by omega, by omega, hx x (Nat.zero_le _) (le_refl _),
    hm m (Nat.zero_le _) (le_refl _), hcm, hion, ha, h1, h2, h3, h4, h5, h6⟩

theorem fullSearch_pep (env : Stage1Env) (p : kPeptide) (pepIndex : Int) (crossLink : Bool)
    (e : Stage1Event) (he : e ∈ fullSearch env p pepIndex crossLink) : eventPep e = pepIndex := by
  unfold fullSearch at he
  obtain ⟨jion, _, he⟩ := List.mem_flatMap.mp he
  simp only [] at he
  rcases List.mem_append.mp he with he | he
  · split_ifs at he
    · obtain ⟨a, sc, rfl, _, _, _, _, h4, _, _⟩ := scoreSpectra_sound _ _ _ _ _ _ _ _ _ _ _ _ he
      exact h4
    · exact absurd he (List.not_mem_nil _)
  · split_ifs at he
    · unfold analyzeSingletsNoLysine at he
      simp only [] at he
      split_ifs at he
      · obtain ⟨scan, _, rfl⟩ := List.mem_map.mp he
        rfl
      · exact absurd he (List.not_mem_nil _)
    · exact absurd he (List.not_mem_nil _)

theorem analyzeSinglets_pep (env : Stage1Env) (pepSeq : List Char) (p : kPeptide) (index : Int)
    (low high : ℚ) (e : Stage1Event) (he : e ∈ analyzeSinglets env pepSeq p index low high) :
    eventPep e = index := by
  unfold analyzeSinglets at he
  obtain ⟨k, _, he⟩ := List.mem_flatMap.mp he
  unfold singletSiteCalls at he
  obtain ⟨jion, _, he⟩ := List.mem_flatMap.mp he
  simp only [] at he
  split_ifs at he
  · obtain ⟨scan, _, rfl⟩ := List.mem_map.mp he
    rfl
  · exact absurd he (List.not_mem_nil _)

theorem analyzePeptide_pep (env : Stage1Env) (pepSeq : List Char) (p : kPeptide) (pepIndex : Int)
    (crossLink : Bool) (e : Stage1Event) (he : e ∈ analyzePeptide env pepSeq p pepIndex crossLink) :
    eventPep e = pepIndex := by
  unfold analyzePeptide at he
  split_ifs at he
  · exact fullSearch_pep env p pepIndex crossLink e he
  · rcases List.mem_append.mp he with he | he
    · rcases List.mem_append.mp he with he | he
      · exact fullSearch_pep env p pepIndex crossLink e he
      · exact analyzeSinglets_pep env pepSeq p pepIndex _ _ e he
    · obtain ⟨k, x, m, k2, n, ion, a, sc, rfl, _, _, _, _, _, _, _, _, _, _, h4, _, _⟩ :=
        loopLinks_sound env pepSeq p pepIndex crossLink e he
      exact h4

theorem launchFrom_eq_filter (minMass maxMass : ℚ) (crossLink : Bool) :
    ∀ (ps : List kPeptide) (i : Nat), ps.Pairwise (fun a b => a.mass ≤ b.mass) →
      launchFrom minMass maxMass crossLink ps i = (ps.enumFrom i).filter (fun ip =>
        decide (ip.2.mass ≤ maxMass) && (crossLink || decide (minMass ≤ ip.2.mass))) := by
  intro ps
  induction ps with
  | nil => intro i _; rfl
  | cons p rest ih =>
    intro i hs
    rw [List.pairwise_cons] at hs
    unfold launchFrom
    rw [List.enumFrom_cons]
    split_ifs with h1 h2
    · rw [List.filter_cons_of_neg, ih (i + 1) hs.2]
      simp only [Bool.and_eq_true, Bool.or_eq_true, decide_eq_true_eq, not_and, not_or, not_le]
      intro _
      exact ⟨by simp [h1.1], h1.2⟩
    · symm
      rw [List.filter_eq_nil_iff]
      intro ip hip
      simp only [Bool.and_eq_true, Bool.or_eq_true, decide_eq_true_eq, not_and, not_or, not_le]
      intro hle
      exfalso
      rcases List.mem_cons.mp hip with rfl | hip
      · exact absurd hle (not_le.mpr h2)
      · have hm : ip.2 ∈ rest := by
          have := List.mem_map_of_mem Prod.snd hip
          rwa [List.enumFrom_map_snd] at this
        exact absurd (le_trans (hs.1 ip.2 hm) hle) (not_le.mpr h2)
    · rw [List.filter_cons_of_pos, ih (i + 1) hs.2]
      simp only [Bool.and_eq_true, Bool.or_eq_true, decide_eq_true_eq]
      refine ⟨not_lt.mp h2, ?_⟩
      by_cases hc : crossLink = true
      · exact Or.inl hc
      · right
        have : crossLink = false := by simpa using hc
        exact not_lt.mp (fun hlt => h1 ⟨this, hlt⟩)

theorem bestFold_spec (env : Stage1Env) (call : SingletCall) (precursors : List kPrecursor) :
    ∀ init : ℚ,
      init ≤ precursors.foldl (singletScoreStep env call) init ∧
      (∀ P ∈ precursors, P.monoMass > call.minMass →
        env.score call.index (P.monoMass - call.mass) call.ion ≤
          precursors.foldl (singletScoreStep env call) init) ∧
      (precursors.foldl (singletScoreStep env call) init = init ∨
        ∃ P ∈ precursors, P.monoMass > call.minMass ∧
          env.score call.index (P.monoMass - call.mass) call.ion =
            precursors.foldl (singletScoreStep env call) init) := by
  induction precursors with
  | nil => intro init; exact ⟨le_refl _, fun P hP => absurd hP (List.not_mem_nil _), Or.inl rfl⟩
  | cons Q rest ih =>
    intro init
    rw [List.foldl_cons]
    obtain ⟨h1, h2, h3⟩ := ih (singletScoreStep env call init Q)
    have hstep : init ≤ singletScoreStep env call init Q := by
      unfold singletScoreStep
      split_ifs with ha hb
      · exact le_of_lt hb
      · exact le_refl _
      · exact le_refl _
    refine ⟨le_trans hstep h1, ?_, ?_⟩
    · intro P hP hPm
      rcases List.mem_cons.mp hP with rfl | hP
      · refine le_trans ?_ h1
        unfold singletScoreStep
        rw [if_pos hPm]
        split_ifs with hb
        · exact le_refl _
        · exact not_lt.mp hb
      · exact h2 P hP hPm
    · rcases h3 with h3 | ⟨P, hP, hPm, hPe⟩
      · rw [h3]
        unfold singletScoreStep
        split_ifs with ha hb
        · exact Or.inr ⟨Q, List.mem_cons_self _ _, ha, rfl⟩
        · exact Or.inl rfl
        · exact Or.inl rfl
      · exact Or.inr ⟨P, List.mem_cons_of_mem _ hP, hPm, hPe⟩

theorem enum_flatMap_snd {α β : Type} (l : List α) (f : α → List β) :
    l.enum.flatMap (fun jion => f jion.2) = l.flatMap f := by
  conv_rhs => rw [← List.enum_map_snd l]
  rw [List.flatMap_map]

/-- Without `dimersNC`, the single-peptide part scores every ion set against the spectra
of its lookup, provided the lookup succeeded. -/
theorem fullSearch_eq (env : Stage1Env) (p : kPeptide) (pepIndex : Int) (crossLink : Bool)
    (hd : env.dimersNC = false) :
    fullSearch env p pepIndex crossLink = (env.fullIons p).flatMap (fun ion =>
      if (env.getBoundaries2 ion.mass env.ppmPrecursor).1 then
        scoreSpectra env (peptideLen p) (env.getBoundaries2 ion.mass env.ppmPrecursor).2 ion
          ion.difMass crossLink pepIndex (-1) (-1) (-1) (-1)
      else []) := by
  unfold fullSearch
  conv_rhs => rw [← enum_flatMap_snd]
  apply List.flatMap_congr
  intro jion _
  simp [hd]

theorem fullSearch_card (env : Stage1Env) (p : kPeptide) (pepIndex : Int) (crossLink : Bool)
    (a : Nat) (sc : kScoreCard)
    (he : Stage1Event.checkScore a sc ∈ fullSearch env p pepIndex crossLink) :
    sc.k1 = -1 ∧ sc.k2 = -1 ∧ sc.link = -1 ∧ sc.pep2 = -1 := by
  unfold fullSearch at he
  obtain ⟨jion, _, he⟩ := List.mem_flatMap.mp he
  simp only [] at he
  rcases List.mem_append.mp he with he | he
  · split_ifs at he
    · obtain ⟨a1, sc1, heq, _, h1, h2, h3, _, h5, _⟩ :=
        scoreSpectra_sound _ _ _ _ _ _ _ _ _ _ _ _ he
      cases heq
      exact ⟨h1, h2, h3, h5⟩
    · exact absurd he (List.not_mem_nil _)
  · split_ifs at he
    · unfold analyzeSingletsNoLysine at he
      simp only [] at he
      split_ifs at he
      · obtain ⟨scan, _, h⟩ := List.mem_map.mp he
        cases h
      · exact absurd he (List.not_mem_nil _)
    · exact absurd he (List.not_mem_nil _)

theorem analyzeSinglets_no_card (env : Stage1Env) (pepSeq : List Char) (p : kPeptide)
    (index : Int) (low high : ℚ) (a : Nat) (sc : kScoreCard) :
    Stage1Event.checkScore a sc ∉ analyzeSinglets env pepSeq p index low high := by
  intro he
  unfold analyzeSinglets at he
  obtain ⟨k, _, he⟩ := List.mem_flatMap.mp he
  unfold singletSiteCalls at he
  obtain ⟨jion, _, he⟩ := List.mem_flatMap.mp he
  simp only [] at he
  split_ifs at he
  · obtain ⟨scan, _, h⟩ := List.mem_map.mp he
    cases h
  · exact absurd he (List.not_mem_nil _)

theorem ratchet_spec (j : Int) : ∀ (rest : List kSparseMatrix) (xx : Nat),
    (∃ e ∈ rest, j < e.bin) →
    ∃ n, ratchet j rest xx = some (xx + n) ∧ n < rest.length ∧
      (∀ i, i < n → (rest.getD i default).bin ≤ j) ∧ j < (rest.getD n default).bin := by
  intro rest
  induction rest with
  | nil => intro xx ⟨e, he, _⟩; exact absurd he (List.not_mem_nil _)
  | cons e rest ih =>
    intro xx hex
    unfold ratchet
    split_ifs with h
    · have hex1 : ∃ e1 ∈ rest, j < e1.bin := by
        obtain ⟨e1, he1, hlt⟩ := hex
        rcases List.mem_cons.mp he1 with rfl | he1
        · omega
        · exact ⟨e1, he1, hlt⟩
      obtain ⟨n, h1, h2, h3, h4⟩ := ih (xx + 1) hex1
      refine ⟨n + 1, ?_, ?_, ?_, ?_⟩
      · rw [h1]; congr 1; omega
      · simp only [List.length_cons]; omega
      · intro i hi
        cases i with
        | zero => simpa using h
        | succ i => simpa using h3 i (by omega)
      · simpa using h4
    · exact ⟨0, rfl, by simp, fun i hi => absurd hi (Nat.not_lt_zero _), by simpa using h⟩

theorem getD_drop_add {α : Type} (l : List α) (xx i : Nat) (d : α) :
    (l.drop xx).getD i d = l.getD (xx + i) d := by
  simp only [List.getD_eq_getElem?_getD, List.getElem?_drop]

theorem sorted_bin_lt (sparse : List kSparseMatrix)
    (hs : sparse.Pairwise (fun a b => a.bin < b.bin)) (i k : Nat) (hik : i < k)
    (hk : k < sparse.length) :
    (sparse.getD i default).bin < (sparse.getD k default).bin := by
  rw [List.getD_eq_getElem _ _ hk, List.getD_eq_getElem _ _ (lt_trans hik hk)]
  exact List.pairwise_iff_getElem.mp hs i k (lt_trans hik hk) hk hik

theorem sorted_bin_le (sparse : List kSparseMatrix)
    (hs : sparse.Pairwise (fun a b => a.bin < b.bin)) (i k : Nat) (hik : i ≤ k)
    (hk : k < sparse.length) :
    (sparse.getD i default).bin ≤ (sparse.getD k default).bin := by
  rcases Nat.eq_or_lt_of_le hik with rfl | h
  · exact le_refl _
  · exact le_of_lt (sorted_bin_lt sparse hs i k h hk)

/-- On a sparse array with strictly increasing bins, the entry just below the first
entry with a bin above `j` is the entry with the largest bin at most `j`. -/
theorem largestBinAtMost_eq (sparse : List kSparseMatrix)
    (hs : sparse.Pairwise (fun a b => a.bin < b.bin)) (j : Int) (xx1 : Nat)
    (h0 : 0 < xx1) (hlen : xx1 < sparse.length)
    (hle : (sparse.getD (xx1 - 1) default).bin ≤ j)
    (hgt : j < (sparse.getD xx1 default).bin) :
    largestBinAtMost sparse j = some (sparse.getD (xx1 - 1) default) := by
  unfold largestBinAtMost
  rw [List.argmax_eq_some_iff]
  have hm : sparse.getD (xx1 - 1) default ∈ sparse := by
    rw [List.getD_eq_getElem _ _ (by omega : xx1 - 1 < sparse.length)]
    exact List.getElem_mem _
  have hkey : ∀ a ∈ sparse.filter (fun e => decide (e.bin ≤ j)),
      a.bin ≤ (sparse.getD (xx1 - 1) default).bin ∧
      ((sparse.getD (xx1 - 1) default).bin ≤ a.bin → a = sparse.getD (xx1 - 1) default) := by
    intro a ha
    rw [List.mem_filter] at ha
    obtain ⟨hmem, hb⟩ := ha
    simp only [decide_eq_true_eq] at hb
    obtain ⟨i, hi, rfl⟩ := List.getElem_of_mem hmem
    rw [← List.getD_eq_getElem _ default hi] at hb ⊢
    have hi1 : i < xx1 := by
      by_contra hcon
      have := sorted_bin_le sparse hs xx1 i (by omega) hi
      omega
    refine ⟨sorted_bin_le sparse hs i (xx1 - 1) (by omega) (by omega), ?_⟩
    intro hge
    rcases Nat.eq_or_lt_of_le (by omega : i ≤ xx1 - 1) with h | h
    · rw [h]
    · have := sorted_bin_lt sparse hs i (xx1 - 1) h (by omega)
      omega
  refine ⟨List.mem_filter.mpr ⟨hm, by simpa using hle⟩, fun a ha => (hkey a ha).1, ?_⟩
  intro a ha hge
  rw [(hkey a ha).2 hge]

/-- The ratchet on one ladder row: with strictly increasing sparse bins, nondecreasing
theoretical bins, the first sparse bin at most and the last sparse bin above every
theoretical bin, and a cursor that has only passed entries at most the coming bins,
every bin adds the intensity of the direct lookup and no read leaves the array. -/
theorem ratchetSeries_spec (sparse : List kSparseMatrix)
    (hs : sparse.Pairwise (fun a b => a.bin < b.bin)) :
    ∀ (B : List Int) (xx : Nat) (d : ℚ), B.Pairwise (fun a b => a ≤ b) →
      (∀ j ∈ B, (sparse.getD 0 default).bin ≤ j) →
      (∀ j ∈ B, j < (sparse.getD (sparse.length - 1) default).bin) →
      xx < sparse.length →
      (∀ j ∈ B, ∀ i, i < xx → (sparse.getD i default).bin ≤ j) →
      ratchetSeries sparse B xx d = some (d + (B.map (directIntensity sparse)).sum) := by
  intro B
  induction B with
  | nil => intro xx d _ _ _ _ _; simp [ratchetSeries]
  | cons j rest ih =>
    intro xx d hB hfirst hlast hxx hpre
    rw [List.pairwise_cons] at hB
    have hex : ∃ e ∈ sparse.drop xx, j < e.bin := by
      refine ⟨sparse.getD (sparse.length - 1) default, ?_, hlast j (List.mem_cons_self _ _)⟩
      have h1 : sparse.length - 1 = xx + (sparse.length - 1 - xx) := by omega
      rw [h1, ← getD_drop_add]
      rw [List.getD_eq_getElem _ _ (by rw [List.length_drop]; omega)]
      exact List.getElem_mem _
    obtain ⟨n, h1, h2, h3, h4⟩ := ratchet_spec j (sparse.drop xx) xx hex
    rw [List.length_drop] at h2
    rw [getD_drop_add] at h4
    have h3a : ∀ i, i < xx + n → (sparse.getD i default).bin ≤ j := by
      intro i hi
      by_cases hlt : i < xx
      · exact hpre j (List.mem_cons_self _ _) i hlt
      · have := h3 (i - xx) (by omega)
        rw [getD_drop_add] at this
        rwa [show xx + (i - xx) = i by omega] at this
    have hne : xx + n ≠ 0 := by
      intro h0
      have hf := hfirst j (List.mem_cons_self _ _)
      rw [h0] at h4
      omega
    unfold ratchetSeries
    rw [h1]
    simp only [if_neg hne]
    rw [ih (xx + n) _ hB.2 (fun j1 hj1 => hfirst j1 (List.mem_cons_of_mem _ hj1))
      (fun j1 hj1 => hlast j1 (List.mem_cons_of_mem _ hj1)) (by omega)
      (fun j1 hj1 i hi => le_trans (h3a i hi) (hB.1 j1 hj1))]
    have hdir : directIntensity sparse j = (sparse.getD (xx + n - 1) default).fIntensity := by
      unfold directIntensity
      rw [largestBinAtMost_eq sparse hs j (xx + n) (by omega) (by omega)
        (h3a (xx + n - 1) (by omega)) h4]
    rw [List.map_cons, List.sum_cons, hdir]
    ring_nf

theorem ratchetSeries_start (sparse : List kSparseMatrix)
    (hs : sparse.Pairwise (fun a b => a.bin < b.bin)) (B : List Int) (d : ℚ)
    (hB : B.Pairwise (fun a b => a ≤ b))
    (hfirst : ∀ j ∈ B, (sparse.getD 0 default).bin ≤ j)
    (hlast : ∀ j ∈ B, j < (sparse.getD (sparse.length - 1) default).bin) :
    ratchetSeries sparse B 0 d = some (d + (B.map (directIntensity sparse)).sum) := by
  cases B with
  | nil => simp [ratchetSeries]
  | cons j rest =>
    have hlen : 0 < sparse.length := by
      rcases Nat.eq_zero_or_pos sparse.length with h | h
      · have h1 := hfirst j (List.mem_cons_self _ _)
        have h2 := hlast j (List.mem_cons_self _ _)
        rw [h] at h2
        have h3 : (0 : Nat) - 1 = 0 := rfl
        rw [h3] at h2
        omega
      · exact h
    exact ratchetSeries_spec sparse hs (j :: rest) 0 d hB hfirst hlast hlen
      (fun _ _ i hi => absurd hi (Nat.not_lt_zero _))

theorem xCorrLoop_add (params : kParams) (s : KSpectrum) (ki : KIonSet) (ionCount : Int)
    (modMass : ℚ) (g : Nat → ℚ) :
    ∀ (ks : List Nat) (d : ℚ),
      (∀ k ∈ ks, ∀ d, xCorrCharge params s ki ionCount modMass d k = some (d + g k)) →
      xCorrLoop params s ki ionCount modMass ks d = some (d + (ks.map g).sum) := by
  intro ks
  induction ks with
  | nil => intro d _; simp [xCorrLoop]
  | cons k rest ih =>
    intro d h
    unfold xCorrLoop
    rw [h k (List.mem_cons_self _ _) d]
    simp only []
    rw [ih _ (fun k1 hk1 => h k1 (List.mem_cons_of_mem _ hk1))]
    rw [List.map_cons, List.sum_cons]
    ring_nf

theorem lexLt_irrefl (a : kMatchBin) : ¬ LexLt a a := by
  unfold LexLt; omega

theorem lexLt_trans {a b c : kMatchBin} (h1 : LexLt a b) (h2 : LexLt b c) : LexLt a c := by
  unfold LexLt at *; omega

theorem not_mem_of_lexLt {a : kMatchBin} {l : List kMatchBin}
    (h : ∀ x ∈ l, LexLt a x) : a ∉ l :=
  fun ha => lexLt_irrefl a (h a ha)

theorem commonIntensity_skip_left (s : KSpectrum) (b1 : kMatchBin) (r1 l2 : List kMatchBin)
    (h : b1 ∉ l2) : commonIntensity s (b1 :: r1) l2 = commonIntensity s r1 l2 := by
  unfold commonIntensity
  rw [List.filter_cons_of_neg (by simpa using h)]

theorem commonIntensity_skip_right (s : KSpectrum) (l1 : List kMatchBin) (b2 : kMatchBin)
    (r2 : List kMatchBin) (h : b2 ∉ l1) :
    commonIntensity s l1 (b2 :: r2) = commonIntensity s l1 r2 := by
  unfold commonIntensity
  congr 2
  apply List.filter_congr
  intro x hx
  have : x ≠ b2 := fun e => h (e ▸ hx)
  simp [this]

theorem commonIntensity_match (s : KSpectrum) (b : kMatchBin) (r1 r2 : List kMatchBin)
    (h1 : b ∉ r1) :
    commonIntensity s (b :: r1) (b :: r2) = binIntensity s b + commonIntensity s r1 r2 := by
  have h := commonIntensity_skip_right s r1 b r2 h1
  unfold commonIntensity at *
  rw [List.filter_cons_of_pos (by simp), List.map_cons, List.sum_cons, h]

theorem sharedWalk_spec (s : KSpectrum) : ∀ (fuel : Nat) (l1 l2 : List kMatchBin) (d : ℚ),
    l1.Pairwise LexLt → l2.Pairwise LexLt → (∀ b ∈ l2, b.key < s.kojakBins) →
    l1.length + l2.length ≤ fuel →
    sharedWalk s fuel l1 l2 d = d + commonIntensity s l1 l2 := by
  intro fuel
  induction fuel with
  | zero =>
    intro l1 l2 d _ _ _ hlen
    have h1 : l1 = [] := List.eq_nil_of_length_eq_zero (by omega)
    subst h1
    simp [sharedWalk, commonIntensity]
  | succ fuel ih =>
    intro l1 l2 d hp1 hp2 hkey hlen
    cases l1 with
    | nil => simp [sharedWalk, commonIntensity]
    | cons b1 r1 =>
      cases l2 with
      | nil => simp [sharedWalk, commonIntensity]
      | cons b2 r2 =>
        rw [List.pairwise_cons] at hp1 hp2
        simp only [List.length_cons] at hlen
        have hkey2 : ∀ b ∈ r2, b.key < s.kojakBins := fun b hb => hkey b (List.mem_cons_of_mem _ hb)
        unfold sharedWalk
        split_ifs with hk hpos hbins hpl hkl
        · exact absurd (hkey b2 (List.mem_cons_self _ _)) (not_lt.mpr hbins)
        · have heq : b1 = b2 := by
            cases b1; cases b2; simp_all
          subst heq
          rw [ih r1 r2 _ hp1.2 hp2.2 hkey2 (by omega),
            commonIntensity_match s b1 r1 r2 (not_mem_of_lexLt hp1.1)]
          unfold binIntensity
          cases s.kojakSparseArray b1.key with
          | none => simp
          | some row => simp only []; ring
        · have hlt : LexLt b1 b2 := Or.inr ⟨hk, hpl⟩
          rw [ih r1 (b2 :: r2) d hp1.2 (List.pairwise_cons.mpr hp2) hkey
            (by simp only [List.length_cons]; omega)]
          rw [commonIntensity_skip_left]
          intro hmem
          rcases List.mem_cons.mp hmem with e | hmem
          · exact lexLt_irrefl b2 (e ▸ hlt)
          · exact lexLt_irrefl b1 (lexLt_trans hlt (hp2.1 b1 hmem))
        · have hlt : LexLt b2 b1 := Or.inr ⟨hk.symm, by omega⟩
          rw [ih (b1 :: r1) r2 d (List.pairwise_cons.mpr hp1) hp2.2 hkey2
            (by simp only [List.length_cons]; omega)]
          rw [commonIntensity_skip_right]
          intro hmem
          rcases List.mem_cons.mp hmem with e | hmem
          · exact lexLt_irrefl b1 (e ▸ hlt)
          · exact lexLt_irrefl b2 (lexLt_trans hlt (hp1.1 b2 hmem))
        · have hlt : LexLt b1 b2 := Or.inl hkl
          rw [ih r1 (b2 :: r2) d hp1.2 (List.pairwise_cons.mpr hp2) hkey
            (by simp only [List.length_cons]; omega)]
          rw [commonIntensity_skip_left]
          intro hmem
          rcases List.mem_cons.mp hmem with e | hmem
          · exact lexLt_irrefl b2 (e ▸ hlt)
          · exact lexLt_irrefl b1 (lexLt_trans hlt (hp2.1 b1 hmem))
        · have hlt : LexLt b2 b1 := Or.inl (by omega)
          rw [ih (b1 :: r1) r2 d (List.pairwise_cons.mpr hp1) hp2.2 hkey2
            (by simp only [List.length_cons]; omega)]
          rw [commonIntensity_skip_right]
          intro hmem
          rcases List.mem_cons.mp hmem with e | hmem
          · exact lexLt_irrefl b1 (e ▸ hlt)
          · exact lexLt_irrefl b2 (lexLt_trans hlt (hp1.1 b2 hmem))

theorem sharedSeries_spec (s : KSpectrum) (m1 m2 : kMatchSet) (enabled : Bool)
    (row1 row2 : Nat → kMatchBin) (d : ℚ)
    (h : enabled = true → (seriesRow m1.sz row1).Pairwise LexLt ∧
      (seriesRow m2.sz row2).Pairwise LexLt ∧ ∀ b ∈ seriesRow m2.sz row2, b.key < s.kojakBins) :
    sharedSeries s m1 m2 enabled row1 row2 d =
      d + (if enabled then commonIntensity s (seriesRow m1.sz row1) (seriesRow m2.sz row2)
        else 0) := by
  unfold sharedSeries
  split_ifs with he
  · obtain ⟨h1, h2, h3⟩ := h he
    exact sharedWalk_spec s _ _ _ d h1 h2 h3 (by simp [seriesRow])
  · rw [add_zero]

theorem sharedLoop_add (f : ℚ → Nat → ℚ) (g : Nat → ℚ) :
    ∀ (ks : List Nat) (d : ℚ), (∀ k ∈ ks, ∀ d, f d k = d + g k) →
      ks.foldl f d = d + (ks.map g).sum := by
  intro ks
  induction ks with
  | nil => intro d _; simp
  | cons k rest ih =>
    intro d h
    rw [List.foldl_cons, h k (List.mem_cons_self _ _) d,
      ih _ (fun k1 hk1 => h k1 (List.mem_cons_of_mem _ hk1)), List.map_cons, List.sum_cons]
    ring

/-! ## Theorems: the claim step, `findMass`, the sort and the dimer pass -/

theorem claimFrom_spec (flags : List Bool) : ∀ (left i : Nat),
    ((claimFrom flags left i).1 = i + left ∧ (claimFrom flags left i).2 = flags ∧
      ∀ k, i ≤ k → k < i + left → flags.getD k true = true) ∨
    (i ≤ (claimFrom flags left i).1 ∧ (claimFrom flags left i).1 < i + left ∧
      flags.getD (claimFrom flags left i).1 true = false ∧
      (∀ k, i ≤ k → k < (claimFrom flags left i).1 → flags.getD k true = true) ∧
      (claimFrom flags left i).2 = flags.set (claimFrom flags left i).1 true) := by
  intro left
  induction left with
  | zero =>
    intro i
    left
    exact ⟨rfl, rfl, fun k h1 h2 => by omega⟩
  | succ left ih =>
    intro i
    unfold claimFrom
    split_ifs with h
    · right
      exact ⟨le_refl _, by omega, h, fun k h1 h2 => by omega, rfl⟩
    · have ht : flags.getD i true = true := by simpa using h
      rcases ih (i + 1) with ⟨h1, h2, h3⟩ | ⟨h1, h2, h3, h4, h5⟩
      · left
        refine ⟨by omega, h2, fun k hk1 hk2 => ?_⟩
        rcases Nat.eq_or_lt_of_le hk1 with e | e
        · rw [← e]; exact ht
        · exact h3 k e (by omega)
      · right
        refine ⟨by omega, by omega, h3, fun k hk1 hk2 => ?_, h5⟩
        rcases Nat.eq_or_lt_of_le hk1 with e | e
        · rw [← e]; exact ht
        · exact h4 k e hk2

theorem kojakScoring_nonneg (params : kParams) (s : KSpectrum) (ki : KIonSet)
    (invBinSize : ℚ) (ionCount : Int) (modMass : ℚ) :
    0 ≤ kojakScoring params s ki invBinSize ionCount modMass := by
  unfold kojakScoring
  split_ifs with h
  · exact le_refl _
  · exact le_of_lt (mul_pos (lt_of_not_le h) (by norm_num))

theorem addFrom_spec (ionCount : Int) (arr : List ℚ) (start : Int) (mass : ℚ)
    (hstart : 0 ≤ start) :
    ∃ out, addFrom ionCount arr start mass = some out ∧ out.length = arr.length ∧
      ∀ j, j < arr.length →
        out.getD j 0 = arr.getD j 0 + (if start ≤ (j : Int) then mass else 0) := by
  unfold addFrom
  rw [if_neg (by omega)]
  refine ⟨_, rfl, by simp, fun j hj => ?_⟩
  rw [List.getD_eq_getElem _ _ (by simpa using hj)]
  simp only [List.getElem_map, List.getElem_range]
  split_ifs
  · rfl
  · rw [add_zero]

theorem modFold_spec (ionCount : Int) : ∀ (mods : List kPepMod) (md mr : List ℚ),
    (∀ m ∈ mods, 0 ≤ m.pos ∧ m.pos ≤ ionCount) →
    md.length = ionCount.toNat → mr.length = ionCount.toNat →
    ∃ md1 mr1, mods.foldl (modStep ionCount) (some (md, mr)) = some (md1, mr1) ∧
      md1.length = ionCount.toNat ∧ mr1.length = ionCount.toNat ∧
      ∀ j, j < ionCount.toNat →
        md1.getD j 0 = md.getD j 0 +
          ((mods.filter (fun m => decide (m.pos ≤ (j : Int)))).map (fun m => m.mass)).sum ∧
        mr1.getD j 0 = mr.getD j 0 +
          ((mods.filter (fun m => decide (ionCount - (j : Int) ≤ m.pos))).map
            (fun m => m.mass)).sum := by
  intro mods
  induction mods with
  | nil => intro md mr _ h1 h2; exact ⟨md, mr, rfl, h1, h2, fun j _ => by simp⟩
  | cons m rest ih =>
    intro md mr hpos h1 h2
    obtain ⟨hp0, hp1⟩ := hpos m (List.mem_cons_self _ _)
    obtain ⟨a, ha, hal, hav⟩ := addFrom_spec ionCount md m.pos m.mass hp0
    obtain ⟨b, hb, hbl, hbv⟩ := addFrom_spec ionCount mr (ionCount - m.pos) m.mass (by omega)
    have hstep : modStep ionCount (some (md, mr)) m = some (a, b) := by
      simp only [modStep, ha, hb]
    rw [List.foldl_cons, hstep]
    obtain ⟨md1, mr1, hfold, hl1, hl2, hval⟩ :=
      ih a b (fun x hx => hpos x (List.mem_cons_of_mem _ hx)) (by omega) (by omega)
    refine ⟨md1, mr1, hfold, hl1, hl2, fun j hj => ?_⟩
    obtain ⟨hv1, hv2⟩ := hval j hj
    rw [hv1, hv2, hav j (by omega), hbv j (by omega)]
    constructor
    · by_cases hc : m.pos ≤ (j : Int)
      · rw [List.filter_cons_of_pos (by simpa using hc), if_pos hc, List.map_cons, List.sum_cons]
        ring
      · rw [List.filter_cons_of_neg (by simpa using hc), if_neg hc]
        ring
    · by_cases hc : ionCount - (j : Int) ≤ m.pos
      · rw [List.filter_cons_of_pos (by simpa using hc), if_pos (by omega), List.map_cons,
          List.sum_cons]
        ring
      · rw [List.filter_cons_of_neg (by simpa using hc), if_neg (by omega)]
        ring

theorem findMassLoop_exact (s : List kSingletScoreCardPlus) (sz : Nat) (mass : ℚ)
    (hsorted : ∀ a b : Nat, a ≤ b → b < sz → massAt s (a : Int) ≤ massAt s (b : Int)) :
    ∀ (fuel : Nat) (lower mid upper : Int) (idx : Nat), lower ≤ idx → (idx : Int) ≤ upper →
      idx < sz → massAt s (idx : Int) = mass → 0 ≤ lower → upper ≤ sz →
      mid = Int.tdiv (lower + upper) 2 → upper - lower < fuel →
      massAt s (findMassLoop s sz mass fuel lower mid upper) = mass := by
  intro fuel
  induction fuel with
  | zero => intro lower mid upper idx h1 h2 _ _ _ _ _ h8; omega
  | succ fuel ih =>
    intro lower mid upper idx h1 h2 h3 h4 h5 h6 h7 h8
    have hmid : mid = (lower + upper) / 2 := by
      rw [h7, Int.tdiv_eq_ediv (by omega) (by norm_num)]
    have hm0 : 0 ≤ mid := by omega
    have hmsz : mid < sz := by omega
    obtain ⟨m, rfl⟩ := Int.eq_ofNat_of_zero_le hm0
    unfold findMassLoop
    simp only []
    split_ifs with c1 c2 c3 c4 c5
    · exact c1
    · exfalso
      have : (m : Int) = idx := by omega
      have hmi : m = idx := by exact_mod_cast this
      rw [hmi] at c1
      exact c1 h4
    · exfalso
      have hlt : idx < m := by
        by_contra hcon
        have := hsorted m idx (by omega) h3
        rw [h4] at this
        exact absurd c3 (not_lt.mpr this)
      rw [Int.tdiv_eq_ediv (by omega) (by norm_num)] at c4
      omega
    · have hlt : idx < m := by
        by_contra hcon
        have := hsorted m idx (by omega) h3
        rw [h4] at this
        exact absurd c3 (not_lt.mpr this)
      exact ih _ _ _ idx h1 (by omega) h3 h4 h5 (by omega) rfl (by omega)
    · exfalso
      have hlt : m < idx := by
        by_contra hcon
        have := hsorted idx m (by omega) (by omega)
        rw [h4] at this
        exact c3 (lt_of_le_of_ne this (fun e => c1 e.symm))
      rw [Int.tdiv_eq_ediv (by omega) (by norm_num)] at c5
      omega
    · have hlt : m < idx := by
        by_contra hcon
        have := hsorted idx m (by omega) (by omega)
        rw [h4] at this
        exact c3 (lt_of_le_of_ne this (fun e => c1 e.symm))
      exact ih _ _ _ idx (by omega) h2 h3 h4 (by omega) h6 rfl (by omega)

theorem markedUpTo_length (s0 : List kSingletScoreCardPlus) (j : Nat) :
    (markedUpTo s0 j).length = s0.length := by
  simp [markedUpTo]

theorem markedUpTo_getElem? (s0 : List kSingletScoreCardPlus) (j x : Nat) :
    (markedUpTo s0 j)[x]? = s0[x]?.map (fun c =>
      if x < j ∧ 0 < c.simpleScore ∧ c.linkable = true ∧ 0 ≤ c.k1 then
        { c with simpleScore := -c.simpleScore }
      else c) := by
  unfold markedUpTo
  rw [List.getElem?_map, List.getElem?_enum]
  cases s0[x]? <;> rfl

theorem markedUpTo_getD (s0 : List kSingletScoreCardPlus) (j x : Nat) (hx : x < s0.length) :
    (markedUpTo s0 j).getD x default =
      if x < j ∧ IsTemplate (s0.getD x default) then
        { s0.getD x default with simpleScore := -(s0.getD x default).simpleScore }
      else s0.getD x default := by
  rw [List.getD_eq_getElem?_getD, markedUpTo_getElem?, List.getD_eq_getElem?_getD,
    List.getElem?_eq_getElem hx]
  rfl

theorem markedUpTo_zero (s0 : List kSingletScoreCardPlus) : markedUpTo s0 0 = s0 := by
  apply List.ext_getElem?
  intro x
  rw [markedUpTo_getElem?]
  cases s0[x]? with
  | none => rfl
  | some c => simp

theorem markedUpTo_succ_of_not (s0 : List kSingletScoreCardPlus) (j : Nat)
    (h : ¬ IsTemplate (s0.getD j default)) : markedUpTo s0 (j + 1) = markedUpTo s0 j := by
  apply List.ext_getElem?
  intro x
  rw [markedUpTo_getElem?, markedUpTo_getElem?]
  cases hx : s0[x]? with
  | none => rfl
  | some c =>
    simp only [Option.map_some', Option.some.injEq]
    by_cases hxj : x = j
    · subst hxj
      have hc : s0.getD x default = c := by
        rw [List.getD_eq_getElem?_getD, hx]; rfl
      rw [hc] at h
      unfold IsTemplate at h
      rw [if_neg (fun hh => h hh.2), if_neg (fun hh => h hh.2)]
    · have : x < j + 1 ↔ x < j := by omega
      simp only [this]

theorem markedUpTo_succ_of_template (s0 : List kSingletScoreCardPlus) (j : Nat)
    (hj : j < s0.length) (h : IsTemplate (s0.getD j default)) :
    markSearched (markedUpTo s0 j) j = markedUpTo s0 (j + 1) := by
  have hself : (markedUpTo s0 j).getD j default = s0.getD j default := by
    rw [markedUpTo_getD s0 j j hj, if_neg (fun hh => absurd hh.1 (lt_irrefl _))]
  unfold markSearched
  rw [hself]
  apply List.ext_getElem?
  intro x
  rw [List.getElem?_set, markedUpTo_getElem?, markedUpTo_getElem?]
  by_cases hxj : j = x
  · subst hxj
    rw [if_pos rfl, if_pos (by rw [markedUpTo_length]; exact hj)]
    rw [List.getElem?_eq_getElem hj, List.getD_eq_getElem _ _ hj]
    simp only [Option.map_some', Option.some.injEq]
    rw [List.getD_eq_getElem _ _ hj] at h
    unfold IsTemplate at h
    rw [if_pos ⟨by omega, h⟩]
  · rw [if_neg hxj]
    cases s0[x]? with
    | none => rfl
    | some c =>
      simp only [Option.map_some', Option.some.injEq]
      have : x < j + 1 ↔ x < j := by omega
      simp only [this]

theorem scoreRel_markedUpTo (s0 : List kSingletScoreCardPlus) (j : Nat) :
    ScoreRel s0 (markedUpTo s0 j) := by
  refine ⟨markedUpTo_length s0 j, fun x => ?_⟩
  by_cases hx : x < s0.length
  · rw [markedUpTo_getD s0 j x hx]
    split_ifs with h
    · exact Or.inr ⟨rfl, h.2.1⟩
    · exact Or.inl rfl
  · left
    rw [List.getD_eq_default _ _ (by rw [markedUpTo_length]; omega),
      List.getD_eq_default _ _ (by omega)]

theorem unconsumed_pairInv (env : RelaxedEnv) (s0 : List kSingletScoreCardPlus) (j : Nat)
    (hj : j < s0.length) (ht : IsTemplate (s0.getD j default)) :
    PairInv env j (fun st => st.s = markedUpTo s0 j ∧ ∀ c ∈ st.out, Unconsumed env s0 c) := by
  refine ⟨⟨fun st h => h, ?_⟩, fun st x h => h, fun st h => h⟩
  intro st n cmv xl P hQ hn hP hc hx ho hg
  obtain ⟨hs1, hout⟩ := hQ
  refine ⟨hs1, ?_⟩
  intro c hc'
  simp only [recordPair, List.mem_append, List.mem_singleton] at hc'
  rcases hc' with hc' | hc'
  · exact hout c hc'
  · have hrel := scoreRel_markedUpTo s0 j
    have hnl : n < s0.length := by
      rw [hs1, markedUpTo_length] at hn; exact hn
    have ejj : st.s.getD j default = s0.getD j default := by
      rw [hs1, markedUpTo_getD s0 j j hj, if_neg (fun hh => absurd hh.1 (lt_irrefl _))]
    have h1 := hg.score
    have h2 := hg.site
    have h3 := hg.ppmLo
    have h4 := hg.ppmHi
    have h5 := hg.motif
    have en : st.s.getD n default = s0.getD n default := by
      rw [hs1] at h1 ⊢
      exact hrel.eq_of_nonneg n h1
    rw [ejj] at ho h3 h4
    rw [en] at h1 h2 h3 h4 h5
    refine ⟨j, n, cmv, xl, P,
      ⟨hj, hnl, ht.1, ht.2.1, ht.2.2, hg.notSelf, h1, h2, hP, h3, h4, h5, hc, hx, ho⟩, ?_, ?_⟩
    · rw [hc', ejj, en]
    · intro hlt htn
      have h6 := hg.score
      rw [hs1, markedUpTo_getD s0 j n hnl, if_pos ⟨hlt, htn⟩] at h6
      simp only at h6
      have := htn.1
      linarith

theorem templateStep_marked (env : RelaxedEnv) (s0 : List kSingletScoreCardPlus)
    (st : RelaxedState) (j : Nat) (hj : j < s0.length)
    (h : (st.status = RunStatus.running → st.s = markedUpTo s0 j) ∧
      ∀ c ∈ st.out, Unconsumed env s0 c) :
    ((templateStep env st j).status = RunStatus.running →
      (templateStep env st j).s = markedUpTo s0 (j + 1)) ∧
    ∀ c ∈ (templateStep env st j).out, Unconsumed env s0 c := by
  unfold templateStep
  simp only []
  by_cases h1 : st.status ≠ RunStatus.running
  · rw [if_pos h1]
    exact ⟨fun hr => absurd hr h1, h.2⟩
  · rw [if_neg h1]
    have hs := h.1 (not_not.mp h1)
    have ejj : st.s.getD j default = s0.getD j default := by
      rw [hs, markedUpTo_getD s0 j j hj, if_neg (fun hh => absurd hh.1 (lt_irrefl _))]
    rw [ejj]
    split_ifs with h2 h3 h4 h5
    · refine ⟨fun _ => ?_, h.2⟩
      rw [hs, markedUpTo_succ_of_not]
      exact fun ht => absurd ht.1 (not_lt.mpr h2)
    · refine ⟨fun _ => ?_, h.2⟩
      rw [hs, markedUpTo_succ_of_not]
      intro ht
      rw [ht.2.1] at h3
      simp at h3
    · refine ⟨fun _ => ?_, h.2⟩
      rw [hs, markedUpTo_succ_of_not]
      exact fun ht => absurd ht.2.2 (not_le.mpr h4)
    · have ht : IsTemplate (s0.getD j default) :=
        ⟨not_le.mp h2, by simpa using h3, not_lt.mp h4⟩
      have := motifLoop_inv (unconsumed_pairInv env s0 j hj ht) (motifFuel st.s.length)
        { st with matched := [], i := 0 } ⟨hs, h.2⟩
      exact ⟨fun hr => absurd hr h5, this.2⟩
    · have ht : IsTemplate (s0.getD j default) :=
        ⟨not_le.mp h2, by simpa using h3, not_lt.mp h4⟩
      have := motifLoop_inv (unconsumed_pairInv env s0 j hj ht) (motifFuel st.s.length)
        { st with matched := [], i := 0 } ⟨hs, h.2⟩
      refine ⟨fun _ => ?_, this.2⟩
      simp only []
      rw [this.1]
      exact markedUpTo_succ_of_template s0 j hj ht

theorem foldl_templateStep_marked (env : RelaxedEnv) (s0 : List kSingletScoreCardPlus) :
    ∀ (k j : Nat) (st : RelaxedState), j + k ≤ s0.length →
      ((st.status = RunStatus.running → st.s = markedUpTo s0 j) ∧
        ∀ c ∈ st.out, Unconsumed env s0 c) →
      (((List.range' j k).foldl (templateStep env) st).status = RunStatus.running →
        ((List.range' j k).foldl (templateStep env) st).s = markedUpTo s0 (j + k)) ∧
      ∀ c ∈ ((List.range' j k).foldl (templateStep env) st).out, Unconsumed env s0 c := by
  intro k
  induction k with
  | zero => intro j st _ h; exact h
  | succ k ih =>
    intro j st hjk h
    rw [List.range'_succ, List.foldl_cons]
    have := ih (j + 1) (templateStep env st j) (by omega)
      (templateStep_marked env s0 st j (by omega) h)
    rw [show j + 1 + k = j + (k + 1) by omega] at this
    exact this

/-- The cross-link pass that ends normally leaves the scratch list with exactly the
scores of the template cards negated, and no submitted card has a partner that was
processed as template before its own template. -/
theorem crossLinkPass_marked (env : RelaxedEnv) (s0 : List kSingletScoreCardPlus) :
    ((crossLinkPass env s0).status = RunStatus.running →
      (crossLinkPass env s0).s = markedUpTo s0 s0.length) ∧
    ∀ c ∈ (crossLinkPass env s0).out, Unconsumed env s0 c := by
  unfold crossLinkPass
  rw [List.range_eq_range']
  have := foldl_templateStep_marked env s0 s0.length 0
    { s := s0, i := 0, matched := [], out := [], status := RunStatus.running } (by omega)
    ⟨fun _ => (markedUpTo_zero s0).symm, fun c hc => absurd hc (List.not_mem_nil _)⟩
  rw [Nat.zero_add] at this
  exact this

theorem crossLinkPass_scoreRel (env : RelaxedEnv) (s0 : List kSingletScoreCardPlus) :
    ScoreRel s0 (crossLinkPass env s0).s := by
  unfold crossLinkPass
  exact (foldl_templateStep_recorded env s0 (List.range s0.length) _
    (fun j hj => List.mem_range.mp hj)
    ⟨ScoreRel.refl s0, fun c hc => absurd hc (List.not_mem_nil _)⟩).1

theorem restoreScores_of_scoreRel {s0 s : List kSingletScoreCardPlus} (h : ScoreRel s0 s)
    (hnonneg : ∀ c ∈ s0, 0 ≤ c.simpleScore) : restoreScores s = s0 := by
  apply List.ext_getElem
  · simp [restoreScores, h.1]
  · intro x h1 h2
    have hx : x < s.length := by simpa [restoreScores] using h1
    have h0 : 0 ≤ s0[x].simpleScore := hnonneg _ (List.getElem_mem h2)
    unfold restoreScores
    rw [List.getElem_map]
    have hr := h.2 x
    rw [List.getD_eq_getElem _ _ hx, List.getD_eq_getElem _ _ h2] at hr
    rcases hr with hr | ⟨hr, hpos⟩
    · rw [hr, if_neg (not_lt.mpr h0)]
    · rw [hr]
      simp only [Left.neg_neg_iff, neg_neg]
      rw [if_pos hpos]

theorem dimerWalkUp_facts (env : RelaxedEnv) (s : List kSingletScoreCardPlus) (j : Nat)
    (P : kPrecursor) : ∀ (ns : List Nat) (c : kScoreCard), c ∈ dimerWalkUp env s j P ns →
      ∃ n ∈ ns, 0 < (s.getD n default).simpleScore ∧ (s.getD n default).k1 < 0 ∧
        |ppmError ((s.getD j default).mass + (s.getD n default).mass) P.monoMass|
          ≤ env.ppmPrecursor ∧
        c = dimerCard env (s.getD j default) (s.getD n default) := by
  intro ns
  induction ns with
  | nil => intro c hc; exact absurd hc (List.not_mem_nil _)
  | cons n rest ih =>
    intro c hc
    unfold dimerWalkUp at hc
    split_ifs at hc with h1 h2 h3
    · obtain ⟨n1, hn1, h⟩ := ih c hc
      exact ⟨n1, List.mem_cons_of_mem _ hn1, h⟩
    · rcases List.mem_cons.mp hc with rfl | hc
      · have hs : 0 < (s.getD n default).simpleScore := by
          by_contra hh; exact h1 (Or.inl (not_lt.mp hh))
        have hk : (s.getD n default).k1 < 0 := by
          by_contra hh; exact h1 (Or.inr (by omega))
        exact ⟨n, List.mem_cons_self _ _, hs, hk, h2, rfl⟩
      · obtain ⟨n1, hn1, h⟩ := ih c hc
        exact ⟨n1, List.mem_cons_of_mem _ hn1, h⟩
    · exact absurd hc (List.not_mem_nil _)
    · obtain ⟨n1, hn1, h⟩ := ih c hc
      exact ⟨n1, List.mem_cons_of_mem _ hn1, h⟩

theorem dimerWalkDown_facts (env : RelaxedEnv) (s : List kSingletScoreCardPlus) (j : Nat)
    (P : kPrecursor) : ∀ (ns : List Nat) (c : kScoreCard), c ∈ dimerWalkDown env s j P ns →
      ∃ n ∈ ns, 0 < (s.getD n default).simpleScore ∧ (s.getD n default).k1 < 0 ∧
        |ppmError ((s.getD j default).mass + (s.getD n default).mass) P.monoMass|
          ≤ env.ppmPrecursor ∧
        c = dimerCard env (s.getD j default) (s.getD n default) := by
  intro ns
  induction ns with
  | nil => intro c hc; exact absurd hc (List.not_mem_nil _)
  | cons n rest ih =>
    intro c hc
    unfold dimerWalkDown at hc
    split_ifs at hc with h1 h2 h3
    · obtain ⟨n1, hn1, h⟩ := ih c hc
      exact ⟨n1, List.mem_cons_of_mem _ hn1, h⟩
    · rcases List.mem_cons.mp hc with rfl | hc
      · have hs : 0 < (s.getD n default).simpleScore := by
          by_contra hh; exact h1 (Or.inl (not_lt.mp hh))
        have hk : (s.getD n default).k1 < 0 := by
          by_contra hh; exact h1 (Or.inr (by omega))
        exact ⟨n, List.mem_cons_self _ _, hs, hk, h2, rfl⟩
      · obtain ⟨n1, hn1, h⟩ := ih c hc
        exact ⟨n1, List.mem_cons_of_mem _ hn1, h⟩
    · exact absurd hc (List.not_mem_nil _)
    · obtain ⟨n1, hn1, h⟩ := ih c hc
      exact ⟨n1, List.mem_cons_of_mem _ hn1, h⟩

theorem dimerStep_facts (env : RelaxedEnv) (s1 : List kSingletScoreCardPlus)
    (st : List kSingletScoreCardPlus × List kScoreCard) (j : Nat) (hj : j < s1.length)
    (h : ScoreRel s1 st.1 ∧ ∀ c ∈ st.2, DimerFacts env s1 c) :
    ScoreRel s1 (dimerStep env st j).1 ∧ ∀ c ∈ (dimerStep env st j).2, DimerFacts env s1 c := by
  unfold dimerStep
  split_ifs with h1 h2
  · exact h
  · exact h
  · have hs : 0 < (st.1.getD j default).simpleScore := not_le.mp h1
    have ej := h.1.eq_of_nonneg j hs.le
    refine ⟨h.1.markSearched j hs, ?_⟩
    intro c hc
    rcases List.mem_append.mp hc with hc | hc
    · exact h.2 c hc
    · unfold dimerCards at hc
      obtain ⟨P, hP, hc⟩ := List.mem_flatMap.mp hc
      have key : ∀ n, n < st.1.length → 0 < (st.1.getD n default).simpleScore →
          (st.1.getD n default).k1 < 0 →
          |ppmError ((st.1.getD j default).mass + (st.1.getD n default).mass) P.monoMass|
            ≤ env.ppmPrecursor →
          c = dimerCard env (st.1.getD j default) (st.1.getD n default) →
          DimerFacts env s1 c := by
        intro n hn hsn hkn hppm hcard
        have en := h.1.eq_of_nonneg n hsn.le
        rw [ej] at hs h2 hppm hcard
        rw [en] at hsn hkn hppm hcard
        exact ⟨j, n, P, hj, h.1.1 ▸ hn, hP, hs, by omega, hsn, hkn, hppm, hcard⟩
      rcases List.mem_append.mp hc with hc | hc
      · obtain ⟨n, hn, h3, h4, h5, h6⟩ := dimerWalkUp_facts env st.1 j P _ c hc
        exact key n (mem_upIndices hn) h3 h4 h5 h6
      · obtain ⟨n, hn, h3, h4, h5, h6⟩ := dimerWalkDown_facts env st.1 j P _ c hc
        have := mem_downIndices hn
        have := findMass_toNat_le st.1 st.1.length (P.monoMass - (st.1.getD j default).mass)
        exact key n (by omega) h3 h4 h5 h6

theorem foldl_dimerStep_facts (env : RelaxedEnv) (s1 : List kSingletScoreCardPlus) :
    ∀ (js : List Nat) (st : List kSingletScoreCardPlus × List kScoreCard),
      (∀ j ∈ js, j < s1.length) →
      (ScoreRel s1 st.1 ∧ ∀ c ∈ st.2, DimerFacts env s1 c) →
      ScoreRel s1 (js.foldl (dimerStep env) st).1 ∧
        ∀ c ∈ (js.foldl (dimerStep env) st).2, DimerFacts env s1 c := by
  intro js
  induction js with
  | nil => intro st _ h; exact h
  | cons j rest ih =>
    intro st hjs h
    rw [List.foldl_cons]
    exact ih _ (fun j1 h1 => hjs j1 (List.mem_cons_of_mem _ h1))
      (dimerStep_facts env s1 st j (hjs j (List.mem_cons_self _ _)) h)

/-- Every card submitted by the dimer pass pairs two cards of its scratch list with
positive score and no link site. -/
theorem dimerPass_facts (env : RelaxedEnv) (s1 : List kSingletScoreCardPlus) :
    ∀ c ∈ (dimerPass env s1).2, DimerFacts env s1 c := by
  unfold dimerPass
  exact (foldl_dimerStep_facts env s1 (List.range s1.length) (s1, [])
    (fun j hj => List.mem_range.mp hj)
    ⟨ScoreRel.refl s1, fun c hc => absurd hc (List.not_mem_nil _)⟩).2

theorem compareSSCPlus_le (a b : kSingletScoreCardPlus) :
    compareSSCPlus a b ≤ 0 ↔ a.mass ≤ b.mass := by
  unfold compareSSCPlus
  split_ifs with h1 h2
  · exact ⟨fun _ => le_of_lt h1, fun _ => by decide⟩
  · exact ⟨fun h => absurd h (by decide), fun h => absurd h (not_le.mpr h2)⟩
  · exact ⟨fun _ => not_lt.mp h2, fun _ => le_refl _⟩

theorem insertionSort_mass_contract (l : List kSingletScoreCardPlus) :
    (List.insertionSort (fun a b : kSingletScoreCardPlus => a.mass ≤ b.mass) l).Perm l ∧
    (List.insertionSort (fun a b : kSingletScoreCardPlus => a.mass ≤ b.mass) l).Pairwise
      (fun a b => compareSSCPlus a b ≤ 0) := by
  haveI : IsTotal kSingletScoreCardPlus (fun a b => a.mass ≤ b.mass) :=
    ⟨fun a b => le_total a.mass b.mass⟩
  haveI : IsTrans kSingletScoreCardPlus (fun a b => a.mass ≤ b.mass) :=
    ⟨fun a b c h1 h2 => le_trans h1 h2⟩
  refine ⟨List.perm_insertionSort _ l, ?_⟩
  have h := List.sorted_insertionSort (fun a b : kSingletScoreCardPlus => a.mass ≤ b.mass) l
  exact List.Pairwise.imp (fun {a b} hab => (compareSSCPlus_le a b).mpr hab) h

theorem tieKeepingSort_contract : QsortContract tieKeepingSort :=
  fun l => insertionSort_mass_contract l

theorem tieReversingSort_contract : QsortContract tieReversingSort := by
  intro l
  obtain ⟨h1, h2⟩ := insertionSort_mass_contract l.reverse
  exact ⟨h1.trans (List.reverse_perm l), h2⟩

theorem snapshotFrom_mass (xlTable : Char → Nat → Int) (db : KDatabase) (decoy : String) :
    ∀ (cards : List kSingletScoreCard) (j : Nat) (l : List kSingletScoreCardPlus),
      snapshotFrom xlTable db decoy j cards = some l →
      ∀ c ∈ l, c.simpleScore ≤ 0 → c.mass = 0 := by
  intro cards
  induction cards with
  | nil =>
    intro j l h c hc
    simp only [snapshotFrom, Option.some.injEq] at h
    subst h
    exact absurd hc (List.not_mem_nil _)
  | cons sc1 rest ih =>
    intro j l h c hc
    unfold snapshotFrom at h
    cases hcard : snapshotCard xlTable db decoy j sc1 with
    | none => simp [hcard] at h
    | some c1 =>
      cases hr : snapshotFrom xlTable db decoy (j + 1) rest with
      | none => simp [hcard, hr] at h
      | some cs =>
        simp only [hcard, hr, Option.some.injEq] at h
        subst h
        rcases List.mem_cons.mp hc with rfl | hc
        · intro hle
          unfold snapshotCard at hcard
          simp only [] at hcard
          split at hcard
          · simp at hcard
          · simp only [Option.some.injEq] at hcard
            rw [← hcard] at hle ⊢
            simp only at hle ⊢
            rw [if_neg (not_lt.mpr hle)]
        · exact ih (j + 1) cs hr c hc

/-! ## Theorems: `findMass` on arbitrary and on sorted arrays, the symmetry of the
shared-ion walk, the walks with their loop variable, the modification lists -/

theorem findMassChecked_eq (s : List kSingletScoreCardPlus) (sz : Nat) (mass : ℚ)
    (hlen : s.length = sz) :
    ∀ (fuel : Nat) (lower mid upper : Int), 0 ≤ lower → lower ≤ upper + 1 → upper ≤ sz →
      mid = Int.tdiv (lower + upper) 2 → mid < sz → upper - lower + 1 < fuel →
      findMassChecked s sz mass fuel lower mid upper =
        SearchRun.found (findMassLoop s sz mass fuel lower mid upper) := by
  intro fuel
  induction fuel with
  | zero => intro lower mid upper h1 h2 h3 h4 h5 h6; omega
  | succ fuel ih =>
    intro lower mid upper h1 h2 h3 h4 h5 h6
    have hb := tdiv2_bounds (lower + upper) (by omega)
    have hm0 : 0 ≤ mid := by rw [h4]; exact hb.1
    unfold findMassChecked findMassLoop
    simp only []
    rw [if_neg (by rw [hlen]; omega)]
    split_ifs with c1 c2 c3 c4 c5
    · rfl
    · rfl
    · rfl
    · have hb1 := tdiv2_bounds (lower + (mid - 1)) (by omega)
      exact ih _ _ _ h1 (by omega) (by omega) rfl (by omega) (by omega)
    · rfl
    · have hb1 := tdiv2_bounds (mid + 1 + upper) (by omega)
      exact ih _ _ _ (by omega) (by omega) h3 rfl (by omega) (by omega)

theorem findMassLoop_boundary (s : List kSingletScoreCardPlus) (sz : Nat) (mass : ℚ)
    (hsorted : ∀ a b : Nat, a ≤ b → b < sz → massAt s (a : Int) ≤ massAt s (b : Int)) :
    ∀ (fuel : Nat) (lower mid upper : Int), 0 ≤ lower → lower ≤ upper + 1 → upper ≤ sz →
      mid = Int.tdiv (lower + upper) 2 → mid < sz → upper - lower < fuel →
      (∀ i : Nat, (i : Int) < lower → i < sz → massAt s (i : Int) < mass) →
      (∀ i : Nat, upper < (i : Int) → i < sz → mass < massAt s (i : Int)) →
      (∀ i : Nat, (i : Int) < findMassLoop s sz mass fuel lower mid upper →
        massAt s (i : Int) ≤ mass) ∧
      (∀ i : Nat, findMassLoop s sz mass fuel lower mid upper < (i : Int) → i < sz →
        mass ≤ massAt s (i : Int)) := by
  intro fuel
  induction fuel with
  | zero =>
    intro lower mid upper h1 h2 h3 h4 h5 h6 hlo hhi
    have hb := tdiv2_bounds (lower + upper) (by omega)
    simp only [findMassLoop]
    exact ⟨fun i hi => le_of_lt (hlo i (by omega) (by omega)),
      fun i hi hsz => le_of_lt (hhi i (by omega) hsz)⟩
  | succ fuel ih =>
    intro lower mid upper h1 h2 h3 h4 h5 h6 hlo hhi
    have hb := tdiv2_bounds (lower + upper) (by omega)
    have hm0 : 0 ≤ mid := by rw [h4]; exact hb.1
    obtain ⟨m, rfl⟩ := Int.eq_ofNat_of_zero_le hm0
    have hmsz : m < sz := by omega
    unfold findMassLoop
    simp only []
    split_ifs with c1 c2 c3 c4 c5
    · refine ⟨fun i hi => ?_, fun i hi hsz => ?_⟩
      · rw [← c1]; exact hsorted i m (by omega) hmsz
      · rw [← c1]; exact hsorted m i (by omega) hsz
    · exact ⟨fun i hi => le_of_lt (hlo i (by omega) (by omega)),
        fun i hi hsz => le_of_lt (hhi i (by omega) hsz)⟩
    · exfalso
      have hb1 := tdiv2_bounds (lower + ((m : Int) - 1)) (by omega)
      omega
    · have hb1 := tdiv2_bounds (lower + ((m : Int) - 1)) (by omega)
      refine ih _ _ _ h1 (by omega) (by omega) rfl (by omega) (by omega) hlo ?_
      intro i hi hsz
      exact lt_of_lt_of_le c3 (hsorted m i (by omega) hsz)
    · have hb1 := tdiv2_bounds ((m : Int) + 1 + upper) (by omega)
      have hlt : massAt s (m : Int) < mass :=
        lt_of_le_of_ne (not_lt.mp c3) c1
      refine ⟨fun i hi => ?_, fun i hi hsz => ?_⟩
      · exact le_of_lt (lt_of_le_of_lt (hsorted i m (by omega) hmsz) hlt)
      · omega
    · have hb1 := tdiv2_bounds ((m : Int) + 1 + upper) (by omega)
      have hlt : massAt s (m : Int) < mass :=
        lt_of_le_of_ne (not_lt.mp c3) c1
      refine ih _ _ _ (by omega) (by omega) h3 rfl (by omega) (by omega) ?_ hhi
      intro i hi hsz
      exact lt_of_le_of_lt (hsorted i m (by omega) hmsz) hlt

theorem massAt_sorted (s : List kSingletScoreCardPlus)
    (hsorted : s.Pairwise (fun a b => a.mass ≤ b.mass)) :
    ∀ a b : Nat, a ≤ b → b < s.length → massAt s (a : Int) ≤ massAt s (b : Int) := by
  intro a b hab hb
  unfold massAt
  simp only [Int.toNat_ofNat]
  rw [List.getD_eq_getElem _ _ hb, List.getD_eq_getElem _ _ (by omega : a < s.length)]
  rcases Nat.eq_or_lt_of_le hab with e | e
  · subst e; exact le_refl _
  · exact List.pairwise_iff_getElem.mp hsorted a b (by omega) hb e

theorem sharedWalk_comm (s : KSpectrum) :
    ∀ (fuel : Nat) (l1 l2 : List kMatchBin) (d : ℚ),
      sharedWalk s fuel l1 l2 d = sharedWalk s fuel l2 l1 d := by
  intro fuel
  induction fuel with
  | zero => intro l1 l2 d; simp [sharedWalk]
  | succ fuel ih =>
    intro l1 l2 d
    cases l1 with
    | nil => cases l2 <;> simp [sharedWalk]
    | cons b1 r1 =>
      cases l2 with
      | nil => simp [sharedWalk]
      | cons b2 r2 =>
        simp only [sharedWalk]
        by_cases hk : b1.key = b2.key
        · by_cases hp : b1.pos = b2.pos
          · rw [if_pos hk, if_pos hp, if_pos hk.symm, if_pos hp.symm, hk, hp]
            split_ifs
            · rfl
            · exact ih _ _ _
          · have hp2 : ¬ b2.pos = b1.pos := fun e => hp e.symm
            rw [if_pos hk, if_neg hp, if_pos hk.symm, if_neg hp2]
            by_cases hlt : b1.pos < b2.pos
            · have hlt2 : ¬ b2.pos < b1.pos := by omega
              rw [if_pos hlt, if_neg hlt2]
              exact ih _ _ _
            · have hlt2 : b2.pos < b1.pos := by omega
              rw [if_neg hlt, if_pos hlt2]
              exact ih _ _ _
        · have hk2 : ¬ b2.key = b1.key := fun e => hk e.symm
          rw [if_neg hk, if_neg hk2]
          by_cases hlt : b1.key < b2.key
          · have hlt2 : ¬ b2.key < b1.key := by omega
            rw [if_pos hlt, if_neg hlt2]
            exact ih _ _ _
          · have hlt2 : b2.key < b1.key := by omega
            rw [if_neg hlt, if_pos hlt2]
            exact ih _ _ _

theorem sharedSeries_comm (s : KSpectrum) (m1 m2 : kMatchSet) (enabled : Bool)
    (row1 row2 : Nat → kMatchBin) (d : ℚ) :
    sharedSeries s m1 m2 enabled row1 row2 d = sharedSeries s m2 m1 enabled row2 row1 d := by
  unfold sharedSeries
  split_ifs
  · rw [Nat.add_comm m1.sz m2.sz]
    exact sharedWalk_comm s _ _ _ _
  · rfl

theorem sharedCharge_comm (params : kParams) (s : KSpectrum) (m1 m2 : kMatchSet) (d : ℚ)
    (i : Nat) : sharedCharge params s m1 m2 d i = sharedCharge params s m2 m1 d i := by
  unfold sharedCharge
  rw [sharedSeries_comm s m1 m2 _ (m1.a i) (m2.a i), sharedSeries_comm s m1 m2 _ (m1.b i) (m2.b i),
    sharedSeries_comm s m1 m2 _ (m1.c i) (m2.c i), sharedSeries_comm s m1 m2 _ (m1.x i) (m2.x i),
    sharedSeries_comm s m1 m2 _ (m1.y i) (m2.y i), sharedSeries_comm s m1 m2 _ (m1.z i) (m2.z i)]

theorem sharedRaw_comm (params : kParams) (s : KSpectrum) (m1 m2 : kMatchSet) (charge : Int) :
    sharedRaw params s m1 m2 charge = sharedRaw params s m2 m1 charge := by
  unfold sharedRaw
  have h : sharedCharge params s m1 m2 = sharedCharge params s m2 m1 := by
    funext d i
    exact sharedCharge_comm params s m1 m2 d i
  rw [h]

theorem walkUpTurn_next (env : RelaxedEnv) (j : Nat) (cmv xl : Int) (P : kPrecursor)
    (n : Int) (st : RelaxedState) (n1 : Int)
    (h : (walkUpTurn env j cmv xl P n st).1 = some n1) : n1 = n + 1 := by
  unfold walkUpTurn at h
  simp only [] at h
  split_ifs at h <;> simp at h <;> omega

theorem walkDownTurn_next (env : RelaxedEnv) (j : Nat) (cmv xl : Int) (P : kPrecursor)
    (n : Int) (st : RelaxedState) (n1 : Int)
    (h : (walkDownTurn env j cmv xl P n st).1 = some n1) : n1 = n - 1 := by
  unfold walkDownTurn at h
  simp only [] at h
  split_ifs at h <;> simp at h <;> omega

theorem upIndices_cons (count m : Nat) (h : m < count) :
    upIndices count (m : Int) = m :: upIndices count ((m : Int) + 1) := by
  unfold upIndices
  have e : ((m : Int) + 1).toNat = m + 1 := by omega
  rw [e, Int.toNat_ofNat]
  have e2 : count - m = (count - (m + 1)) + 1 := by omega
  rw [e2, List.range'_succ]

theorem walkUpLoop_eq (env : RelaxedEnv) (j : Nat) (cmv xl : Int) (P : kPrecursor)
    (count : Nat) :
    ∀ (k m : Nat) (st : RelaxedState), count - m = k →
      walkUpLoop env j cmv xl P count (k + 1) (m : Int) st =
        walkUp env j cmv xl P (upIndices count (m : Int)) st := by
  intro k
  induction k with
  | zero =>
    intro m st hk
    have e : upIndices count (m : Int) = [] := by
      unfold upIndices
      simp [hk]
    rw [e]
    simp only [walkUpLoop, walkUp]
    rw [if_pos (by omega)]
  | succ k ih =>
    intro m st hk
    rw [upIndices_cons count m (by omega)]
    have hb : (((m : Int) == (j : Int)) : Bool) = (m == j) := by
      by_cases e : m = j
      · subst e; simp
      · have : ¬ (m : Int) = (j : Int) := by omega
        simp [e, this]
    have ih1 := fun st1 => ih (m + 1) st1 (by omega)
    simp only [Nat.cast_add, Nat.cast_one] at ih1
    simp only [walkUpLoop, walkUp, walkUpTurn, Int.toNat_ofNat, hb]
    rw [if_neg (by omega)]
    split_ifs <;> first | rfl | exact ih1 _

theorem downIndices_succ (m : Nat) :
    downIndices ((m : Int) + 1) = m :: downIndices (m : Int) := by
  unfold downIndices
  have e : ((m : Int) + 1).toNat = m + 1 := by omega
  rw [e, Int.toNat_ofNat, List.range_succ, List.reverse_append]
  rfl

theorem walkDownLoop_eq (env : RelaxedEnv) (j : Nat) (cmv xl : Int) (P : kPrecursor) :
    ∀ (k : Nat) (st : RelaxedState),
      walkDownLoop env j cmv xl P (k + 1) ((k : Int) - 1) st =
        walkDown env j cmv xl P (downIndices (k : Int)) st := by
  intro k
  induction k with
  | zero =>
    intro st
    have e : downIndices ((0 : Nat) : Int) = [] := by decide
    rw [e]
    simp only [walkDownLoop, walkDown]
    rw [if_pos (by simp)]
  | succ k ih =>
    intro st
    have e0 : (((k + 1 : Nat) : Int)) - 1 = (k : Int) := by push_cast; omega
    have e1 : (((k + 1 : Nat) : Int)) = (k : Int) + 1 := by push_cast; rfl
    rw [e0, e1, downIndices_succ]
    have hb : (((k : Int) == (j : Int)) : Bool) = (k == j) := by
      by_cases e : k = j
      · subst e; simp
      · have : ¬ (k : Int) = (j : Int) := by omega
        simp [e, this]
    simp only [walkDownLoop, walkDown, walkDownTurn, Int.toNat_ofNat, hb]
    rw [if_neg (by omega)]
    split_ifs <;> first | rfl | exact ih _

theorem cChar_small (i : Nat) (h : i < 128) : cChar (i : Int) = (i : Int) := by
  unfold cChar
  omega

theorem collectMods_eq (mods : List ℚ) :
    ∀ (left i : Nat) (v : List kPepMod),
      collectMods mods left i v =
        v ++ ((List.range' i left).filter (fun (k : Nat) => decide (mods.getD k 0 ≠ 0))).map
          (fun (k : Nat) => { pos := cChar (k : Int), mass := mods.getD k 0 }) := by
  intro left
  induction left with
  | zero => intro i v; simp [collectMods]
  | succ left ih =>
    intro i v
    simp only [collectMods, ih, List.range'_succ]
    by_cases h : mods.getD i 0 ≠ 0
    · rw [if_pos h, List.filter_cons_of_pos (by simpa using h)]
      simp
    · rw [if_neg h, List.filter_cons_of_neg (by simpa using h)]

theorem collectMods_recorded (mods : List ℚ) (n : Nat) (h : n ≤ 128) :
    collectMods mods n 0 [] = recordedMods mods n := by
  rw [collectMods_eq, List.nil_append, ← List.range_eq_range']
  unfold recordedMods
  apply List.map_congr_left
  intro k hk
  have hk1 := List.mem_range.mp (List.mem_filter.mp hk).1
  rw [cChar_small k (by omega)]

theorem recordedMods_pos (mods : List ℚ) (n : Nat) (m : kPepMod) (hm : m ∈ recordedMods mods n) :
    0 ≤ m.pos ∧ m.pos < n ∧ m.mass ≠ 0 ∧ mods.getD m.pos.toNat 0 = m.mass := by
  unfold recordedMods at hm
  obtain ⟨k, hk, rfl⟩ := List.mem_map.mp hm
  obtain ⟨hk1, hk2⟩ := List.mem_filter.mp hk
  have hk1 := List.mem_range.mp hk1
  refine ⟨by simp, by simpa using hk1, by simpa using hk2, by simp⟩

theorem analyzeRelaxed_mods (env : RelaxedEnv) (dimersNC : Bool)
    (qsort : List kSingletScoreCardPlus → List kSingletScoreCardPlus)
    (snapshot : List kSingletScoreCardPlus) :
    ∀ c ∈ (analyzeRelaxed env dimersNC qsort snapshot).2,
      c.mods1 = modsOfRank env c.rank1.toNat ∧ c.mods2 = modsOfRank env c.rank2.toNat := by
  have hcross : ∀ c ∈ (crossLinkPass env (qsort snapshot)).out,
      c.mods1 = modsOfRank env c.rank1.toNat ∧ c.mods2 = modsOfRank env c.rank2.toNat := by
    intro c hc
    obtain ⟨j, n, cmv, xl, P, _, rfl⟩ := crossLinkPass_recorded env _ c hc
    simp [pairCard]
  intro c hc
  unfold analyzeRelaxed at hc
  split_ifs at hc with h1 h2
  · exact hcross c hc
  · exact hcross c hc
  · rcases List.mem_append.mp hc with hc | hc
    · exact hcross c hc
    · obtain ⟨j, n, P, _, _, _, _, _, _, _, _, rfl⟩ := dimerPass_facts env _ c hc
      simp [dimerCard]

theorem scoreSingletSpectra_pos (env1 : Stage1Env) (precursors : List kPrecursor)
    (call : SingletCall) (idx : Nat) (c : kSingletScoreCard)
    (h : scoreSingletSpectra env1 precursors call = some (idx, c)) : 0 < c.simpleScore := by
  unfold scoreSingletSpectra at h
  split_ifs at h with hs
  simp only [Option.some.injEq, Prod.mk.injEq] at h
  obtain ⟨_, rfl⟩ := h
  exact hs

theorem submittedSinglets_pos (singlets : List kSingletScoreCard)
    (h : SubmittedSinglets singlets) : ∀ c ∈ singlets, 0 < c.simpleScore := by
  intro c hc
  obtain ⟨env1, precursors, call, idx, he⟩ := h c hc
  exact scoreSingletSpectra_pos env1 precursors call idx c he

theorem snapshotCard_source (xlTable : Char → Nat → Int) (db : KDatabase) (decoy : String)
    (j : Nat) (sc1 : kSingletScoreCard) (c : kSingletScoreCardPlus)
    (h : snapshotCard xlTable db decoy j sc1 = some c) :
    c.rank = j ∧ c.simpleScore = sc1.simpleScore ∧ c.len = sc1.len ∧ c.k1 = sc1.k1 ∧
    ∃ count, mapMotifs xlTable db (db.getPeptide sc1.pep1 sc1.linkable) sc1.k1
      (residueAt (db.protein ((db.getPeptide sc1.pep1 sc1.linkable).map.getD 0 default).index)
        ((((db.getPeptide sc1.pep1 sc1.linkable).map.getD 0 default).start : Int) + sc1.k1))
      = some (c.motif, count) := by
  unfold snapshotCard at h
  simp only [] at h
  split at h
  · simp at h
  · rename_i mc hmc
    simp only [Option.some.injEq] at h
    rw [← h]
    exact ⟨rfl, rfl, rfl, rfl, mc.2, hmc⟩

theorem snapshotFrom_source (xlTable : Char → Nat → Int) (db : KDatabase) (decoy : String) :
    ∀ (cards : List kSingletScoreCard) (j : Nat) (l : List kSingletScoreCardPlus),
      snapshotFrom xlTable db decoy j cards = some l →
      ∀ c ∈ l, ∃ sc, j ≤ c.rank ∧ cards[c.rank - j]? = some sc ∧
        snapshotCard xlTable db decoy c.rank sc = some c := by
  intro cards
  induction cards with
  | nil =>
    intro j l h c hc
    simp only [snapshotFrom, Option.some.injEq] at h
    subst h
    exact absurd hc (List.not_mem_nil _)
  | cons sc1 rest ih =>
    intro j l h c hc
    unfold snapshotFrom at h
    cases hcard : snapshotCard xlTable db decoy j sc1 with
    | none => simp [hcard] at h
    | some c1 =>
      cases hr : snapshotFrom xlTable db decoy (j + 1) rest with
      | none => simp [hcard, hr] at h
      | some cs =>
        simp only [hcard, hr, Option.some.injEq] at h
        subst h
        rcases List.mem_cons.mp hc with rfl | hc
        · have hrank := (snapshotCard_source xlTable db decoy j sc1 c hcard).1
          refine ⟨sc1, by omega, ?_, ?_⟩
          · rw [hrank]; simp
          · rw [hrank]; exact hcard
        · obtain ⟨sc, h1, h2, h3⟩ := ih (j + 1) cs hr c hc
          refine ⟨sc, by omega, ?_, h3⟩
          have e : c.rank - j = (c.rank - (j + 1)) + 1 := by omega
          rw [e, List.getElem?_cons_succ]
          exact h2

theorem snapshotFrom_cells (xlTable : Char → Nat → Int) (db : KDatabase) (decoy : String)
    (hrows : ∀ aa, RowWellFormed (xlTable aa))
    (cards : List kSingletScoreCard) (j : Nat) (l : List kSingletScoreCardPlus)
    (h : snapshotFrom xlTable db decoy j cards = some l) :
    ∀ c ∈ l, ∃ count, CellsInStep (c.motif, count) := by
  intro c hc
  obtain ⟨sc, _, _, hcard⟩ := snapshotFrom_source xlTable db decoy cards j l h c hc
  obtain ⟨_, _, _, _, count, hm⟩ := snapshotCard_source xlTable db decoy _ sc c hcard
  unfold mapMotifs at hm
  exact ⟨count, (foldl_mapOccurrence_spec xlTable db sc.k1 _ _ _
    (initialMotifs_inStep xlTable _ (hrows _)) hm).1⟩

/-- The scratch list of a spectrum whose singlet table holds only submitted cards: every
card of the sorted snapshot has the score and the length of the singlet card of its
rank, and the score is positive. -/
theorem sortedSnapshot_scores (xlTable : Char → Nat → Int) (db : KDatabase) (decoy : String)
    (singlets : List kSingletScoreCard)
    (qsort : List kSingletScoreCardPlus → List kSingletScoreCardPlus)
    (snapshot : List kSingletScoreCardPlus)
    (hq : QsortContract qsort) (hsub : SubmittedSinglets singlets)
    (hsnap : snapshotFrom xlTable db decoy 0 singlets = some snapshot) :
    ∀ c ∈ qsort snapshot, c ∈ snapshot ∧ 0 < c.simpleScore ∧
      c.simpleScore = (singlets.getD c.rank default).simpleScore ∧
      c.len = (singlets.getD c.rank default).len := by
  intro c hc
  have hmem : c ∈ snapshot := (hq snapshot).1.subset hc
  obtain ⟨sc, _, hget, hcard⟩ := snapshotFrom_source xlTable db decoy singlets 0 snapshot hsnap c hmem
  obtain ⟨_, hs, hl, _, _⟩ := snapshotCard_source xlTable db decoy _ sc c hcard
  simp only [Nat.sub_zero] at hget
  have hsc : singlets.getD c.rank default = sc := by
    rw [List.getD_eq_getElem?_getD, hget]; rfl
  have hmemsc : sc ∈ singlets := List.getElem?_mem hget
  refine ⟨hmem, ?_, by rw [hsc]; exact hs, by rw [hsc]; exact hl⟩
  rw [hs]
  exact submittedSinglets_pos singlets hsub sc hmemsc

theorem pipeSinglets_submitted : SubmittedSinglets pipeSinglets := by
  intro c hc
  simp only [pipeSinglets, List.mem_cons, List.mem_singleton, List.not_mem_nil, or_false] at hc
  rcases hc with rfl | rfl
  · exact ⟨storeEnv, [{ monoMass := 1038, charge := 3 }], pipeCalls.getD 0 default, 3, by decide!⟩
  · exact ⟨storeEnv, [{ monoMass := 1038, charge := 3 }], pipeCalls.getD 1 default, 3, by decide!⟩

theorem pipeSnapshot_eq : snapshotFrom termTable termDb "rev_" 0 pipeSinglets = some pipeSnapshot := by
  decide!

/-- C3. Every card that the cross-link pass of `analyzeRelaxed` submits, in either walk
direction, has `mass = j.mass + n.mass + linker.mass` for a template `j` and a partner
`n` of the scratch list and its own linker, and the spectrum has a precursor `P` with
`-ppmPrecursor ≤ (mass - P.monoMass) / P.monoMass * 1e6 ≤ ppmPrecursor`. -/
theorem C3_crosslink_mass_within_precursor_tolerance (env : RelaxedEnv)
    (s : List kSingletScoreCardPlus) (c : kScoreCard) (hc : c ∈ (crossLinkPass env s).out) :
    (∃ j n, j < s.length ∧ n < s.length ∧
      c.rank1 = ((s.getD j default).rank : Int) ∧ c.rank2 = ((s.getD n default).rank : Int) ∧
      c.mass1 = (s.getD j default).mass ∧ c.mass2 = (s.getD n default).mass ∧
      c.mass = (s.getD j default).mass + (s.getD n default).mass + (env.getLink c.link).mass) ∧
    ∃ P ∈ env.precursors,
      -env.ppmPrecursor ≤ (c.mass - P.monoMass) / P.monoMass * 1000000 ∧
      (c.mass - P.monoMass) / P.monoMass * 1000000 ≤ env.ppmPrecursor := by
  obtain ⟨j, n, cmv, xl, P, hf, rfl⟩ := crossLinkPass_recorded env s c hc
  exact ⟨⟨j, n, hf.jlt, hf.nlt, rfl, rfl, rfl, rfl, rfl⟩, P, hf.prec, hf.ppmLo, hf.ppmHi⟩

/-- C3 at a concrete input: the card submitted for the two cards of `pairScratch`. -/
theorem C3_witness :
    pairResult ∈ (crossLinkPass pairEnv pairScratch).out ∧
    ∃ P ∈ pairEnv.precursors,
      -pairEnv.ppmPrecursor ≤ (pairResult.mass - P.monoMass) / P.monoMass * 1000000 ∧
      (pairResult.mass - P.monoMass) / P.monoMass * 1000000 ≤ pairEnv.ppmPrecursor :=
  ⟨by decide!,
    (C3_crosslink_mass_within_precursor_tolerance pairEnv pairScratch pairResult (by decide!)).2⟩

/-- C10. Within one run of the cross-link pass over a scratch list whose cards have
distinct ranks, no two submitted cards pair the same two singlet cards, in either order
(a card paired with itself included), however many precursors, motifs, counter-motifs
or linkers match them. -/
theorem C10_one_crosslink_per_pair (env : RelaxedEnv) (s : List kSingletScoreCardPlus)
    (hrank : (s.map (fun c => c.rank)).Nodup) :
    (crossLinkPass env s).out.Pairwise (fun a b =>
      ¬ ((a.rank1 = b.rank1 ∧ a.rank2 = b.rank2) ∨ (a.rank1 = b.rank2 ∧ a.rank2 = b.rank1))) :=
  crossLinkPass_pairwise env s hrank

/-- C10 at a concrete input: three cards that all pair with each other and with
themselves, two precursors matching every pair, six cards submitted. -/
theorem C10_witness :
    (twinScratch.map (fun c => c.rank)).Nodup ∧
    ((crossLinkPass twinEnv twinScratch).out.map (fun c => (c.rank1, c.rank2))
      = [(0, 1), (0, 2), (0, 0), (1, 1), (1, 2), (2, 2)]) ∧
    (crossLinkPass twinEnv twinScratch).out.Pairwise (fun a b =>
      ¬ ((a.rank1 = b.rank1 ∧ a.rank2 = b.rank2) ∨ (a.rank1 = b.rank2 ∧ a.rank2 = b.rank1))) :=
  ⟨by decide, by decide!, C10_one_crosslink_per_pair twinEnv twinScratch (by decide)⟩

/-- C4. On a scratch list sorted by ascending mass, for a precursor of positive mass and
any start index in `[0, count)`, take a card `n` whose ppm error lies in the closed
interval `[-ppmPrecursor, +ppmPrecursor]` (the two ends included). The walks reach `n`:
if `n` is at or above the start index, the upward walk is the walk over the indices
below `n` followed by the walk started at `n`; if `n` is below it, the same holds for
the downward walk (no `break` is taken before `n`). And `n` passes the mass test: if it
passes the tests placed before the mass test, it is on `matches` after the two walks
unless the motif test that follows the mass test rejects it. -/
theorem C4_walks_reach_every_partner_in_tolerance (env : RelaxedEnv) (st : RelaxedState)
    (j n : Nat) (counterMotif xlIndex : Int) (P : kPrecursor) (index : Int)
    (hsorted : st.s.Pairwise (fun a b => a.mass ≤ b.mass)) (hP : 0 < P.monoMass)
    (h0 : 0 ≤ index) (h1 : index < st.s.length) (hn : n < st.s.length)
    (hlo : -env.ppmPrecursor ≤ ((st.s.getD j default).mass + (st.s.getD n default).mass
      + (env.getLink xlIndex).mass - P.monoMass) / P.monoMass * 1000000)
    (hhi : ((st.s.getD j default).mass + (st.s.getD n default).mass
      + (env.getLink xlIndex).mass - P.monoMass) / P.monoMass * 1000000 ≤ env.ppmPrecursor) :
    (index.toNat ≤ n →
      walkUp env j counterMotif xlIndex P (upIndices st.s.length index) st =
        walkUp env j counterMotif xlIndex P (List.range' n (st.s.length - n))
          (walkUp env j counterMotif xlIndex P
            (List.range' index.toNat (n - index.toNat)) st)) ∧
    (n < index.toNat →
      walkDown env j counterMotif xlIndex P (downIndices index)
          (walkUp env j counterMotif xlIndex P (upIndices st.s.length index) st) =
        walkDown env j counterMotif xlIndex P (List.range (n + 1)).reverse
          (walkDown env j counterMotif xlIndex P
            (List.range' (n + 1) (index.toNat - (n + 1))).reverse
            (walkUp env j counterMotif xlIndex P (upIndices st.s.length index) st))) ∧
    ((env.dimersXL = false → n ≠ j) → 0 ≤ (st.s.getD n default).simpleScore →
      0 ≤ (st.s.getD n default).k1 →
      n ∈ (walkDown env j counterMotif xlIndex P (downIndices index)
        (walkUp env j counterMotif xlIndex P (upIndices st.s.length index) st)).matched ∨
      hasCounterMotif (st.s.getD n default) counterMotif = false) := by
  have hs : ∀ a b, a ≤ b → b < st.s.length →
      (st.s.getD a default).mass ≤ (st.s.getD b default).mass := by
    intro a b hab hb
    rcases Nat.eq_or_lt_of_le hab with e | hlt
    · rw [e]
    · rw [List.getD_eq_getElem _ _ hb, List.getD_eq_getElem _ _ (lt_trans hlt hb)]
      exact List.pairwise_iff_getElem.mp hsorted a b (lt_trans hlt hb) hb hlt
  have hs1 := walkUp_s env j counterMotif xlIndex P (upIndices st.s.length index) st
  refine ⟨fun hup => ?_, fun hdown => ?_, fun hself hscore hsite => ?_⟩
  · rw [upIndices_split st.s.length index n hup hn]
    apply walkUp_append
    intro m hm
    rw [List.mem_range'_1] at hm
    have hmass := hs m n (by omega) hn
    have := ppmError_mono hP (show (st.s.getD j default).mass + (st.s.getD m default).mass
      + (env.getLink xlIndex).mass ≤ (st.s.getD j default).mass + (st.s.getD n default).mass
      + (env.getLink xlIndex).mass by linarith)
    unfold ppmError at this ⊢
    linarith
  · rw [downIndices_split index n hdown]
    apply walkDown_append
    intro m hm
    rw [List.mem_reverse, List.mem_range'_1] at hm
    rw [hs1]
    have hmass := hs n m (by omega) (by omega)
    have := ppmError_mono hP (show (st.s.getD j default).mass + (st.s.getD n default).mass
      + (env.getLink xlIndex).mass ≤ (st.s.getD j default).mass + (st.s.getD m default).mass
      + (env.getLink xlIndex).mass by linarith)
    unfold ppmError at this ⊢
    linarith
  · have hcand : WalkCandidate env st.s j n xlIndex P := ⟨hself, hscore, hsite, hlo, hhi⟩
    by_cases hup : index.toNat ≤ n
    · have hmem : n ∈ upIndices st.s.length index := by
        unfold upIndices
        rw [List.mem_range'_1]
        omega
      rcases walkUp_complete env j counterMotif xlIndex P hP n _ st
        (upIndices_pairwise st.s index hs) hmem hcand with h | h
      · exact Or.inl (walkDown_matched_mono env j counterMotif xlIndex P _ _ n h)
      · exact Or.inr h
    · have hmem : n ∈ downIndices index := by
        unfold downIndices
        simp only [List.mem_reverse, List.mem_range]
        omega
      have := walkDown_complete env j counterMotif xlIndex P hP n (downIndices index)
        (walkUp env j counterMotif xlIndex P (upIndices st.s.length index) st)
        (by rw [hs1]; exact downIndices_pairwise st.s index (by omega) hs) hmem
        (by rw [hs1]; exact hcand)
      rw [hs1] at this
      exact this

/-- C4 at a concrete input: a partner whose ppm error is exactly `+ppmPrecursor` is
reached and recorded. -/
theorem C4_witness :
    ((edgeState.s.getD 0 default).mass + (edgeState.s.getD 1 default).mass
      + (edgeEnv.getLink 0).mass - 1000) / 1000 * 1000000 = edgeEnv.ppmPrecursor ∧
    1 ∈ (walkDown edgeEnv 0 0 0 { monoMass := 1000, charge := 3 } (downIndices 0)
      (walkUp edgeEnv 0 0 0 { monoMass := 1000, charge := 3 }
        (upIndices edgeState.s.length 0) edgeState)).matched ∧
    (1 ∈ (walkDown edgeEnv 0 0 0 { monoMass := 1000, charge := 3 } (downIndices 0)
      (walkUp edgeEnv 0 0 0 { monoMass := 1000, charge := 3 }
        (upIndices edgeState.s.length 0) edgeState)).matched ∨
    hasCounterMotif (edgeState.s.getD 1 default) 0 = false) :=
  ⟨by decide!, by decide!,
    (C4_walks_reach_every_partner_in_tolerance edgeEnv edgeState 0 1 0 0
      { monoMass := 1000, charge := 3 } 0 (by decide!) (by decide!) (by decide) (by decide)
      (by decide) (by decide!) (by decide!)).2.2 (by decide) (by decide!) (by decide)⟩

/-- C1, evaluated where it fails. Template card 0 belongs to motifs 0 and 1; motif 1 has
counter-motif 1 with linker 1 (mass 200); card 2 is unconsumed, linkable at a site,
carries motif 1 and `1000 + 1500 + 200` equals the precursor mass 2700. The run ends
normally and submits no card pairing card 0 with card 2: after the pair (0, 1) was
recorded the modification-copy loop left `i = 1`, the `modLen` of card 1, so the motif
loop never starts a counter-motif scan for motif cell 1. With the modification of card 1
removed the same run does submit the pair (0, 2) with linker 1. -/
theorem C1_pairing_skips_motif_after_modified_partner :
    (0 < (skipScratch.getD 0 default).simpleScore ∧ (skipScratch.getD 0 default).linkable = true ∧
      0 ≤ (skipScratch.getD 0 default).k1) ∧
    (motifAt (skipScratch.getD 0 default) 0 = 0 ∧ motifAt (skipScratch.getD 0 default) 1 = 1) ∧
    (skipEnv.getCounterMotif 1 0 = 1 ∧ skipEnv.getXLIndex 1 0 = 1) ∧
    ({ monoMass := 2700, charge := 3 } : kPrecursor) ∈ skipEnv.precursors ∧
    (0 < (skipScratch.getD 2 default).simpleScore ∧ 0 ≤ (skipScratch.getD 2 default).k1 ∧
      hasCounterMotif (skipScratch.getD 2 default) 1 = true) ∧
    ppmError ((skipScratch.getD 0 default).mass + (skipScratch.getD 2 default).mass
      + (skipEnv.getLink 1).mass) 2700 = 0 ∧
    (crossLinkPass skipEnv skipScratch).status = RunStatus.running ∧
    (crossLinkPass skipEnv skipScratch).out.map (fun c => (c.pep1, c.pep2, c.link))
      = [(0, 1, 0)] ∧
    (crossLinkPass skipEnvUnmodified skipScratch).out.map (fun c => (c.pep1, c.pep2, c.link))
      = [(0, 1, 0), (0, 2, 1)] := by
  refine ⟨by decide!, by decide!, by decide!, by decide!, by decide!, by decide!, by decide!,
    by decide!, by decide!⟩

/-! ## Claims about stage 1 -/

/-- C6, as the code has it. For a position `k` of a peptide of length `len`,
`analyzeSinglets` builds singlet ions at `k` exactly when either `k` is not the last
position and the residue at `k` belongs to a motif, or is the first residue of a peptide
at a protein N-terminus while `'n'` has a motif; or `k` is the last position, the
peptide is at a protein C-terminus and `'c'` has a motif. The last residue is never a
link site through its own motifs. -/
theorem C6_singlet_sites_exclude_last_residue (xlTable : Char → Nat → Int)
    (pepSeq : List Char) (p : kPeptide) (k : Nat) (hk : (k : Int) < peptideLen p) :
    k ∈ singletSites xlTable pepSeq p ↔
      ((k : Int) < peptideLen p - 1 ∧
        (xlTable (pepSeq.getD k (Char.ofNat 0)) 0 ≠ -1 ∨
          (k = 0 ∧ p.nTerm = true ∧ xlTable 'n' 0 ≠ -1))) ∨
      ((k : Int) = peptideLen p - 1 ∧ p.cTerm = true ∧ xlTable 'c' 0 ≠ -1) := by
  unfold singletSites
  rw [List.mem_filter, List.mem_range]
  have hk1 : k < (peptideLen p).toNat := by omega
  simp only [hk1, true_and]
  unfold singletSiteOk
  split_ifs with h1 h2 h3 h4
  · simp only [decide_eq_true_eq]
    constructor
    · intro h; exact Or.inr ⟨h1.1, h1.2, h⟩
    · rintro (⟨h, _⟩ | ⟨_, _, h⟩)
      · omega
      · exact h
  · simp only [Bool.false_eq_true, false_iff]
    rintro (⟨h, _⟩ | ⟨_, hc, _⟩)
    · omega
    · exact h1 ⟨h2, hc⟩
  · simp only [decide_eq_true_eq]
    constructor
    · intro h; exact Or.inl ⟨by omega, Or.inr ⟨h4.1, h4.2, h⟩⟩
    · rintro (⟨_, h | ⟨_, _, h⟩⟩ | ⟨h, _⟩)
      · exact absurd h3 h
      · exact h
      · exact absurd h h2
  · simp only [Bool.false_eq_true, false_iff]
    rintro (⟨_, h | ⟨h5, h6, _⟩⟩ | ⟨h, _⟩)
    · exact h h3
    · exact h4 ⟨h5, h6⟩
    · exact h2 h
  · simp only [true_iff]
    exact Or.inl ⟨by omega, Or.inl h3⟩

/-- C6 at a concrete input: position 2 of `SAKPLEK`, a lysine inside the peptide. -/
theorem C6_witness :
    2 ∈ singletSites lysineTable "SAKPLEK".toList innerPeptide ↔
      (((2 : Nat) : Int) < peptideLen innerPeptide - 1 ∧
        (lysineTable ("SAKPLEK".toList.getD 2 (Char.ofNat 0)) 0 ≠ -1 ∨
          (2 = 0 ∧ innerPeptide.nTerm = true ∧ lysineTable 'n' 0 ≠ -1))) ∨
      (((2 : Nat) : Int) = peptideLen innerPeptide - 1 ∧ innerPeptide.cTerm = true ∧
        lysineTable 'c' 0 ≠ -1) :=
  C6_singlet_sites_exclude_last_residue lysineTable "SAKPLEK".toList innerPeptide 2 (by decide)

/-- C6 as stated fails: in `SAMPLEK` (seven residues, not at a protein terminus) the
lysine at position 6 belongs to motif 0, yet no singlet ions are built at position 6. -/
theorem C6_last_residue_lysine_is_skipped :
    "SAMPLEK".toList.getD 6 (Char.ofNat 0) = 'K' ∧ lysineTable 'K' 0 ≠ -1 ∧
    peptideLen innerPeptide = 7 ∧
    ¬ (6 ∈ singletSites lysineTable "SAMPLEK".toList innerPeptide ↔
      (lysineTable ("SAMPLEK".toList.getD 6 (Char.ofNat 0)) 0 ≠ -1 ∨
        (6 = 0 ∧ innerPeptide.nTerm = true ∧ lysineTable 'n' 0 ≠ -1) ∨
        (((6 : Nat) : Int) = peptideLen innerPeptide - 1 ∧ innerPeptide.cTerm = true ∧
          lysineTable 'c' 0 ≠ -1))) := by
  decide

/-- C7, as the code has it. In `analyzePeptide` with `crossLink = true`, for every
position `k`, every motif of the residue at `k` (cell `x` of its row), every
counter-motif entry `m` of that motif with its linker, and every position `k2` with
`k < k2 < len - 1` (the last residue is left out) whose residue has the counter-motif
among its motifs (cell `n`), loop ions are built for (linker mass, `k`, `k2`) and, for
each of them, every spectrum returned by `getBoundaries2` receives a card with `k1 = k`,
`k2 = k2`, `link =` the linker, `pep1 =` the peptide and `pep2 = -1`. -/
theorem C7_loop_links_before_last_residue (env : Stage1Env) (pepSeq : List Char)
    (p : kPeptide) (pepIndex : Int) (k x m k2 n : Nat) (ion : KIonSet) (a : Nat)
    (hx : x < 20)
    (hxs : ∀ y, y ≤ x → env.xlTable (pepSeq.getD k (Char.ofNat 0)) y > -1)
    (hm : m < 10)
    (hms : ∀ y, y ≤ m →
      env.getCounterMotif (env.xlTable (pepSeq.getD k (Char.ofNat 0)) x) (y : Nat) > -1)
    (hk2 : k < k2) (hlast : k2 + 1 < pepSeq.length)
    (hn : n < 20)
    (hns : ∀ y, y ≤ n → env.xlTable (pepSeq.getD k2 (Char.ofNat 0)) y > -1)
    (hcm : env.xlTable (pepSeq.getD k2 (Char.ofNat 0)) n =
      env.getCounterMotif (env.xlTable (pepSeq.getD k (Char.ofNat 0)) x) m)
    (hion : ion ∈ env.loopIons p
      (env.getLink (env.getXLIndex (env.xlTable (pepSeq.getD k (Char.ofNat 0)) x) m)).mass k k2)
    (hbt : (env.getBoundaries2 ion.mass env.ppmPrecursor).1 = true)
    (ha : a ∈ (env.getBoundaries2 ion.mass env.ppmPrecursor).2) :
    ∃ sc, Stage1Event.checkScore a sc ∈ analyzePeptide env pepSeq p pepIndex true ∧
      sc.k1 = k ∧ sc.k2 = k2 ∧
      sc.link = env.getXLIndex (env.xlTable (pepSeq.getD k (Char.ofNat 0)) x) m ∧
      sc.pep1 = pepIndex ∧ sc.pep2 = -1 ∧ sc.mass = ion.mass := by
  obtain ⟨sc, hsc, h1, h2, h3, h4, h5, h6⟩ := mem_scoreSpectra env (peptideLen p)
    (env.getBoundaries2 ion.mass env.ppmPrecursor).2 ion 0 true pepIndex (-1) (k : Int) (k2 : Int)
    (env.getXLIndex (env.xlTable (pepSeq.getD k (Char.ofNat 0)) x) m) a ha
  refine ⟨sc, ?_, h1, h2, h3, h4, h5, h6⟩
  have hcards : Stage1Event.checkScore a sc ∈ loopLinkCards env p pepIndex true k k2
      (env.getXLIndex (env.xlTable (pepSeq.getD k (Char.ofNat 0)) x) m) := by
    unfold loopLinkCards
    rw [List.mem_flatMap]
    exact ⟨ion, hion, by simp only [hbt, if_true]; exact hsc⟩
  have hsecond : Stage1Event.checkScore a sc ∈ loopSecondSites env pepSeq p pepIndex true k
      (env.getCounterMotif (env.xlTable (pepSeq.getD k (Char.ofNat 0)) x) m)
      (env.getXLIndex (env.xlTable (pepSeq.getD k (Char.ofNat 0)) x) m) := by
    unfold loopSecondSites
    rw [List.mem_flatMap]
    refine ⟨k2, by rw [List.mem_range'_1]; omega, ?_⟩
    rw [mem_whileCell]
    exact ⟨n, Nat.zero_le _, by omega, fun y _ hy => hns y hy, by simp only [hcm, if_true]; exact hcards⟩
  have hloop : Stage1Event.checkScore a sc ∈ loopLinks env pepSeq p pepIndex true := by
    unfold loopLinks
    rw [List.mem_flatMap]
    refine ⟨k, by rw [List.mem_range]; omega, ?_⟩
    rw [mem_whileCell]
    refine ⟨x, Nat.zero_le _, by omega, fun y _ hy => hxs y hy, ?_⟩
    rw [mem_whileCell]
    exact ⟨m, Nat.zero_le _, by omega, fun y _ hy => hms y hy, hsecond⟩
  unfold analyzePeptide
  simp only [Bool.not_true, Bool.false_eq_true, if_false]
  exact List.mem_append_right _ hloop

/-- C7 at a concrete input: the lysines at positions 0 and 2 of `KAKAK`. -/
theorem C7_witness :
    ∃ sc, Stage1Event.checkScore 3 sc ∈ analyzePeptide loopEnv "KAKAK".toList loopPeptide 7 true ∧
      sc.k1 = ((0 : Nat) : Int) ∧ sc.k2 = ((2 : Nat) : Int) ∧
      sc.link = loopEnv.getXLIndex
        (loopEnv.xlTable ("KAKAK".toList.getD 0 (Char.ofNat 0)) 0) ((0 : Nat) : Int) ∧
      sc.pep1 = 7 ∧ sc.pep2 = -1 ∧
      sc.mass = ({ mass := 638, difMass := 0, mods := [] } : KIonSet).mass :=
  C7_loop_links_before_last_residue loopEnv "KAKAK".toList loopPeptide 7 0 0 0 2 0
    { mass := 638, difMass := 0, mods := [] } 3 (by decide)
    (fun y hy => by have : y = 0 := by omega
                    subst this; decide)
    (by decide)
    (fun y hy => by have : y = 0 := by omega
                    subst this; decide)
    (by decide) (by decide) (by decide)
    (fun y hy => by have : y = 0 := by omega
                    subst this; decide)
    (by decide) (by decide!) (by decide!) (by decide!)

/-- C7 as stated fails: in `KAKAK` the lysine at the last position 4 has motif 0, the
counter-motif of the motif of the lysines at positions 0 and 2, loop ions for these
pairs would have a matching spectrum, yet the only loop-link card submitted is the one
for positions 0 and 2. -/
theorem C7_last_residue_never_second_site :
    "KAKAK".toList.length = 5 ∧
    loopEnv.xlTable ("KAKAK".toList.getD 4 (Char.ofNat 0)) 0 =
      loopEnv.getCounterMotif (loopEnv.xlTable ("KAKAK".toList.getD 0 (Char.ofNat 0)) 0) 0 ∧
    loopEnv.xlTable ("KAKAK".toList.getD 4 (Char.ofNat 0)) 0 =
      loopEnv.getCounterMotif (loopEnv.xlTable ("KAKAK".toList.getD 2 (Char.ofNat 0)) 0) 0 ∧
    loopEnv.getBoundaries2 (loopPeptide.mass + (loopEnv.getLink 0).mass) loopEnv.ppmPrecursor
      = (true, [3]) ∧
    (analyzePeptide loopEnv "KAKAK".toList loopPeptide 7 true).map eventSites
      = [some (0, 2, 0)] := by
  refine ⟨by decide, by decide, by decide, by decide!, by decide!⟩

/-! ## Claims about the snapshot of `analyzeRelaxed` -/

/-- C9, as the code has it. When the row of the residue at the link site is well formed
and the motif mapping of the snapshot ends normally, the motif cells of the card receive
every motif of pseudo-residue `'n'` if, for some protein occurrence of the peptide,
`occurrence.start + k1 < 2` (the site is the first or the second residue of that
protein); and if no occurrence has `occurrence.start + k1 < 2`, no cell comes from the
`'n'` row: every cell is a cell of the row of the residue or of the `'c'` row. -/
theorem C9_nterm_motifs_for_first_two_residues (xlTable : Char → Nat → Int) (db : KDatabase)
    (pep : kPeptide) (k1 : Int) (aa : Char) (res : List Int × Nat)
    (hrow : RowWellFormed (xlTable aa))
    (hres : mapMotifs xlTable db pep k1 aa = some res) :
    ((∃ mp ∈ pep.map, (mp.start : Int) + k1 < 2) → ∀ k, k < 20 →
      (∀ y, y ≤ k → xlTable 'n' y ≠ -1) → xlTable 'n' k ∈ res.1) ∧
    ((∀ mp ∈ pep.map, ¬ (mp.start : Int) + k1 < 2) → ∀ v, v ∈ res.1 →
      (∃ i, i < 20 ∧ v = xlTable aa i) ∨ ∃ k, k < 20 ∧ v = xlTable 'c' k) := by
  obtain ⟨_, _, a3, a4⟩ := foldl_mapOccurrence_spec xlTable db k1 pep.map
    (initialMotifs xlTable aa) res (initialMotifs_inStep xlTable aa hrow) hres
  refine ⟨a3, fun hno v hv => ?_⟩
  rcases a4 v hv with h | ⟨⟨mp, hmp, hc⟩, _⟩ | h
  · exact Or.inl (mem_initialMotifs xlTable aa v h)
  · exact absurd hc (hno mp hmp)
  · exact Or.inr h

/-- C9 at a concrete input: the link site is the second residue (`start + k1 = 1`) of
the protein `MKAAAK`. -/
theorem C9_witness :
    ((∃ mp ∈ (termDb.getPeptide 2 true).map, (mp.start : Int) + 0 < 2) → ∀ k, k < 20 →
      (∀ y, y ≤ k → termTable 'n' y ≠ -1) → termTable 'n' k ∈ (motifCells [0, 2], 2).1) ∧
    ((∀ mp ∈ (termDb.getPeptide 2 true).map, ¬ (mp.start : Int) + 0 < 2) →
      ∀ v, v ∈ (motifCells [0, 2], 2).1 →
      (∃ i, i < 20 ∧ v = termTable 'K' i) ∨ ∃ k, k < 20 ∧ v = termTable 'c' k) :=
  C9_nterm_motifs_for_first_two_residues termTable termDb (termDb.getPeptide 2 true) 0 'K'
    (motifCells [0, 2], 2)
    ⟨1, by decide, fun i hi => by
        have : i = 0 := by omega
        subst this; decide,
      fun i h1 h2 => by interval_cases i <;> decide⟩
    (by decide)

/-- C9 as stated fails: the link site of the card is the second residue of its protein
(`start + k1 = 1`, so no occurrence has `start + k1 = 0`), and its motif cells receive
motif 2 of pseudo-residue `'n'`. -/
theorem C9_second_residue_receives_nterm_motif :
    (∀ mp ∈ (termDb.getPeptide 2 true).map, (mp.start : Int) + 0 ≠ 0) ∧
    termTable 'n' 0 = 2 ∧
    (snapshotCard termTable termDb "rev_" 0 (termCard 2 0)).map (fun c => c.motif)
      = some (motifCells [0, 2]) := by
  decide

/-- C8, evaluated where it fails. In the protein `MKAAAK` the peptide `AAAK` starts at
residue 2; its link site `k1 = 3` is the last residue of the protein
(`start + k1 = 5 = length - 1`) and `'c'` has motif 1, yet the card receives only motif 0
of the lysine: the code compares `length - 1` with `k1` alone. When the peptide is the
whole protein (`start = 0`, `k1 = 5`) the `'c'` motif is added. -/
theorem C8_cterm_test_ignores_start :
    (∀ mp ∈ (termDb.getPeptide 0 true).map,
      (mp.start : Int) + 3 = ((termDb.protein mp.index).sequence.length : Int) - 1) ∧
    termTable 'c' 0 = 1 ∧
    (snapshotCard termTable termDb "rev_" 0 (termCard 0 3)).map (fun c => c.motif)
      = some (motifCells [0]) ∧
    (snapshotCard termTable termDb "rev_" 0 (termCard 1 5)).map (fun c => c.motif)
      = some (motifCells [0, 1]) := by
  decide

/-- C11. With `dimersXL = false` and distinct ranks on the scratch list, every card that
the cross-link pass submits pairs two different singlet cards: its `rank1` differs from
its `rank2`. -/
theorem C11_no_self_crosslink_without_dimers (env : RelaxedEnv)
    (s0 : List kSingletScoreCardPlus)
    (hrank : (s0.map (fun c => c.rank)).Nodup) (hd : env.dimersXL = false)
    (c : kScoreCard) (hc : c ∈ (crossLinkPass env s0).out) : c.rank1 ≠ c.rank2 := by
  obtain ⟨j, n, cmv, xl, P, hf, rfl⟩ := crossLinkPass_recorded env s0 c hc
  intro h
  have h1 : (s0.getD j default).rank = (s0.getD n default).rank := by
    have : (((s0.getD j default).rank : Nat) : Int) = (((s0.getD n default).rank : Nat) : Int) := h
    exact_mod_cast this
  exact hf.notSelf hd (rank_inj hrank hf.nlt hf.jlt h1.symm)

/-- C11 at a concrete input: three cards that each carry their own counter-motif, a
precursor equal to twice the card mass plus the linker mass, `dimersXL = false`; the
pass submits the three mixed pairs and no self pair. -/
theorem C11_witness :
    (twinScratch.map (fun c => c.rank)).Nodup ∧ strictEnv.dimersXL = false ∧
    ((crossLinkPass strictEnv twinScratch).out.map (fun c => (c.rank1, c.rank2))
      = [(0, 1), (0, 2), (1, 2)]) ∧
    ∀ c ∈ (crossLinkPass strictEnv twinScratch).out, c.rank1 ≠ c.rank2 :=
  ⟨by decide, rfl, by decide!, fun c hc =>
    C11_no_self_crosslink_without_dimers strictEnv twinScratch (by decide) rfl c hc⟩

/-- C17. `scoreSingletSpectra` hands a card to `checkSingletScore` exactly when
`best / len > 0`, where `best` (the final `score2`) is the maximum, floored at 0, of the
kernel scores at offset `P.monoMass - mass` over the precursors `P` of the spectrum with
`P.monoMass > minMass`: `best` is at least 0, at least every such score, and it is 0 or
one of these scores. The submitted card goes to spectrum `index`, has
`simpleScore = best / len`, and that value is positive. -/
theorem C17_singlet_card_iff_positive_score (env : Stage1Env) (precursors : List kPrecursor)
    (call : SingletCall) :
    0 ≤ bestSingletScore env precursors call ∧
    (∀ P ∈ precursors, P.monoMass > call.minMass →
      env.score call.index (P.monoMass - call.mass) call.ion
        ≤ bestSingletScore env precursors call) ∧
    (bestSingletScore env precursors call = 0 ∨
      ∃ P ∈ precursors, P.monoMass > call.minMass ∧
        env.score call.index (P.monoMass - call.mass) call.ion
          = bestSingletScore env precursors call) ∧
    ((scoreSingletSpectra env precursors call).isSome = true ↔
      bestSingletScore env precursors call / call.len > 0) ∧
    ∀ a sc, scoreSingletSpectra env precursors call = some (a, sc) →
      a = call.index ∧ sc.simpleScore = bestSingletScore env precursors call / call.len ∧
      0 < sc.simpleScore := by
  obtain ⟨h1, h2, h3⟩ := bestFold_spec env call precursors 0
  refine ⟨h1, h2, h3, ?_, ?_⟩
  · unfold scoreSingletSpectra
    split_ifs with h
    · simp [h]
    · simp [h]
  · intro a sc hsc
    unfold scoreSingletSpectra at hsc
    split_ifs at hsc with h
    simp only [Option.some.injEq, Prod.mk.injEq] at hsc
    obtain ⟨rfl, rfl⟩ := hsc
    exact ⟨rfl, rfl, h⟩

/-- C14, as the code has it. After the first construction, for a linker list with at
least one linker with `mono = 0` in which no linker with `mono = 0` has mass exactly 0
(the value that the loop reads as "not set yet"), `lowLinkMass` is the least and
`highLinkMass` the greatest mass among the linkers with `mono = 0`; removing the linkers
with `mono != 0` from the list changes neither value. -/
theorem C14_link_mass_extrema_of_nonzero_masses (links : List kLinker)
    (h1 : ∃ l ∈ links, l.mono = 0) (h0 : ∀ l ∈ links, l.mono = 0 → l.mass ≠ 0) :
    (∃ l ∈ links, l.mono = 0 ∧ l.mass = (linkMassExtrema links).1) ∧
    (∀ l ∈ links, l.mono = 0 → (linkMassExtrema links).1 ≤ l.mass) ∧
    (∃ l ∈ links, l.mono = 0 ∧ l.mass = (linkMassExtrema links).2) ∧
    (∀ l ∈ links, l.mono = 0 → l.mass ≤ (linkMassExtrema links).2) ∧
    linkMassExtrema links = linkMassExtrema (links.filter (fun l => decide (l.mono = 0))) := by
  have h := extremaOf_loop links [] (0, 0) (Or.inl ⟨fun l hl => absurd hl (List.not_mem_nil _), rfl⟩) h0
  rw [List.nil_append] at h
  rcases h with ⟨hall, _⟩ | ⟨ha, hb, hc, hd, _, _⟩
  · obtain ⟨l, hl, hl0⟩ := h1
    exact absurd hl0 (hall l hl)
  · exact ⟨ha, hb, hc, hd, linkMassLoop_filter links (0, 0)⟩

/-- C14 at a concrete input: cross-linkers of mass 138 and -18 and a mono-linker of mass
156; the extrema are -18 and 138. -/
theorem C14_witness :
    linkMassExtrema mixedLinks = (-18, 138) ∧
    ((∃ l ∈ mixedLinks, l.mono = 0 ∧ l.mass = (linkMassExtrema mixedLinks).1) ∧
    (∀ l ∈ mixedLinks, l.mono = 0 → (linkMassExtrema mixedLinks).1 ≤ l.mass) ∧
    (∃ l ∈ mixedLinks, l.mono = 0 ∧ l.mass = (linkMassExtrema mixedLinks).2) ∧
    (∀ l ∈ mixedLinks, l.mono = 0 → l.mass ≤ (linkMassExtrema mixedLinks).2) ∧
    linkMassExtrema mixedLinks
      = linkMassExtrema (mixedLinks.filter (fun l => decide (l.mono = 0)))) :=
  ⟨by decide!, C14_link_mass_extrema_of_nonzero_masses mixedLinks (by decide!) (by decide!)⟩

/-- C14 as stated fails: with a cross-linker of mass 0 followed by one of mass 5, both
with `mono = 0`, the loop takes the 0 it stored for "not set yet" and ends with
`lowLinkMass = 5`, above the mass of the first linker. -/
theorem C14_zero_mass_linker_is_overwritten :
    (∃ l ∈ zeroMassLinks, l.mono = 0) ∧
    linkMassExtrema zeroMassLinks = (5, 5) ∧
    ∃ l ∈ zeroMassLinks, l.mono = 0 ∧ l.mass < (linkMassExtrema zeroMassLinks).1 := by
  decide!

/-- C13. With `crossLink = false` and `dimersNC = false`, and a spectrum store whose
lookup `getBoundaries2` reports failure only with an empty index list, `analyzePeptide`
submits exactly the following cards and nothing else: for every ion set of the peptide,
in order, and every spectrum index that `getBoundaries2(ionSet.mass, ppmPrecursor)`
returns, one card to that spectrum with `pep1` the peptide index, `pep2 = -1`,
`link = -1`, `k1 = k2 = -1` and `mass` the mass of the ion set. -/
theorem C13_single_peptide_scoring (env : Stage1Env) (pepSeq : List Char) (p : kPeptide)
    (pepIndex : Int) (hd : env.dimersNC = false)
    (hstore : ∀ m t, (env.getBoundaries2 m t).1 = false → (env.getBoundaries2 m t).2 = []) :
    analyzePeptide env pepSeq p pepIndex false = (env.fullIons p).flatMap (fun ion =>
      (env.getBoundaries2 ion.mass env.ppmPrecursor).2.map (fun a =>
        Stage1Event.checkScore a
          { env.blankCard with
            simpleScore := env.score a ion.difMass ion
            k1 := -1
            k2 := -1
            mass := ion.mass
            linkable1 := false
            linkable2 := false
            pep1 := pepIndex
            pep2 := -1
            link := -1
            mods1 := cardMods (peptideLen p) ion
            mods2 := [] })) := by
  unfold analyzePeptide
  simp only [Bool.not_false, if_true]
  rw [fullSearch_eq env p pepIndex false hd]
  apply List.flatMap_congr
  intro ion _
  split_ifs with hbt
  · rfl
  · have := hstore ion.mass env.ppmPrecursor (by simpa using hbt)
    rw [this]
    rfl

/-- C13 at a concrete input: ion sets of mass 638 and 654, and spectrum 3 matching the
first of them only. -/
theorem C13_witness :
    analyzePeptide storeEnv "KAKAK".toList loopPeptide 7 false =
      [Stage1Event.checkScore 3
        { (default : kScoreCard) with
          simpleScore := 1, k1 := -1, k2 := -1, mass := 638, linkable1 := false,
          linkable2 := false, pep1 := 7, pep2 := -1, link := -1, mods1 := [], mods2 := [] }] :=
  (C13_single_peptide_scoring storeEnv "KAKAK".toList loopPeptide 7 rfl (by
    intro m t h
    simp only [storeEnv] at h ⊢
    split_ifs at h ⊢
    rfl)).trans (by decide!)

/-- C16. For a spectrum store whose lookup `getBoundaries` reports failure only with an
empty index list, `analyzeSinglets` makes exactly the following calls of
`scoreSingletSpectra`: for every link site that it accepts, for every singlet ion set
of that site with modification mass `d`, in order, one call for each spectrum index
that `getBoundaries(L - L*ppm/1e6 + d, U + U*ppm/1e6 + d)` returns, where
`L = pep.mass + lowLinkMass + minPepMass` and `U = pep.mass + highLinkMass + maxPepMass`. -/
theorem C16_singlet_search_window (env : Stage1Env) (pepSeq : List Char) (p : kPeptide)
    (index : Int) (lowLinkMass highLinkMass : ℚ)
    (hstore : ∀ lo hi, (env.getBoundaries lo hi).1 = false → (env.getBoundaries lo hi).2 = []) :
    analyzeSinglets env pepSeq p index lowLinkMass highLinkMass =
      (singletSites env.xlTable pepSeq p).flatMap (fun k =>
        (env.singletIons p k).enum.flatMap (fun jion =>
          (env.getBoundaries
            ((p.mass + lowLinkMass + env.minPepMass)
              - (p.mass + lowLinkMass + env.minPepMass) * env.ppmPrecursor / 1000000
              + jion.2.difMass)
            ((p.mass + highLinkMass + env.maxPepMass)
              + (p.mass + highLinkMass + env.maxPepMass) * env.ppmPrecursor / 1000000
              + jion.2.difMass)).2.map (fun scan =>
            Stage1Event.singlet
              { index := scan, sIndex := jion.1, ion := jion.2, mass := jion.2.mass,
                len := peptideLen p, pep := index, k := (k : Int), linkable := true,
                minMass := (p.mass + lowLinkMass + env.minPepMass)
                  - (p.mass + lowLinkMass + env.minPepMass) * env.ppmPrecursor / 1000000 }))) := by
  have hlo : singletMinMass env p lowLinkMass = (p.mass + lowLinkMass + env.minPepMass)
      - (p.mass + lowLinkMass + env.minPepMass) * env.ppmPrecursor / 1000000 := by
    unfold singletMinMass; ring
  have hhi : singletMaxMass env p highLinkMass = (p.mass + highLinkMass + env.maxPepMass)
      + (p.mass + highLinkMass + env.maxPepMass) * env.ppmPrecursor / 1000000 := by
    unfold singletMaxMass; ring
  unfold analyzeSinglets
  apply List.flatMap_congr
  intro k _
  unfold singletSiteCalls
  apply List.flatMap_congr
  intro jion _
  simp only []
  rw [hlo, hhi]
  split_ifs with hbt
  · rfl
  · rw [hstore _ _ (by simpa using hbt)]
    rfl

/-- C16 at a concrete input: the peptide `KAKAK` of mass 500 with link sites 0 and 2,
two singlet ion sets per site and the spectra 3 and 5 inside the window: eight calls. -/
theorem C16_witness :
    (analyzeSinglets storeEnv "KAKAK".toList loopPeptide 7 138 138).map
      (fun e => match e with
        | Stage1Event.singlet call => some (call.k, call.sIndex, call.index)
        | Stage1Event.checkScore _ _ => none) =
      [some (0, 0, 3), some (0, 0, 5), some (0, 1, 3), some (0, 1, 5),
       some (2, 0, 3), some (2, 0, 5), some (2, 1, 3), some (2, 1, 5)] :=
  (congrArg _ (C16_singlet_search_window storeEnv "KAKAK".toList loopPeptide 7 138 138 (by
    intro lo hi h
    simp only [storeEnv] at h ⊢
    split_ifs at h ⊢
    rfl))).trans (by decide!)

/-- C12. For a peptide list in ascending mass order, `doPeptideAnalysis` launches exactly
the peptides, each once and with its list index, whose mass is at most
`maxMass = getMaxMass() + 0.25` and, unless `crossLink` is set, at least
`minMass = getMinMass() - 0.25`. Every card and every singlet call of the run carries the
index of such a peptide, so none carries a peptide above `maxMass`. -/
theorem C12_stage1_mass_gating (env : Stage1Env) (getPeptideSeq : kPeptide → List Char)
    (specMinMass specMaxMass : ℚ) (peptides : List kPeptide) (crossLink : Bool)
    (hsorted : peptides.Pairwise (fun a b => a.mass ≤ b.mass)) :
    launched specMinMass specMaxMass crossLink peptides = peptides.enum.filter (fun ip =>
      decide (ip.2.mass ≤ specMaxMass + 1 / 4) &&
        (crossLink || decide (specMinMass - 1 / 4 ≤ ip.2.mass))) ∧
    ∀ e ∈ doPeptideAnalysis env getPeptideSeq specMinMass specMaxMass peptides crossLink,
      ∃ (i : Nat) (p : kPeptide), peptides[i]? = some p ∧ eventPep e = (i : Int) ∧ p.mass ≤ specMaxMass + 1 / 4 ∧
        (crossLink = true ∨ specMinMass - 1 / 4 ≤ p.mass) := by
  have h1 : launched specMinMass specMaxMass crossLink peptides = peptides.enum.filter (fun ip =>
      decide (ip.2.mass ≤ specMaxMass + 1 / 4) &&
        (crossLink || decide (specMinMass - 1 / 4 ≤ ip.2.mass))) :=
    launchFrom_eq_filter _ _ crossLink peptides 0 hsorted
  refine ⟨h1, ?_⟩
  intro e he
  unfold doPeptideAnalysis at he
  obtain ⟨ip, hip, he⟩ := List.mem_flatMap.mp he
  rw [h1, List.mem_filter] at hip
  obtain ⟨hmem, hcond⟩ := hip
  simp only [Bool.and_eq_true, Bool.or_eq_true, decide_eq_true_eq] at hcond
  refine ⟨ip.1, ip.2, ?_, analyzePeptide_pep _ _ _ _ _ e he, hcond.1, hcond.2⟩
  have := List.mem_enum_iff_getElem?.mp hmem
  exact this

/-- C12 at a concrete input: peptide masses 400, 500, 900, 1500, 2100 and spectra
between 600 and 2000; without `crossLink` the peptides 2 and 3 are launched, with
`crossLink` the peptides 0 to 3. -/
theorem C12_witness :
    (launched 600 2000 false massLadder).map (fun ip => ip.1) = [2, 3] ∧
    (launched 600 2000 true massLadder).map (fun ip => ip.1) = [0, 1, 2, 3] ∧
    (launched 600 2000 false massLadder = massLadder.enum.filter (fun ip =>
      decide (ip.2.mass ≤ 2000 + 1 / 4) && (false || decide (600 - 1 / 4 ≤ ip.2.mass))) ∧
    ∀ e ∈ doPeptideAnalysis storeEnv (fun _ => "KAKAK".toList) 600 2000 massLadder false,
      ∃ (i : Nat) (p : kPeptide), massLadder[i]? = some p ∧ eventPep e = (i : Int) ∧ p.mass ≤ 2000 + 1 / 4 ∧
        (false = true ∨ 600 - 1 / 4 ≤ p.mass)) :=
  ⟨by decide!, by decide!,
    C12_stage1_mass_gating storeEnv (fun _ => "KAKAK".toList) 600 2000 massLadder false
      (by decide!)⟩

/-- C19. Let the sparse array of the spectrum have strictly increasing bins, and let
the bins of the b ladder and of the y ladder at every charge `k = 1..min(charge,6)-1` be
nondecreasing in position, at least the first and below the last bin of the sparse
array, where the bin of a fragment `mz` is `int((modMass/k - mz)*invBinSize + binOffset)`
for `mz < 0` and `int(mz*invBinSize + binOffset)` otherwise. Then the ratchet over each
of these ladders, started on any running total, reads only entries of the array and
adds for every ion the intensity of the entry with the largest bin at most the bin of
the ion; and the total of `xCorrScoring` before scaling is the sum of these
intensities. -/
theorem C19_ratchet_equals_direct_lookup (params : kParams) (s : KSpectrum) (ki : KIonSet)
    (ionCount : Int) (modMass : ℚ)
    (hs : s.xCorrSparseArray.Pairwise (fun a b => a.bin < b.bin))
    (hrows : ∀ k ∈ kernelCharges s.charge, ∀ row ∈ [ki.bIons.getD k [], ki.yIons.getD k []],
      (theoreticalBins params (modMass / k) row ionCount).Pairwise (fun a b => a ≤ b) ∧
      ∀ j ∈ theoreticalBins params (modMass / k) row ionCount,
        (s.xCorrSparseArray.getD 0 default).bin ≤ j ∧
        j < (s.xCorrSparseArray.getD (s.xCorrSparseArray.length - 1) default).bin) :
    (∀ k ∈ kernelCharges s.charge, ∀ row ∈ [ki.bIons.getD k [], ki.yIons.getD k []], ∀ d,
      ratchetSeries s.xCorrSparseArray (theoreticalBins params (modMass / k) row ionCount) 0 d
        = some (d + ((theoreticalBins params (modMass / k) row ionCount).map
            (directIntensity s.xCorrSparseArray)).sum)) ∧
    xCorrRaw params s ki ionCount modMass = some
      (((kernelCharges s.charge).map (fun k : Nat =>
        ((theoreticalBins params (modMass / k) (ki.bIons.getD k []) ionCount).map
          (directIntensity s.xCorrSparseArray)).sum +
        ((theoreticalBins params (modMass / k) (ki.yIons.getD k []) ionCount).map
          (directIntensity s.xCorrSparseArray)).sum)).sum) := by
  have hrow : ∀ k ∈ kernelCharges s.charge, ∀ row ∈ [ki.bIons.getD k [], ki.yIons.getD k []],
      ∀ d, ratchetSeries s.xCorrSparseArray
        (theoreticalBins params (modMass / k) row ionCount) 0 d
        = some (d + ((theoreticalBins params (modMass / k) row ionCount).map
            (directIntensity s.xCorrSparseArray)).sum) := by
    intro k hk row hr d
    obtain ⟨h1, h2⟩ := hrows k hk row hr
    exact ratchetSeries_start _ hs _ d h1 (fun j hj => (h2 j hj).1) (fun j hj => (h2 j hj).2)
  refine ⟨hrow, ?_⟩
  unfold xCorrRaw
  rw [xCorrLoop_add params s ki ionCount modMass (fun k : Nat =>
        ((theoreticalBins params (modMass / k) (ki.bIons.getD k []) ionCount).map
          (directIntensity s.xCorrSparseArray)).sum +
        ((theoreticalBins params (modMass / k) (ki.yIons.getD k []) ionCount).map
          (directIntensity s.xCorrSparseArray)).sum)]
  · rw [zero_add]
  · intro k hk d
    unfold xCorrCharge
    rw [hrow k hk _ (by simp) d, Option.some_bind, hrow k hk _ (by simp)]
    rw [add_assoc]

/-- C19 at a concrete input: bins of width 1, a spectrum of charge 3 (charges 1 and 2),
two ions per ladder, one of them negative; the total before scaling is 19. -/
theorem C19_witness :
    xCorrRaw seriesParams ratchetSpectrum ratchetIons 2 100 = some 19 ∧
    (((kernelCharges ratchetSpectrum.charge).map (fun k : Nat =>
        ((theoreticalBins seriesParams (100 / k) (ratchetIons.bIons.getD k []) 2).map
          (directIntensity ratchetSpectrum.xCorrSparseArray)).sum +
        ((theoreticalBins seriesParams (100 / k) (ratchetIons.yIons.getD k []) 2).map
          (directIntensity ratchetSpectrum.xCorrSparseArray)).sum)).sum) = 19 ∧
    xCorrRaw seriesParams ratchetSpectrum ratchetIons 2 100 = some
      (((kernelCharges ratchetSpectrum.charge).map (fun k : Nat =>
        ((theoreticalBins seriesParams (100 / k) (ratchetIons.bIons.getD k []) 2).map
          (directIntensity ratchetSpectrum.xCorrSparseArray)).sum +
        ((theoreticalBins seriesParams (100 / k) (ratchetIons.yIons.getD k []) 2).map
          (directIntensity ratchetSpectrum.xCorrSparseArray)).sum)).sum) :=
  ⟨by decide!, by decide!,
    (C19_ratchet_equals_direct_lookup seriesParams ratchetSpectrum ratchetIons 2 100
      (by decide) (by decide!)).2⟩

/-- C18 fails on the code: `xCorrScoring` never reads `params.ionSeries`. With the a
series as the only enabled series, the total before scaling is 19, the sum of the
intensities looked up for the b and y ions at the charges 1 and 2; the ions of the a
series, whose looked-up intensities sum to 16, add nothing; and every other choice of
the six flags gives the same total. -/
theorem C18_xcorr_ignores_series_flags :
    seriesParams.ionSeries 0 = true ∧ (∀ t, t ≠ 0 → seriesParams.ionSeries t = false) ∧
    xCorrRaw seriesParams ratchetSpectrum ratchetIons 2 100 = some 19 ∧
    ((kernelCharges ratchetSpectrum.charge).map (fun k : Nat =>
      ((theoreticalBins seriesParams (100 / k) (ratchetIons.aIons.getD k []) 2).map
        (directIntensity ratchetSpectrum.xCorrSparseArray)).sum)).sum = 16 ∧
    ((kernelCharges ratchetSpectrum.charge).map (fun k : Nat =>
      ((theoreticalBins seriesParams (100 / k) (ratchetIons.bIons.getD k []) 2).map
        (directIntensity ratchetSpectrum.xCorrSparseArray)).sum +
      ((theoreticalBins seriesParams (100 / k) (ratchetIons.yIons.getD k []) 2).map
        (directIntensity ratchetSpectrum.xCorrSparseArray)).sum)).sum = 19 ∧
    ∀ flags : Nat → Bool,
      xCorrRaw { seriesParams with ionSeries := flags } ratchetSpectrum ratchetIons 2 100
        = some 19 := by
  refine ⟨rfl, fun t ht => by simp [seriesParams, ht], by decide!, by decide!, by decide!, ?_⟩
  intro flags
  have h : xCorrRaw { seriesParams with ionSeries := flags } ratchetSpectrum ratchetIons 2 100
      = xCorrRaw seriesParams ratchetSpectrum ratchetIons 2 100 := rfl
  rw [h]
  decide!

/-- C20. Let, for every enabled series and every charge `i = 1..min(charge,6)-1`, the
first `sz` bins of both match sets be strictly increasing in lexicographic `(key, pos)`
order, with every key of the second list below `kojakBins`. Then the sum that
`sharedScore` accumulates is the sum, over the charges and the enabled series, of
`kojakSparseArray[key][pos]` (0 when the row of `key` is absent) over the `(key, pos)`
pairs present in both lists, and the returned value is 0.005 times that sum when the sum
is positive and 0 otherwise. -/
theorem C20_shared_score_sums_common_bins (params : kParams) (s : KSpectrum)
    (m1 m2 : kMatchSet) (charge : Int)
    (hrows : ∀ i ∈ kernelCharges charge, ∀ t, t < 6 → params.ionSeries t = true →
      (seriesRow m1.sz (seriesOf m1 t i)).Pairwise LexLt ∧
      (seriesRow m2.sz (seriesOf m2 t i)).Pairwise LexLt ∧
      ∀ b ∈ seriesRow m2.sz (seriesOf m2 t i), b.key < s.kojakBins) :
    sharedRaw params s m1 m2 charge = commonTotal params s m1 m2 charge ∧
    sharedScore params s m1 m2 charge =
      if 0 < commonTotal params s m1 m2 charge then
        5 / 1000 * commonTotal params s m1 m2 charge
      else 0 := by
  have hraw : sharedRaw params s m1 m2 charge = commonTotal params s m1 m2 charge := by
    unfold sharedRaw commonTotal
    rw [sharedLoop_add _ (fun i =>
      ((List.range 6).map (fun t =>
        if params.ionSeries t then
          commonIntensity s (seriesRow m1.sz (seriesOf m1 t i)) (seriesRow m2.sz (seriesOf m2 t i))
        else 0)).sum), zero_add]
    intro i hi d
    unfold sharedCharge
    rw [sharedSeries_spec s m1 m2 _ (m1.a i) (m2.a i) d (hrows i hi 0 (by omega)),
      sharedSeries_spec s m1 m2 _ (m1.b i) (m2.b i) _ (hrows i hi 1 (by omega)),
      sharedSeries_spec s m1 m2 _ (m1.c i) (m2.c i) _ (hrows i hi 2 (by omega)),
      sharedSeries_spec s m1 m2 _ (m1.x i) (m2.x i) _ (hrows i hi 3 (by omega)),
      sharedSeries_spec s m1 m2 _ (m1.y i) (m2.y i) _ (hrows i hi 4 (by omega)),
      sharedSeries_spec s m1 m2 _ (m1.z i) (m2.z i) _ (hrows i hi 5 (by omega))]
    simp only [List.range_succ, List.range_zero, List.nil_append, List.cons_append,
      List.map_cons, List.map_nil, List.sum_cons, List.sum_nil, seriesOf]
    ring
  refine ⟨hraw, ?_⟩
  unfold sharedScore
  rw [hraw]
  split_ifs with h1 h2 h2
  · exact absurd h2 (not_lt.mpr h1)
  · rfl
  · ring
  · exact absurd (lt_of_not_le h1) h2

/-- C20 at a concrete input: the shared bins carry the intensities 12, 0 (absent row),
1 and 3; the sum is 16 and the score 0.08. -/
theorem C20_witness :
    commonTotal sharedParams sharedSpectrum sharedSet1 sharedSet2 2 = 16 ∧
    sharedScore sharedParams sharedSpectrum sharedSet1 sharedSet2 2 = 2 / 25 ∧
    (sharedRaw sharedParams sharedSpectrum sharedSet1 sharedSet2 2
      = commonTotal sharedParams sharedSpectrum sharedSet1 sharedSet2 2 ∧
    sharedScore sharedParams sharedSpectrum sharedSet1 sharedSet2 2 =
      if 0 < commonTotal sharedParams sharedSpectrum sharedSet1 sharedSet2 2 then
        5 / 1000 * commonTotal sharedParams sharedSpectrum sharedSet1 sharedSet2 2
      else 0) :=
  ⟨by decide!, by decide!,
    C20_shared_score_sums_common_bins sharedParams sharedSpectrum sharedSet1 sharedSet2 2
      (by decide)⟩

/-- C25. On an in-use vector of length `threads`, the claim step ends in the fatal exit
exactly when every flag is already `true`; otherwise it returns the lowest index `i`
whose flag is `false`, and the new vector is the old one with flag `i` set to `true`
and every other flag unchanged. -/
theorem C25_scratchpad_claim (threads : Nat) (flags : List Bool)
    (hlen : flags.length = threads) :
    (claimScratchpad threads flags = none ↔ ∀ f ∈ flags, f = true) ∧
    ∀ i flags1, claimScratchpad threads flags = some (i, flags1) →
      i < threads ∧ flags.getD i true = false ∧ (∀ k, k < i → flags.getD k true = true) ∧
      flags1 = flags.set i true ∧ flags1.length = threads ∧
      ∀ k, k ≠ i → flags1.getD k true = flags.getD k true := by
  have hspec := claimFrom_spec flags threads 0
  simp only [zero_add, Nat.zero_le, true_implies] at hspec
  constructor
  · unfold claimScratchpad
    constructor
    · intro h
      split_ifs at h with h1
      rcases hspec with ⟨_, _, h3⟩ | ⟨_, h2, _⟩
      · intro f hf
        obtain ⟨k, hk, rfl⟩ := List.getElem_of_mem hf
        have := h3 k (hlen ▸ hk)
        rwa [List.getD_eq_getElem _ _ hk] at this
      · omega
    · intro hall
      rw [if_pos]
      rcases hspec with ⟨h1, _, _⟩ | ⟨_, h2, h3, _⟩
      · exact h1
      · exfalso
        have hk : (claimFrom flags threads 0).1 < flags.length := by omega
        rw [List.getD_eq_getElem _ _ hk] at h3
        have := hall _ (List.getElem_mem hk)
        rw [h3] at this
        exact Bool.false_ne_true this
  · intro i flags1 h
    unfold claimScratchpad at h
    split_ifs at h with h1
    simp only [Option.some.injEq] at h
    rcases hspec with ⟨h2, _, _⟩ | ⟨_, h2, h3, h4, h5⟩
    · exact absurd h2 h1
    · rw [h] at h2 h3 h4 h5
      simp only at h2 h3 h4 h5
      refine ⟨h2, h3, h4, h5, by rw [h5, List.length_set, hlen], ?_⟩
      intro k hk
      rw [h5]
      simp only [List.getD_eq_getElem?_getD, List.getElem?_set]
      rw [if_neg (fun e => hk e.symm)]

/-- C25 at a concrete input: four scratchpads, the first two in use; slot 2 is claimed.
With all four in use the step ends in the fatal exit. -/
theorem C25_witness :
    claimScratchpad 4 [true, true, false, false] = some (2, [true, true, true, false]) ∧
    claimScratchpad 4 [true, true, true, true] = none ∧
    ((claimScratchpad 4 [true, true, false, false] = none ↔
      ∀ f ∈ [true, true, false, false], f = true) ∧
    ∀ i flags1, claimScratchpad 4 [true, true, false, false] = some (i, flags1) →
      i < 4 ∧ [true, true, false, false].getD i true = false ∧
      (∀ k, k < i → [true, true, false, false].getD k true = true) ∧
      flags1 = [true, true, false, false].set i true ∧ flags1.length = 4 ∧
      ∀ k, k ≠ i → flags1.getD k true = [true, true, false, false].getD k true) :=
  ⟨by decide, by decide, C25_scratchpad_claim 4 [true, true, false, false] rfl⟩

/-- C22. Every card that `analyzePeptide` submits is either a single-peptide card
(`k1 = k2 = link = -1`) or a loop-link card: it was scored for two positions
`k < k2 < len - 1` of the sequence, on an ion set built by `buildLoopIons` for these
two positions, and carries `k1 = k` and `k2 = k2`, so `k1 < k2`. -/
theorem C22_loop_link_sites_ordered (env : Stage1Env) (pepSeq : List Char) (p : kPeptide)
    (pepIndex : Int) (crossLink : Bool) (a : Nat) (sc : kScoreCard)
    (h : Stage1Event.checkScore a sc ∈ analyzePeptide env pepSeq p pepIndex crossLink) :
    (sc.k1 = -1 ∧ sc.k2 = -1 ∧ sc.link = -1) ∨
    (∃ (k k2 : Nat) (ion : KIonSet), k < k2 ∧ k2 + 1 < pepSeq.length ∧
      ion ∈ env.loopIons p (env.getLink sc.link).mass k k2 ∧ sc.mass = ion.mass ∧
      sc.k1 = (k : Int) ∧ sc.k2 = (k2 : Int) ∧ sc.k1 < sc.k2) := by
  have hloop : Stage1Event.checkScore a sc ∈ loopLinks env pepSeq p pepIndex crossLink →
      ∃ (k k2 : Nat) (ion : KIonSet), k < k2 ∧ k2 + 1 < pepSeq.length ∧
        ion ∈ env.loopIons p (env.getLink sc.link).mass k k2 ∧ sc.mass = ion.mass ∧
        sc.k1 = (k : Int) ∧ sc.k2 = (k2 : Int) ∧ sc.k1 < sc.k2 := by
    intro he
    obtain ⟨k, x, m, k2, n, ion, a1, sc1, heq, hk, hk2, _, _, _, hion, _, h1, h2, h3, _, _, h6⟩ :=
      loopLinks_sound env pepSeq p pepIndex crossLink _ he
    cases heq
    refine ⟨k, k2, ion, hk, hk2, ?_, h6, h1, h2, ?_⟩
    · rw [h3]; exact hion
    · rw [h1, h2]; omega
  unfold analyzePeptide at h
  split_ifs at h
  · obtain ⟨h1, h2, h3, _⟩ := fullSearch_card env p pepIndex crossLink a sc h
    exact Or.inl ⟨h1, h2, h3⟩
  · rcases List.mem_append.mp h with h | h
    · rcases List.mem_append.mp h with h | h
      · obtain ⟨h1, h2, h3, _⟩ := fullSearch_card env p pepIndex crossLink a sc h
        exact Or.inl ⟨h1, h2, h3⟩
      · exact absurd h (analyzeSinglets_no_card _ _ _ _ _ _ _ _)
    · exact Or.inr (hloop h)

/-- C22 at a concrete input: the loop-link of `KAKAK` between the lysines at positions 0
and 2. -/
theorem C22_witness :
    (analyzePeptide loopEnv "KAKAK".toList loopPeptide 7 true).map eventSites
      = [some (0, 2, 0)] ∧
    ∀ a sc, Stage1Event.checkScore a sc ∈ analyzePeptide loopEnv "KAKAK".toList loopPeptide 7 true →
      (sc.k1 = -1 ∧ sc.k2 = -1 ∧ sc.link = -1) ∨
      (∃ (k k2 : Nat) (ion : KIonSet), k < k2 ∧ k2 + 1 < "KAKAK".toList.length ∧
        ion ∈ loopEnv.loopIons loopPeptide (loopEnv.getLink sc.link).mass k k2 ∧
        sc.mass = ion.mass ∧ sc.k1 = (k : Int) ∧ sc.k2 = (k2 : Int) ∧ sc.k1 < sc.k2) :=
  ⟨by decide!, fun a sc h =>
    C22_loop_link_sites_ordered loopEnv "KAKAK".toList loopPeptide 7 true a sc h⟩

/-- C21. Each of the three kernels returns 0 when its raw sum is at most 0 and 0.005
times the raw sum otherwise, and the returned score is never negative. For
`xCorrScoring` this holds whenever the ratchet stays inside the sparse array (the only
case in which the source returns a defined value). -/
theorem C21_scores_clamped_and_scaled (params : kParams) (s : KSpectrum) (ki : KIonSet)
    (invBinSize : ℚ) (ionCount : Int) (modMass : ℚ) (m1 m2 : kMatchSet) (charge : Int) :
    (xCorrScoring params s ki ionCount modMass =
      (xCorrRaw params s ki ionCount modMass).map (fun d => if d ≤ 0 then 0 else 5 / 1000 * d)) ∧
    (∀ r, xCorrScoring params s ki ionCount modMass = some r → 0 ≤ r) ∧
    (kojakScoring params s ki invBinSize ionCount modMass =
      if kojakRaw params s ki invBinSize ionCount modMass ≤ 0 then 0
      else 5 / 1000 * kojakRaw params s ki invBinSize ionCount modMass) ∧
    0 ≤ kojakScoring params s ki invBinSize ionCount modMass ∧
    (sharedScore params s m1 m2 charge =
      if sharedRaw params s m1 m2 charge ≤ 0 then 0
      else 5 / 1000 * sharedRaw params s m1 m2 charge) ∧
    0 ≤ sharedScore params s m1 m2 charge := by
  refine ⟨?_, ?_, ?_, kojakScoring_nonneg _ _ _ _ _ _, ?_, ?_⟩
  · unfold xCorrScoring
    congr 1
    funext d
    split_ifs
    · rfl
    · ring
  · intro r hr
    unfold xCorrScoring at hr
    cases hraw : xCorrRaw params s ki ionCount modMass with
    | none => simp [hraw] at hr
    | some d =>
      simp only [hraw, Option.map_some', Option.some.injEq] at hr
      rw [← hr]
      split_ifs with h
      · exact le_refl _
      · exact le_of_lt (mul_pos (lt_of_not_le h) (by norm_num))
  · unfold kojakScoring
    split_ifs
    · rfl
    · ring
  · unfold sharedScore
    split_ifs
    · rfl
    · ring
  · unfold sharedScore
    split_ifs with h
    · exact le_refl _
    · exact le_of_lt (mul_pos (lt_of_not_le h) (by norm_num))

/-- C28. For a modification list whose positions lie in `0..ionCount`, the modification
loop of `setBinList` stays inside its two arrays of `ionCount` cells, and for every ion
index `j` in `0..ionCount-1` it leaves in `mod[j]` the sum of the masses of the
modifications at positions `<= j` and in `modRev[j]` the sum of the masses of the
modifications at positions `>= ionCount - j`. These are the shifts that `setBinList`
applies to the forward series a, b, c and to the reverse series x, y, z. -/
theorem C28_modification_accumulators (ionCount : Int) (mods : List kPepMod)
    (hpos : ∀ m ∈ mods, 0 ≤ m.pos ∧ m.pos ≤ ionCount) :
    ∃ md mr, modAccumulators ionCount mods = some (md, mr) ∧
      md.length = ionCount.toNat ∧ mr.length = ionCount.toNat ∧
      ∀ j : Nat, (j : Int) < ionCount →
        md.getD j 0 =
          ((mods.filter (fun m => decide (m.pos ≤ (j : Int)))).map (fun m => m.mass)).sum ∧
        mr.getD j 0 =
          ((mods.filter (fun m => decide (ionCount - (j : Int) ≤ m.pos))).map
            (fun m => m.mass)).sum := by
  obtain ⟨md, mr, h, hl1, hl2, hval⟩ := modFold_spec ionCount mods
    (List.replicate ionCount.toNat 0) (List.replicate ionCount.toNat 0) hpos (by simp) (by simp)
  refine ⟨md, mr, h, hl1, hl2, fun j hj => ?_⟩
  have hj1 : j < ionCount.toNat := by omega
  obtain ⟨h1, h2⟩ := hval j hj1
  rw [h1, h2, List.getD_eq_getElem _ _ (by simpa using hj1), List.getElem_replicate, zero_add,
    zero_add]
  exact ⟨rfl, rfl⟩

/-- C28 at a concrete input: a peptide of five residues (`ionCount = 4`) with
modifications of mass 16 at position 0, 1 at position 2 and 100 at position 4. A
modification at position 5 makes the loop write in front of `modRev`. -/
theorem C28_witness :
    modAccumulators 4 [{ pos := 0, mass := 16 }, { pos := 2, mass := 1 }, { pos := 4, mass := 100 }]
      = some ([16, 16, 17, 17], [100, 100, 101, 101]) ∧
    modAccumulators 4 [{ pos := 5, mass := 16 }] = none ∧
    ∃ md mr, modAccumulators 4
        [{ pos := 0, mass := 16 }, { pos := 2, mass := 1 }, { pos := 4, mass := 100 }]
        = some (md, mr) ∧
      md.length = (4 : Int).toNat ∧ mr.length = (4 : Int).toNat ∧
      ∀ j : Nat, (j : Int) < 4 →
        md.getD j 0 =
          (([{ pos := 0, mass := 16 }, { pos := 2, mass := 1 }, { pos := 4, mass := 100 }].filter
            (fun m : kPepMod => decide (m.pos ≤ (j : Int)))).map (fun m => m.mass)).sum ∧
        mr.getD j 0 =
          (([{ pos := 0, mass := 16 }, { pos := 2, mass := 1 }, { pos := 4, mass := 100 }].filter
            (fun m : kPepMod => decide ((4 : Int) - (j : Int) ≤ m.pos))).map
              (fun m => m.mass)).sum :=
  ⟨by decide!, by decide!, C28_modification_accumulators 4
    [{ pos := 0, mass := 16 }, { pos := 2, mass := 1 }, { pos := 4, mass := 100 }]
    (by decide)⟩

/-- C27. For a scratch list of `sz >= 1` cards in nondecreasing mass order and a target
mass that some card has exactly, `findMass` returns an index inside the list whose card
has exactly the target mass (midpoints by C division, truncating towards zero). -/
theorem C27_findMass_finds_exact_mass (s : List kSingletScoreCardPlus) (target : ℚ)
    (hsorted : s.Pairwise (fun a b => a.mass ≤ b.mass))
    (hex : ∃ c ∈ s, c.mass = target) :
    0 ≤ findMass s s.length target ∧ findMass s s.length target < s.length ∧
    massAt s (findMass s s.length target) = target := by
  obtain ⟨c, hc, hmass⟩ := hex
  obtain ⟨idx, hidx, rfl⟩ := List.getElem_of_mem hc
  have hsz : 0 < s.length := by omega
  have hb := findMass_bounds s s.length target hsz
  refine ⟨hb.1, hb.2, ?_⟩
  unfold findMass
  refine findMassLoop_exact s s.length target ?_ (s.length + 2) 0 _ s.length idx (by omega)
    (by omega) hidx ?_ (le_refl _) (le_refl _) (by simp) (by omega)
  · intro a b hab hb
    unfold massAt
    simp only [Int.toNat_ofNat]
    rw [List.getD_eq_getElem _ _ hb, List.getD_eq_getElem _ _ (by omega : a < s.length)]
    rcases Nat.eq_or_lt_of_le hab with e | e
    · subst e; exact le_refl _
    · exact List.pairwise_iff_getElem.mp hsorted a b (by omega) hb e
  · unfold massAt
    simp only [Int.toNat_ofNat]
    rw [List.getD_eq_getElem _ _ hidx]
    exact hmass

/-- C27 at a concrete input: the two cards of mass 1000 and the card of mass 1500 of
`skipScratch`, searched for 1500. -/
theorem C27_witness :
    findMass skipScratch skipScratch.length 1500 = 2 ∧
    (0 ≤ findMass skipScratch skipScratch.length 1500 ∧
    findMass skipScratch skipScratch.length 1500 < skipScratch.length ∧
    massAt skipScratch (findMass skipScratch skipScratch.length 1500) = 1500) :=
  ⟨by decide!, C27_findMass_finds_exact_mass skipScratch 1500 (by decide!) (by decide!)⟩

/-- C29. In the cross-link pass, (1) a run that ends normally leaves the scratch list
equal to the sorted snapshot with the score of every card processed as template (the
cards that pass the three tests at the head of the template loop) negated and nothing
else changed; (2) no submitted card has a partner that was processed as template before
the card's own template, so a consumed card is skipped as partner; (3) if no score of
the sorted snapshot is negative, the restore loop that follows the pass gives back the
sorted snapshot, every field included. -/
theorem C29_consumed_marking_is_undone (env : RelaxedEnv) (s0 : List kSingletScoreCardPlus) :
    ((crossLinkPass env s0).status = RunStatus.running →
      (crossLinkPass env s0).s = markedUpTo s0 s0.length) ∧
    (∀ c ∈ (crossLinkPass env s0).out, ∃ j n cmv xl P, PairFacts env s0 j n cmv xl P ∧
      c = pairCard env (s0.getD j default) (s0.getD n default) xl P ∧
      (n < j → ¬ IsTemplate (s0.getD n default))) ∧
    ((∀ c ∈ s0, 0 ≤ c.simpleScore) → restoreScores (crossLinkPass env s0).s = s0) :=
  ⟨(crossLinkPass_marked env s0).1, (crossLinkPass_marked env s0).2,
    restoreScores_of_scoreRel (crossLinkPass_scoreRel env s0)⟩

/-- C29 at a concrete input: the three cards of `twinScratch` are all processed as
template, their scores 2, 3, 1 are negated by the pass and restored afterwards. -/
theorem C29_witness :
    (crossLinkPass twinEnv twinScratch).status = RunStatus.running ∧
    (twinScratch.map (fun c => c.simpleScore) = [2, 3, 1]) ∧
    ((crossLinkPass twinEnv twinScratch).s.map (fun c => c.simpleScore) = [-2, -3, -1]) ∧
    restoreScores (crossLinkPass twinEnv twinScratch).s = twinScratch :=
  ⟨by decide!, by decide!, by decide!,
    (C29_consumed_marking_is_undone twinEnv twinScratch).2.2 (by decide!)⟩

/-- C23. Without `dimersNC`, `analyzeRelaxed` submits no card with `link = -2`. In every
case a submitted card with `link = -2` has `k1 = k2 = -1` and pairs two cards `j`, `n` of
the scratch list as the restore loop left it, both with positive score and no link site
(`k1 < 0`); its mass is `j.mass + n.mass` and lies within `ppmPrecursor` ppm of some
precursor mass, and its score is `j.simpleScore*j.len + n.simpleScore*n.len`, with no
deduction. When no score of the sorted snapshot is negative, that scratch list is the
sorted snapshot itself. -/
theorem C23_dimer_pass (env : RelaxedEnv) (dimersNC : Bool)
    (qsort : List kSingletScoreCardPlus → List kSingletScoreCardPlus)
    (snapshot : List kSingletScoreCardPlus) :
    (dimersNC = false → ∀ c ∈ (analyzeRelaxed env dimersNC qsort snapshot).2, c.link ≠ -2) ∧
    (∀ c ∈ (analyzeRelaxed env dimersNC qsort snapshot).2, c.link = -2 →
      dimersNC = true ∧ c.k1 = -1 ∧ c.k2 = -1 ∧
      ∃ sj ∈ restoreScores (crossLinkPass env (qsort snapshot)).s,
      ∃ sn ∈ restoreScores (crossLinkPass env (qsort snapshot)).s,
      ∃ P ∈ env.precursors,
        0 < sj.simpleScore ∧ sj.k1 < 0 ∧ 0 < sn.simpleScore ∧ sn.k1 < 0 ∧
        c.mass = sj.mass + sn.mass ∧
        |(c.mass - P.monoMass) / P.monoMass * 1000000| ≤ env.ppmPrecursor ∧
        c.simpleScore = sj.simpleScore * sj.len + sn.simpleScore * sn.len ∧
        c.rank1 = sj.rank ∧ c.rank2 = sn.rank) ∧
    ((∀ c ∈ qsort snapshot, 0 ≤ c.simpleScore) →
      restoreScores (crossLinkPass env (qsort snapshot)).s = qsort snapshot) := by
  have hcross : ∀ c ∈ (crossLinkPass env (qsort snapshot)).out, c.link ≠ -2 := by
    intro c hc
    obtain ⟨j, n, cmv, xl, P, hf, rfl⟩ := crossLinkPass_recorded env _ c hc
    have := hf.xlNonneg
    show xl ≠ -2
    omega
  refine ⟨?_, ?_, restoreScores_of_scoreRel (crossLinkPass_scoreRel env _)⟩
  · intro hd c hc
    unfold analyzeRelaxed at hc
    split_ifs at hc with h1
    · exact hcross c hc
    · exact hcross c hc
  · intro c hc hlink
    unfold analyzeRelaxed at hc
    split_ifs at hc with h1 h2
    · exact absurd hlink (hcross c hc)
    · exact absurd hlink (hcross c hc)
    · rcases List.mem_append.mp hc with hc | hc
      · exact absurd hlink (hcross c hc)
      · obtain ⟨j, n, P, hj, hn, hP, h3, h4, h5, h6, h7, rfl⟩ := dimerPass_facts env _ c hc
        refine ⟨by simpa using h2, rfl, rfl, _, ?_, _, ?_, P, hP, h3, h4, h5, h6, rfl, h7, rfl,
          rfl, rfl⟩
        · rw [List.getD_eq_getElem _ _ hj]; exact List.getElem_mem _
        · rw [List.getD_eq_getElem _ _ hn]; exact List.getElem_mem _

/-- C23 at a concrete input: two cards without link site whose masses 1000 and 1138 sum
to the precursor mass 2138; with `dimersNC` one card with `link = -2` and score
`2*7 + 3*7 = 35` is submitted, without it none. -/
theorem C23_witness :
    ((analyzeRelaxed pairEnv true tieKeepingSort dimerScratch).2.map
      (fun c => (c.rank1, c.rank2, c.link, c.k1, c.k2)) = [(0, 1, -2, -1, -1)]) ∧
    ((analyzeRelaxed pairEnv true tieKeepingSort dimerScratch).2.map
      (fun c => (c.mass, c.simpleScore)) = [(2138, 35)]) ∧
    (analyzeRelaxed pairEnv false tieKeepingSort dimerScratch).2 = [] ∧
    ∀ c ∈ (analyzeRelaxed pairEnv true tieKeepingSort dimerScratch).2, c.link = -2 →
      true = true ∧ c.k1 = -1 ∧ c.k2 = -1 ∧
      ∃ sj ∈ restoreScores (crossLinkPass pairEnv (tieKeepingSort dimerScratch)).s,
      ∃ sn ∈ restoreScores (crossLinkPass pairEnv (tieKeepingSort dimerScratch)).s,
      ∃ P ∈ pairEnv.precursors,
        0 < sj.simpleScore ∧ sj.k1 < 0 ∧ 0 < sn.simpleScore ∧ sn.k1 < 0 ∧
        c.mass = sj.mass + sn.mass ∧
        |(c.mass - P.monoMass) / P.monoMass * 1000000| ≤ pairEnv.ppmPrecursor ∧
        c.simpleScore = sj.simpleScore * sj.len + sn.simpleScore * sn.len ∧
        c.rank1 = sj.rank ∧ c.rank2 = sn.rank :=
  ⟨by decide!, by decide!, by decide!,
    (C23_dimer_pass pairEnv true tieKeepingSort dimerScratch).2.1⟩

/-- C24, as the code has it. The snapshot is sorted by the library routine `qsort` with a
comparator that looks at the mass only. Whatever routine meets the contract of `qsort`,
the scratch list after the sort is a permutation of the snapshot in nondecreasing mass
order, and every card with a non-positive score has mass 0. The order of cards of equal
mass is the one the library routine happens to produce. -/
theorem C24_sort_gives_sorted_permutation (xlTable : Char → Nat → Int) (db : KDatabase)
    (decoy : String) (singlets : List kSingletScoreCard)
    (snapshot : List kSingletScoreCardPlus)
    (qsort : List kSingletScoreCardPlus → List kSingletScoreCardPlus)
    (hq : QsortContract qsort)
    (hsnap : snapshotFrom xlTable db decoy 0 singlets = some snapshot) :
    (qsort snapshot).Perm snapshot ∧
    (qsort snapshot).Pairwise (fun a b => a.mass ≤ b.mass) ∧
    ∀ c ∈ qsort snapshot, c.simpleScore ≤ 0 → c.mass = 0 := by
  obtain ⟨h1, h2⟩ := hq snapshot
  refine ⟨h1, List.Pairwise.imp (fun {a b} hab => (compareSSCPlus_le a b).mp hab) h2, ?_⟩
  intro c hc
  exact snapshotFrom_mass xlTable db decoy singlets 0 snapshot hsnap c (h1.subset hc)

/-- C24 at a concrete input: three cards of mass 400, 400 and 300 sorted by a routine
that reverses ties. -/
theorem C24_witness :
    (sortSnapshot.map (fun c => (c.rank, c.mass)) = [(0, 400), (1, 400), (2, 300)]) ∧
    ((tieReversingSort sortSnapshot).Perm sortSnapshot ∧
    (tieReversingSort sortSnapshot).Pairwise (fun a b => a.mass ≤ b.mass) ∧
    ∀ c ∈ tieReversingSort sortSnapshot, c.simpleScore ≤ 0 → c.mass = 0) :=
  ⟨by decide!, C24_sort_gives_sorted_permutation termTable termDb "rev_" sortSinglets
    sortSnapshot tieReversingSort tieReversingSort_contract (by decide!)⟩

/-- C24 as stated fails: the comparator returns 0 for cards of equal mass and `qsort`
leaves the order of such cards open. Two routines that both meet the contract of
`qsort` sort the snapshot with masses 400, 400, 300 (ranks 0, 1, 2) differently: one
keeps the cards of mass 400 in snapshot order, the other puts rank 1 before rank 0. -/
theorem C24_equal_masses_may_swap :
    snapshotFrom termTable termDb "rev_" 0 sortSinglets = some sortSnapshot ∧
    (sortSnapshot.map (fun c => (c.rank, c.mass)) = [(0, 400), (1, 400), (2, 300)]) ∧
    QsortContract tieKeepingSort ∧ QsortContract tieReversingSort ∧
    ((tieKeepingSort sortSnapshot).map (fun c => c.rank) = [2, 0, 1]) ∧
    ((tieReversingSort sortSnapshot).map (fun c => c.rank) = [2, 1, 0]) :=
  ⟨by decide!, by decide!, tieKeepingSort_contract, tieReversingSort_contract, by decide!,
    by decide!⟩

/-- C32. For every array of `sz >= 1` cards, sorted or not, and every target mass, the
run of `findMass` with checked reads ends within `sz + 2` turns of its loop, at no read
outside the array, with the index that `findMass` returns, and this index lies in
`[0, sz-1]`; midpoints are computed with C division, so `(0 + -1)/2 = 0`. -/
theorem C32_findMass_safe_and_total (s : List kSingletScoreCardPlus) (sz : Nat) (mass : ℚ)
    (hsz : 1 ≤ sz) (hlen : s.length = sz) :
    findMassChecked s sz mass (sz + 2) 0 (Int.tdiv sz 2) sz =
      SearchRun.found (findMass s sz mass) ∧
    0 ≤ findMass s sz mass ∧ findMass s sz mass ≤ (sz : Int) - 1 ∧
    Int.tdiv (0 + -1) 2 = 0 := by
  have hb := findMass_bounds s sz mass (by omega)
  have ht : Int.tdiv (sz : Int) 2 = (sz : Int) / 2 := Int.tdiv_eq_ediv (by omega) (by norm_num)
  refine ⟨?_, hb.1, by omega, by decide⟩
  unfold findMass
  exact findMassChecked_eq s sz mass hlen (sz + 2) 0 _ sz (le_refl _) (by omega) (le_refl _)
    (by simp) (by rw [ht]; omega) (by omega)

/-- C32 at a concrete input: four cards with the masses 900, 100, 700, 300, not sorted,
searched for the mass 50, which none of them has; the search descends to `upper = -1`
and returns index 0. -/
theorem C32_witness :
    findMass unsortedScratch 4 50 = 0 ∧
    (findMassChecked unsortedScratch 4 50 (4 + 2) 0 (Int.tdiv 4 2) 4 =
      SearchRun.found (findMass unsortedScratch 4 50) ∧
    0 ≤ findMass unsortedScratch 4 50 ∧ findMass unsortedScratch 4 50 ≤ (4 : Int) - 1 ∧
    Int.tdiv (0 + -1) 2 = 0) :=
  ⟨by decide!, C32_findMass_safe_and_total unsortedScratch 4 50 (by decide) (by decide)⟩

/-- C33. For a scratch list of `sz >= 1` cards in nondecreasing mass order and every
target mass, the index `r` that `findMass` returns is a boundary: every card in front of
`r` has a mass of at most the target and every card behind `r` has a mass of at least
the target. -/
theorem C33_findMass_returns_boundary (s : List kSingletScoreCardPlus) (target : ℚ)
    (hsz : 1 ≤ s.length) (hsorted : s.Pairwise (fun a b => a.mass ≤ b.mass)) :
    (∀ i : Nat, (i : Int) < findMass s s.length target → massAt s (i : Int) ≤ target) ∧
    (∀ i : Nat, findMass s s.length target < (i : Int) → i < s.length →
      target ≤ massAt s (i : Int)) := by
  have ht : Int.tdiv (s.length : Int) 2 = (s.length : Int) / 2 :=
    Int.tdiv_eq_ediv (by omega) (by norm_num)
  unfold findMass
  exact findMassLoop_boundary s s.length target (massAt_sorted s hsorted) (s.length + 2) 0 _
    s.length (le_refl _) (by omega) (le_refl _) (by simp) (by rw [ht]; omega) (by omega)
    (fun i hi => by omega) (fun i hi hlt => by omega)

/-- C33 at a concrete input: the cards of `skipScratch` (masses 1000, 1000, 1500)
searched for the mass 1200, which no card has; the search returns index 1, between the
cards that are lighter and the card that is heavier than the target. -/
theorem C33_witness :
    skipScratch.map (fun c => c.mass) = [1000, 1000, 1500] ∧
    findMass skipScratch skipScratch.length 1200 = 1 ∧
    ((∀ i : Nat, (i : Int) < findMass skipScratch skipScratch.length 1200 →
        massAt skipScratch (i : Int) ≤ 1200) ∧
    (∀ i : Nat, findMass skipScratch skipScratch.length 1200 < (i : Int) →
        i < skipScratch.length → 1200 ≤ massAt skipScratch (i : Int))) :=
  ⟨by decide!, by decide!,
    C33_findMass_returns_boundary skipScratch 1200 (by decide) (by decide!)⟩

/-- C35. For every spectrum, charge, ion-series setting and pair of match sets, of equal
size or not, `sharedScore` gives the same value when its two bin lists are exchanged. -/
theorem C35_sharedScore_symmetric (params : kParams) (s : KSpectrum) (m1 m2 : kMatchSet)
    (charge : Int) :
    sharedScore params s m1 m2 charge = sharedScore params s m2 m1 charge := by
  unfold sharedScore
  rw [sharedRaw_comm params s m1 m2 charge]

/-- C31. There are two match sets whose b lists are not sorted by `(key, pos)` and share
the bin `(3, 0)`, which lies below `kojakBins` and has the positive intensity 1 in the
spectrum, such that `sharedScore` does not count this bin: it returns 0, less than 0.005
times the intensity sum over the common bins, which is 0.005. -/
theorem C31_unsorted_lists_miss_common_bin :
    ∃ (params : kParams) (s : KSpectrum) (m1 m2 : kMatchSet) (charge : Int) (t i : Nat)
      (b : kMatchBin),
      i ∈ kernelCharges charge ∧ t < 6 ∧ params.ionSeries t = true ∧
      ¬ (seriesRow m1.sz (seriesOf m1 t i)).Pairwise LexLt ∧
      ¬ (seriesRow m2.sz (seriesOf m2 t i)).Pairwise LexLt ∧
      b ∈ seriesRow m1.sz (seriesOf m1 t i) ∧ b ∈ seriesRow m2.sz (seriesOf m2 t i) ∧
      b.key < s.kojakBins ∧ 0 < binIntensity s b ∧
      commonTotal params s m1 m2 charge = binIntensity s b ∧
      sharedScore params s m1 m2 charge = 0 ∧
      sharedScore params s m1 m2 charge < 5 / 1000 * commonTotal params s m1 m2 charge :=
  ⟨bOnlyParams, sharedSpectrum, unsortedSet1, unsortedSet2, 2, 1, 1, { key := 3, pos := 0 },
    by decide, by decide, by decide, by decide, by decide, by decide, by decide, by decide,
    by decide!, by decide!, by decide!, by decide!⟩

/-- C34. The cross-link pass of `analyzeRelaxed` ends for every scratch list, motif and
linker table, precursor list and parameter setting: (1) the motif loop never uses up its
budget of `21 * (count + 1)` turns per template, although (5) every recorded card leaves
the loop variable `i` at the `modLen` of the partner; (2) a turn of the upward walk that
stays in the loop ends with `n + 1`, (3) a turn of the downward walk with `n - 1`; (4) the
walks run with their variable `n` from any start index end within `count - index + 1`
and `index + 1` loop tests and do what the pass does on the indices `index .. count-1`
and `index-1 .. 0`. -/
theorem C34_crosslink_pass_terminates (env : RelaxedEnv) (s : List kSingletScoreCardPlus) :
    (crossLinkPass env s).status ≠ RunStatus.exhausted ∧
    (∀ (j : Nat) (cmv xl : Int) (P : kPrecursor) (n : Int) (st : RelaxedState) (n1 : Int),
      (walkUpTurn env j cmv xl P n st).1 = some n1 → n1 = n + 1) ∧
    (∀ (j : Nat) (cmv xl : Int) (P : kPrecursor) (n : Int) (st : RelaxedState) (n1 : Int),
      (walkDownTurn env j cmv xl P n st).1 = some n1 → n1 = n - 1) ∧
    (∀ (j : Nat) (cmv xl : Int) (P : kPrecursor) (st : RelaxedState) (index : Nat),
      walkUpLoop env j cmv xl P st.s.length (st.s.length - index + 1) (index : Int) st =
        walkUp env j cmv xl P (upIndices st.s.length (index : Int)) st ∧
      walkDownLoop env j cmv xl P (index + 1) ((index : Int) - 1) st =
        walkDown env j cmv xl P (downIndices (index : Int)) st) ∧
    (∀ (j n : Nat) (xl : Int) (P : kPrecursor) (st : RelaxedState),
      (recordPair env j n xl P st).i = (modsOfRank env (st.s.getD n default).rank).length) :=
  ⟨crossLinkPass_not_exhausted env s,
    fun j cmv xl P n st n1 h => walkUpTurn_next env j cmv xl P n st n1 h,
    fun j cmv xl P n st n1 h => walkDownTurn_next env j cmv xl P n st n1 h,
    fun j cmv xl P st index =>
      ⟨walkUpLoop_eq env j cmv xl P st.s.length _ index st rfl,
        walkDownLoop_eq env j cmv xl P index st⟩,
    fun _ _ _ _ _ => rfl⟩

/-- C34 at a concrete input: template card 0 of `skipScratch` has two motif cells. In
the turn for cell 1 the pair (0, 2) is recorded and the copy loops leave `i = 0`, so the
turn for cell 1 is made a second time; three turns of the motif loop are not enough,
four end it, and the pass ends normally with the two pairs. -/
theorem C34_witness :
    (motifLoop skipEnvUnmodified 0 3
      { s := skipScratch, i := 0, matched := [], out := [],
        status := RunStatus.running }).status = RunStatus.exhausted ∧
    (motifLoop skipEnvUnmodified 0 4
      { s := skipScratch, i := 0, matched := [], out := [],
        status := RunStatus.running }).status = RunStatus.running ∧
    (crossLinkPass skipEnvUnmodified skipScratch).out.map (fun c => (c.rank1, c.rank2, c.link))
      = [(0, 1, 0), (0, 2, 1)] ∧
    (crossLinkPass skipEnvUnmodified skipScratch).status = RunStatus.running ∧
    (crossLinkPass skipEnvUnmodified skipScratch).status ≠ RunStatus.exhausted :=
  ⟨by decide!, by decide!, by decide!, by decide!,
    (C34_crosslink_pass_terminates skipEnvUnmodified skipScratch).1⟩

/-- C36. For peptides of at most 128 residues, where the cast `(char)i` keeps every
position: (1) every card that `scoreSpectra` submits carries as `mods1`, when `difMass`
of the ion set is not zero, one modification `(pos = i, mass = mods[i])` for each
position `i` in `0 .. len-1` with `mods[i] != 0`, in ascending position order, and no
modification when `difMass = 0`; (2) the card that `scoreSingletSpectra` submits carries
the same list taken over the positions `0 .. len-2` only (`getIonCount`), so every
recorded position is below `len-1`, and no modification when `difMass = 0`; (3) every
card that `analyzeRelaxed` submits carries the modification lists of the two singlet
cards of its ranks, so when such a singlet card is the one submitted by
`scoreSingletSpectra`, the card has no modification at position `len-1` on that side. -/
theorem C36_modification_lists (env1 : Stage1Env) (len : Int) (index : List Nat)
    (ion : KIonSet) (modMass : ℚ) (linkable : Bool) (pep1 pep2 k1 k2 link : Int)
    (precursors : List kPrecursor) (call : SingletCall) (env : RelaxedEnv) (dimersNC : Bool)
    (qsort : List kSingletScoreCardPlus → List kSingletScoreCardPlus)
    (snapshot : List kSingletScoreCardPlus)
    (hlen : len ≤ 128) (hcall : call.len ≤ 128) :
    (∀ a sc, Stage1Event.checkScore a sc ∈
        scoreSpectra env1 len index ion modMass linkable pep1 pep2 k1 k2 link →
      sc.mods1 = if ion.difMass ≠ 0 then recordedMods ion.mods len.toNat else []) ∧
    (∀ idx card, scoreSingletSpectra env1 precursors call = some (idx, card) →
      card.mods = (if call.ion.difMass ≠ 0 then
          recordedMods call.ion.mods (call.len - 1).toNat else []) ∧
      ∀ m ∈ card.mods, m.pos < call.len - 1) ∧
    (∀ c ∈ (analyzeRelaxed env dimersNC qsort snapshot).2,
      c.mods1 = (env.singlets.getD c.rank1.toNat default).mods ∧
      c.mods2 = (env.singlets.getD c.rank2.toNat default).mods ∧
      (∀ idx, scoreSingletSpectra env1 precursors call =
          some (idx, env.singlets.getD c.rank1.toNat default) →
        ∀ m ∈ c.mods1, m.pos < call.len - 1) ∧
      (∀ idx, scoreSingletSpectra env1 precursors call =
          some (idx, env.singlets.getD c.rank2.toNat default) →
        ∀ m ∈ c.mods2, m.pos < call.len - 1)) := by
  have hsing : ∀ idx card, scoreSingletSpectra env1 precursors call = some (idx, card) →
      card.mods = (if call.ion.difMass ≠ 0 then
          recordedMods call.ion.mods (call.len - 1).toNat else []) ∧
      ∀ m ∈ card.mods, m.pos < call.len - 1 := by
    intro idx card h
    unfold scoreSingletSpectra at h
    split_ifs at h with hs
    simp only [Option.some.injEq, Prod.mk.injEq] at h
    obtain ⟨_, rfl⟩ := h
    have e : singletMods call = (if call.ion.difMass ≠ 0 then
        recordedMods call.ion.mods (call.len - 1).toNat else []) := by
      unfold singletMods getIonCount
      split_ifs with hd
      · exact collectMods_recorded _ _ (by omega)
      · rfl
    refine ⟨e, ?_⟩
    intro m hm
    simp only [] at hm
    rw [e] at hm
    split_ifs at hm with hd
    · have := recordedMods_pos _ _ m hm
      omega
    · exact absurd hm (List.not_mem_nil _)
  refine ⟨?_, hsing, ?_⟩
  · intro a sc h
    unfold scoreSpectra at h
    obtain ⟨b, _, hb⟩ := List.mem_map.mp h
    simp only [Stage1Event.checkScore.injEq] at hb
    obtain ⟨_, rfl⟩ := hb
    show cardMods len ion = _
    unfold cardMods
    split_ifs with hd
    · exact collectMods_recorded _ _ (by omega)
    · rfl
  · intro c hc
    obtain ⟨h1, h2⟩ := analyzeRelaxed_mods env dimersNC qsort snapshot c hc
    refine ⟨h1, h2, ?_, ?_⟩
    · intro idx h m hm
      rw [h1] at hm
      exact (hsing idx _ h).2 m hm
    · intro idx h m hm
      rw [h2] at hm
      exact (hsing idx _ h).2 m hm

/-- C36 at a concrete input: a peptide of four residues with modifications on the second
and on the last residue. The card of `scoreSpectra` lists both, the singlet card only the
one on the second residue, and so does the cross-link card built from that singlet card. -/
theorem C36_witness :
    cardMods 4 lastModIon = [{ pos := 1, mass := 16 }, { pos := 3, mass := 80 }] ∧
    singletMods lastModCall = [{ pos := 1, mass := 16 }] ∧
    scoreSingletSpectra storeEnv lastModEnv.precursors lastModCall =
      some (3, lastModEnv.singlets.getD 0 default) ∧
    (analyzeRelaxed lastModEnv false tieKeepingSort lastModScratch).2.map
      (fun c => (c.rank1, c.rank2, c.mods1, c.mods2)) =
      [(0, 1, [{ pos := 1, mass := 16 }], [])] ∧
    (∀ idx card, scoreSingletSpectra storeEnv lastModEnv.precursors lastModCall =
        some (idx, card) →
      card.mods = (if lastModCall.ion.difMass ≠ 0 then
          recordedMods lastModCall.ion.mods (lastModCall.len - 1).toNat else []) ∧
      ∀ m ∈ card.mods, m.pos < lastModCall.len - 1) :=
  ⟨by decide!, by decide!, by decide!, by decide!,
    (C36_modification_lists storeEnv 4 [3] lastModIon 0 true 0 (-1) (-1) (-1) (-1)
      lastModEnv.precursors lastModCall lastModEnv false tieKeepingSort lastModScratch
      (by decide) (by decide)).2.1⟩

/-- C5. Let the singlet table of the spectrum hold only cards submitted by
`scoreSingletSpectra`, and let the scratch list be its snapshot sorted by `qsort`. Then
every card that the cross-link pass submits pairs a template `sj` and a partner `sn` of
the snapshot, and for a precursor `P` of the spectrum its score is
`sj.simpleScore*sj.len + sn.simpleScore*sn.len` minus `sharedScore` of the bin lists that
`setBinList` builds for `sj` and for `sn` (charge of `P`, offset `P.monoMass - mass`,
modifications of the singlet card of the same rank), with
`score1 = sj.simpleScore*sj.len` and `score2 = sn.simpleScore*sn.len`; the scores and
lengths are those of the singlet cards of rank `sj.rank` and `sn.rank`, and both scores
are positive. -/
theorem C5_crosslink_combined_score (xlTable : Char → Nat → Int) (db : KDatabase)
    (decoy : String) (env : RelaxedEnv)
    (qsort : List kSingletScoreCardPlus → List kSingletScoreCardPlus)
    (snapshot : List kSingletScoreCardPlus)
    (hq : QsortContract qsort) (hsub : SubmittedSinglets env.singlets)
    (hsnap : snapshotFrom xlTable db decoy 0 env.singlets = some snapshot) :
    ∀ c ∈ (crossLinkPass env (qsort snapshot)).out,
      ∃ sj ∈ snapshot, ∃ sn ∈ snapshot, ∃ P ∈ env.precursors,
        c.rank1 = (sj.rank : Int) ∧ c.rank2 = (sn.rank : Int) ∧
        sj.simpleScore = (env.singlets.getD sj.rank default).simpleScore ∧
        sj.len = (env.singlets.getD sj.rank default).len ∧
        sn.simpleScore = (env.singlets.getD sn.rank default).simpleScore ∧
        sn.len = (env.singlets.getD sn.rank default).len ∧
        0 < sj.simpleScore ∧ 0 < sn.simpleScore ∧
        c.score1 = sj.simpleScore * sj.len ∧ c.score2 = sn.simpleScore * sn.len ∧
        c.simpleScore = sj.simpleScore * sj.len + sn.simpleScore * sn.len -
          env.sharedScore
            (env.setBinList sj P.charge (P.monoMass - sj.mass)
              (env.singlets.getD sj.rank default).mods)
            (env.setBinList sn P.charge (P.monoMass - sn.mass)
              (env.singlets.getD sn.rank default).mods)
            P.charge := by
  intro c hc
  obtain ⟨j, n, cmv, xl, P, hf, rfl⟩ := crossLinkPass_recorded env _ c hc
  have hjmem : (qsort snapshot).getD j default ∈ qsort snapshot := by
    rw [List.getD_eq_getElem _ _ hf.jlt]; exact List.getElem_mem _
  have hnmem : (qsort snapshot).getD n default ∈ qsort snapshot := by
    rw [List.getD_eq_getElem _ _ hf.nlt]; exact List.getElem_mem _
  obtain ⟨j1, j2, j3, j4⟩ :=
    sortedSnapshot_scores xlTable db decoy env.singlets qsort snapshot hq hsub hsnap _ hjmem
  obtain ⟨n1, n2, n3, n4⟩ :=
    sortedSnapshot_scores xlTable db decoy env.singlets qsort snapshot hq hsub hsnap _ hnmem
  exact ⟨_, j1, _, n1, P, hf.prec, rfl, rfl, j3, j4, n3, n4, j2, n2, rfl, rfl, rfl⟩

/-- C5 at a concrete input: the table `pipeSinglets` (scores 1/5 and 1/4, lengths 5 and
4) over `termDb`; the pass pairs rank 1 with rank 0, the shared-ion kernel gives 4/25 for
their bin lists and the card has the score `1 + 1 - 4/25`. -/
theorem C5_witness :
    sharedScore sharedParams sharedSpectrum sharedSet2 sharedSet1 3 = 4 / 25 ∧
    (crossLinkPass pipeEnv (tieKeepingSort pipeSnapshot)).out.map
      (fun c => (c.rank1, c.rank2, c.simpleScore, c.score1, c.score2)) =
      [(1, 0, 46 / 25, 1, 1)] ∧
    ∀ c ∈ (crossLinkPass pipeEnv (tieKeepingSort pipeSnapshot)).out,
      ∃ sj ∈ pipeSnapshot, ∃ sn ∈ pipeSnapshot, ∃ P ∈ pipeEnv.precursors,
        c.rank1 = (sj.rank : Int) ∧ c.rank2 = (sn.rank : Int) ∧
        sj.simpleScore = (pipeEnv.singlets.getD sj.rank default).simpleScore ∧
        sj.len = (pipeEnv.singlets.getD sj.rank default).len ∧
        sn.simpleScore = (pipeEnv.singlets.getD sn.rank default).simpleScore ∧
        sn.len = (pipeEnv.singlets.getD sn.rank default).len ∧
        0 < sj.simpleScore ∧ 0 < sn.simpleScore ∧
        c.score1 = sj.simpleScore * sj.len ∧ c.score2 = sn.simpleScore * sn.len ∧
        c.simpleScore = sj.simpleScore * sj.len + sn.simpleScore * sn.len -
          pipeEnv.sharedScore
            (pipeEnv.setBinList sj P.charge (P.monoMass - sj.mass)
              (pipeEnv.singlets.getD sj.rank default).mods)
            (pipeEnv.setBinList sn P.charge (P.monoMass - sn.mass)
              (pipeEnv.singlets.getD sn.rank default).mods)
            P.charge :=
  ⟨by decide!, by decide!,
    C5_crosslink_combined_score termTable termDb "rev_" pipeEnv tieKeepingSort pipeSnapshot
      tieKeepingSort_contract pipeSinglets_submitted pipeSnapshot_eq⟩

/-- C30. Every card that the cross-link pass submits has a partner whose score in the
scratch list is not negative and which has a link site. When the singlet table of the
spectrum holds only cards submitted by `scoreSingletSpectra` and the scratch list is its
snapshot sorted by `qsort`, no score of the scratch list is `0`, so the partner `sn` of
every submitted card has `simpleScore > 0` and `k1 >= 0`; the card carries them as
`k2 = sn.k1` and `score2 = sn.simpleScore*sn.len`, and `sn` was not processed as
template before the template of the card, so its score was not negated either. -/
theorem C30_partner_has_score_and_site (xlTable : Char → Nat → Int) (db : KDatabase)
    (decoy : String) (env : RelaxedEnv)
    (qsort : List kSingletScoreCardPlus → List kSingletScoreCardPlus)
    (snapshot : List kSingletScoreCardPlus)
    (hq : QsortContract qsort) (hsub : SubmittedSinglets env.singlets)
    (hsnap : snapshotFrom xlTable db decoy 0 env.singlets = some snapshot) :
    (∀ c ∈ qsort snapshot, c.simpleScore ≠ 0) ∧
    ∀ c ∈ (crossLinkPass env (qsort snapshot)).out, ∃ (j n : Nat),
      j < (qsort snapshot).length ∧ n < (qsort snapshot).length ∧
      c.rank1 = (((qsort snapshot).getD j default).rank : Int) ∧
      c.rank2 = (((qsort snapshot).getD n default).rank : Int) ∧
      0 < ((qsort snapshot).getD n default).simpleScore ∧
      0 ≤ ((qsort snapshot).getD n default).k1 ∧
      c.k2 = ((qsort snapshot).getD n default).k1 ∧
      c.score2 = ((qsort snapshot).getD n default).simpleScore *
        ((qsort snapshot).getD n default).len ∧
      (n < j → ¬ IsTemplate ((qsort snapshot).getD n default)) := by
  have hpos := sortedSnapshot_scores xlTable db decoy env.singlets qsort snapshot hq hsub hsnap
  refine ⟨fun c hc => ne_of_gt (hpos c hc).2.1, ?_⟩
  intro c hc
  obtain ⟨j, n, cmv, xl, P, hf, rfl, hun⟩ := (crossLinkPass_marked env _).2 c hc
  have hnmem : (qsort snapshot).getD n default ∈ qsort snapshot := by
    rw [List.getD_eq_getElem _ _ hf.nlt]; exact List.getElem_mem _
  exact ⟨j, n, hf.jlt, hf.nlt, rfl, rfl, (hpos _ hnmem).2.1, hf.pSite, rfl, rfl, hun⟩

/-- C30 at a concrete input: the sorted snapshot of `pipeSinglets`; the one card
submitted has the partner of rank 0, with score 1/5 and link site 0. -/
theorem C30_witness :
    (tieKeepingSort pipeSnapshot).map (fun c => (c.rank, c.simpleScore, c.k1)) =
      [(1, 1 / 4, 3), (0, 1 / 5, 0)] ∧
    (crossLinkPass pipeEnv (tieKeepingSort pipeSnapshot)).out.map
      (fun c => (c.rank1, c.rank2, c.k2, c.score2)) = [(1, 0, 0, 1)] ∧
    (∀ c ∈ tieKeepingSort pipeSnapshot, c.simpleScore ≠ 0) :=
  ⟨by decide!, by decide!,
    (C30_partner_has_score_and_site termTable termDb "rev_" pipeEnv tieKeepingSort pipeSnapshot
      tieKeepingSort_contract pipeSinglets_submitted pipeSnapshot_eq).1⟩

end Kojak
